import Mathlib

/-!
Room coordination core of the impostor game server (`src/server.js`)

A shallow embedding of the in-memory room registry and of the socket handlers
`joinRoom`, `startGame`, `resetGame`, `leaveRoom`, `readyToVote`, `castVote`
and `disconnect`, together with the helpers `majorityCount`, `beginVoting`,
`endVoting`, `broadcastLobby` and `getPlayersArray`.

Modelling conventions
* A JavaScript `Map` is an association list in insertion order (`JsMap`): `set`
  on an existing key keeps the position of the key, `set` on a new key appends,
  `delete` removes the key.  A JavaScript `Set` is a list in insertion order
  (`JsSet`).
* Socket identifiers, room codes, names and words are strings; a string is
  truthy exactly when it is not empty.  The length of a string is its number of
  UTF-16 code units (`jsLength`), as in JavaScript.
* Objects that the handlers mutate in place are modelled by writing the new
  room back under its code.
* `Math.random()` is a number in `[0, 1)`; it is modelled by a fraction
  `num / den` with `num < den` (`Draw`), so that
  `Math.floor(Math.random() * n)` is `num * n / den`.
* Every handler returns the new registry, the acknowledgement passed to `ack`
  and the list of emitted messages.
-/

namespace Impostor

abbrev SocketId := String
abbrev RoomCode := String

/-! ## JavaScript `Map` and `Set` -/

namespace JsMap

/-- The method `map.has(key)`. -/
def has {α : Type} : List (String × α) → String → Bool
  | [], _ => false
  | (k, _) :: m, key => if k = key then true else has m key

/-- The method `map.get(key)`; `none` stands for `undefined`. -/
def get {α : Type} : List (String × α) → String → Option α
  | [], _ => none
  | (k, v) :: m, key => if k = key then some v else get m key

/-- The method `map.set(key, val)`: an existing key keeps its place, a new key goes last. -/
def set {α : Type} : List (String × α) → String → α → List (String × α)
  | [], key, val => [(key, val)]
  | (k, v) :: m, key, val => if k = key then (k, val) :: m else (k, v) :: set m key val

/-- The method `map.delete(key)`. -/
def delete {α : Type} : List (String × α) → String → List (String × α)
  | [], _ => []
  | (k, v) :: m, key => if k = key then delete m key else (k, v) :: delete m key

/-- The method `map.keys()`. -/
def keys {α : Type} (m : List (String × α)) : List String := m.map Prod.fst

end JsMap

namespace JsSet

/-- The method `set.has(x)`. -/
def has (s : List String) (x : String) : Bool := decide (x ∈ s)

/-- The method `set.add(x)`. -/
def add (s : List String) (x : String) : List String := if x ∈ s then s else s ++ [x]

/-- The method `set.delete(x)`. -/
def delete (s : List String) (x : String) : List String := s.filter (fun y => decide (y ≠ x))

end JsSet

/-! ## Data model -/

structure Player where
  name : String
  isImpostor : Bool
deriving DecidableEq, Repr

inductive Phase where
  | lobby
  | round
  | voting
deriving DecidableEq, Repr

structure Room where
  hostId : SocketId
  started : Bool
  word : Option String
  players : List (SocketId × Player)
  phase : Phase
  readySet : List SocketId
  votes : List (SocketId × Nat)
  hasVoted : List SocketId
deriving DecidableEq, Repr

/-- The registry `rooms: Map<roomCode, Room>`. -/
abbrev Rooms := List (RoomCode × Room)

/-- A value that is `null`, `undefined` or a string (the `winnerName` field). -/
inductive JsName where
  | null
  | undefined
  | str (s : String)
deriving DecidableEq, Repr

/-- Messages emitted through `io.to(...).emit(...)`. -/
inductive Event where
  | lobbyUpdate (roomCode : RoomCode) (players : List (SocketId × String))
      (hostId : SocketId) (started : Bool)
  | gameStarted (recipient : SocketId) (role : String) (word : Option String)
      (wordLength : Nat)
  | gameReset (roomCode : RoomCode)
  | readyCount (roomCode : RoomCode) (count : Nat) (required : Nat)
  | votingStarted (roomCode : RoomCode) (players : List (SocketId × String))
  | voteProgress (roomCode : RoomCode) (voted : Nat) (total : Nat)
  | votingEnded (roomCode : RoomCode) (winnerId : Option SocketId) (winnerName : JsName)
      (isImpostor : Option Bool) (tally : List (SocketId × Nat))
deriving DecidableEq, Repr

/-- The `lobby` object returned by a successful `joinRoom`. -/
structure Lobby where
  roomCode : RoomCode
  players : List (SocketId × String)
  hostId : SocketId
  started : Bool
deriving DecidableEq, Repr

/-- The argument of the `ack` callback. -/
inductive Ack where
  | fail (error : String)
  | ok
  | joined (isHost : Bool) (lobby : Lobby)
deriving DecidableEq, Repr

/-- The `ok` field of an acknowledgement. -/
def Ack.isOk : Ack → Bool
  | Ack.fail _ => false
  | Ack.ok => true
  | Ack.joined _ _ => true

/-- One value of `Math.random()`: the fraction `num / den`, which lies in `[0, 1)`. -/
structure Draw where
  num : Nat
  den : Nat
  lt : num < den

/-- The index `Math.floor(Math.random() * n)`. -/
def Draw.index (d : Draw) (n : Nat) : Nat := d.num * n / d.den

/-- What a handler leaves behind: the registry, the acknowledgement, the messages. -/
structure Outcome where
  rooms : Rooms
  ack : Option Ack
  events : List Event

/-! ## Helpers of `server.js` -/

def getPlayersArray (room : Room) : List (SocketId × String) :=
  room.players.map (fun e => (e.1, e.2.name))

def broadcastLobby (rooms : Rooms) (roomCode : RoomCode) : List Event :=
  match JsMap.get rooms roomCode with
  | none => []
  | some room => [Event.lobbyUpdate roomCode (getPlayersArray room) room.hostId room.started]

def majorityCount (room : Room) : Nat := room.players.length / 2 + 1

def beginVoting (rooms : Rooms) (roomCode : RoomCode) : Rooms × List Event :=
  match JsMap.get rooms roomCode with
  | none => (rooms, [])
  | some room =>
    (JsMap.set rooms roomCode { room with phase := Phase.voting, votes := [], hasVoted := [] },
      [Event.votingStarted roomCode (getPlayersArray room)])

/-- One iteration of the winner scan of `endVoting` on `(winnerId, winnerCount)`. -/
def scanStep (acc : Option SocketId × Nat) (e : SocketId × Nat) : Option SocketId × Nat :=
  if e.2 > acc.2 then (some e.1, e.2)
  else if e.2 = acc.2 then (none, acc.2)
  else acc

/-- The winner scan of `endVoting`, started from `winnerId = null, winnerCount = 0`. -/
def scanVotes (votes : List (SocketId × Nat)) : Option SocketId × Nat :=
  votes.foldl scanStep (none, 0)

/-- Truthiness of `winnerId`: neither `null` nor the empty string. -/
def truthy : Option String → Bool
  | none => false
  | some s => decide (s ≠ "")

/-- The `votingEnded` message computed by `endVoting` for a room. -/
def votingEndedEvent (roomCode : RoomCode) (room : Room) : Event :=
  let winnerId := (scanVotes room.votes).1
  let winner : Option Player :=
    if truthy winnerId then winnerId.bind (JsMap.get room.players) else none
  Event.votingEnded roomCode winnerId
    (if truthy winnerId then
      (match winner with
        | some p => JsName.str p.name
        | none => JsName.undefined)
     else JsName.null)
    (if truthy winnerId then
      some (match winner with
        | some p => p.isImpostor
        | none => false)
     else none)
    room.votes

def endVoting (rooms : Rooms) (roomCode : RoomCode) : Rooms × List Event :=
  match JsMap.get rooms roomCode with
  | none => (rooms, [])
  | some room =>
    (JsMap.set rooms roomCode
        { room with phase := Phase.round, readySet := [], votes := [], hasVoted := [] },
      [votingEndedEvent roomCode room])

/-! ## The socket handlers -/

/-- A fresh room as created by `joinRoom`. -/
def newRoom (sid : SocketId) : Room :=
  { hostId := sid, started := false, word := none, players := [], phase := Phase.lobby,
    readySet := [], votes := [], hasVoted := [] }

/-- The number of UTF-16 code units of a character: two outside the basic plane. -/
def utf16Units (c : Char) : Nat := if c.toNat < 0x10000 then 1 else 2

/-- The property `s.length` of a JavaScript string: its number of UTF-16 code units. -/
def jsLength (s : String) : Nat := (s.data.map utf16Units).sum

/-- The longest run of leading characters that fits into `n` UTF-16 code units. -/
def takeUnits : Nat → List Char → List Char
  | _, [] => []
  | n, c :: cs => if utf16Units c ≤ n then c :: takeUnits (n - utf16Units c) cs else []

/-- The expression `String(name).slice(0, 24)`: the first 24 UTF-16 code units.  A
character of two code units that the boundary would cut in half is left out. -/
def sliceName (name : String) : String := String.mk (takeUnits 24 name.data)

def joinRoom (sid : SocketId) (roomCode : RoomCode) (name : String) (rooms : Rooms) : Outcome :=
  if roomCode = "" ∨ name = "" then ⟨rooms, some (Ack.fail "Brak danych."), []⟩
  else
    let rooms1 : Rooms :=
      if JsMap.has rooms roomCode then rooms else JsMap.set rooms roomCode (newRoom sid)
    match JsMap.get rooms1 roomCode with
    | none => ⟨rooms1, none, []⟩ -- not taken: `rooms1` has an entry for `roomCode`
    | some room =>
      if room.started then
        ⟨rooms1, some (Ack.fail "Runda już trwa. Poczekaj na następną."), []⟩
      else
        let players1 := JsMap.set room.players sid { name := sliceName name, isImpostor := false }
        let hostId1 :=
          if room.hostId = "" ∨ JsMap.has players1 room.hostId = false then sid else room.hostId
        let room1 : Room := { room with players := players1, hostId := hostId1 }
        let rooms2 := JsMap.set rooms1 roomCode room1
        let lobby : Lobby :=
          { roomCode := roomCode, players := getPlayersArray room1, hostId := room1.hostId,
            started := room1.started }
        ⟨rooms2, some (Ack.joined (decide (sid = room1.hostId)) lobby),
          broadcastLobby rooms2 roomCode⟩

/-- The built-in word list of `startGame`. -/
def words : List String :=
  ["rower", "tornado", "klawiatura", "pizza", "stadion", "teatr", "astronauta",
   "biblioteka", "dżungla", "mikrofon", "bank", "zamek", "lody", "robot", "most"]

/-- White space and line terminators removed by `String.prototype.trim`. -/
def isJsWhitespace (c : Char) : Bool :=
  let n := c.toNat
  n == 0x09 || n == 0x0A || n == 0x0B || n == 0x0C || n == 0x0D || n == 0x20 || n == 0xA0
    || n == 0x1680 || (0x2000 ≤ n && n ≤ 0x200A) || n == 0x2028 || n == 0x2029
    || n == 0x202F || n == 0x205F || n == 0x3000 || n == 0xFEFF

/-- The expression `String(s).trim()`. -/
def jsTrim (s : String) : String :=
  String.mk ((s.data.dropWhile isJsWhitespace).reverse.dropWhile isJsWhitespace).reverse

/-- The expression
`(customWord && String(customWord).trim()) || words[Math.floor(Math.random() * words.length)]`. -/
def chooseWord (customWord : Option String) (wordDraw : Draw) : String :=
  match customWord with
  | none => words.getD (wordDraw.index words.length) ""
  | some cw =>
    if jsTrim cw ≠ "" then jsTrim cw else words.getD (wordDraw.index words.length) ""

/-- The private `gameStarted` payload of one player. -/
def gameStartedEvent (word : String) (e : SocketId × Player) : Event :=
  Event.gameStarted e.1 (if e.2.isImpostor then "impostor" else "crewmate")
    (if e.2.isImpostor then none else some word) (jsLength word)

/-- The body of the loop `for (const [id, p] of room.players) p.isImpostor = id === impostorId`
for one entry. -/
def markImpostor (impostorId : Option SocketId) (e : SocketId × Player) : SocketId × Player :=
  (e.1, { e.2 with isImpostor := decide (some e.1 = impostorId) })

def startGame (sid : SocketId) (roomCode : RoomCode) (customWord : Option String)
    (wordDraw impostorDraw : Draw) (rooms : Rooms) : Outcome :=
  match JsMap.get rooms roomCode with
  | none => ⟨rooms, some (Ack.fail "Pokój nie istnieje."), []⟩
  | some room =>
    if sid ≠ room.hostId then ⟨rooms, some (Ack.fail "Tylko host może startować grę."), []⟩
    else if room.started then ⟨rooms, some (Ack.fail "Gra już wystartowała."), []⟩
    else
      let players := JsMap.keys room.players
      if players.length < 3 then ⟨rooms, some (Ack.fail "Potrzebujesz min. 3 graczy."), []⟩
      else
        let word := chooseWord customWord wordDraw
        let impostorId : Option SocketId := players.get? (impostorDraw.index players.length)
        let players1 := room.players.map (markImpostor impostorId)
        let room1 : Room :=
          { room with players := players1, started := true, word := some word,
                      phase := Phase.round, readySet := [], votes := [], hasVoted := [] }
        let rooms1 := JsMap.set rooms roomCode room1
        ⟨rooms1, some Ack.ok,
          room1.players.map (gameStartedEvent word) ++ broadcastLobby rooms1 roomCode⟩

def resetGame (sid : SocketId) (roomCode : RoomCode) (rooms : Rooms) : Outcome :=
  match JsMap.get rooms roomCode with
  | none => ⟨rooms, some (Ack.fail "Pokój nie istnieje."), []⟩
  | some room =>
    if sid ≠ room.hostId then ⟨rooms, some (Ack.fail "Tylko host może resetować."), []⟩
    else
      let room1 : Room :=
        { room with started := false, word := none, phase := Phase.lobby, readySet := [],
                    votes := [], hasVoted := [],
                    players := room.players.map (fun e => (e.1, { e.2 with isImpostor := false })) }
      let rooms1 := JsMap.set rooms roomCode room1
      ⟨rooms1, some Ack.ok, Event.gameReset roomCode :: broadcastLobby rooms1 roomCode⟩

def leaveRoom (sid : SocketId) (roomCode : RoomCode) (rooms : Rooms) : Outcome :=
  match JsMap.get rooms roomCode with
  | none => ⟨rooms, some Ack.ok, []⟩
  | some room =>
    if JsMap.has room.players sid then
      match JsMap.delete room.players sid with
      | [] => ⟨JsMap.delete rooms roomCode, some Ack.ok, []⟩
      | first :: rest =>
        let room1 : Room :=
          { room with players := first :: rest,
                      hostId := if room.hostId = sid then first.1 else room.hostId }
        let rooms1 := JsMap.set rooms roomCode room1
        ⟨rooms1, some Ack.ok, broadcastLobby rooms1 roomCode⟩
    else ⟨rooms, some Ack.ok, []⟩

def readyToVote (sid : SocketId) (roomCode : RoomCode) (rooms : Rooms) : Outcome :=
  match JsMap.get rooms roomCode with
  | none => ⟨rooms, some (Ack.fail "Pokój nie istnieje."), []⟩
  | some room =>
    if room.phase ≠ Phase.round then ⟨rooms, some (Ack.fail "Nie w tej fazie."), []⟩
    else if JsMap.has room.players sid = false then
      ⟨rooms, some (Ack.fail "Nie jesteś w tym pokoju."), []⟩
    else
      let room1 : Room := { room with readySet := JsSet.add room.readySet sid }
      let rooms1 := JsMap.set rooms roomCode room1
      let progress := Event.readyCount roomCode room1.readySet.length (majorityCount room1)
      if room1.readySet.length ≥ majorityCount room1 then
        ⟨(beginVoting rooms1 roomCode).1, some Ack.ok,
          progress :: (beginVoting rooms1 roomCode).2⟩
      else ⟨rooms1, some Ack.ok, [progress]⟩

def castVote (sid : SocketId) (roomCode : RoomCode) (targetId : SocketId) (rooms : Rooms) :
    Outcome :=
  match JsMap.get rooms roomCode with
  | none => ⟨rooms, some (Ack.fail "Pokój nie istnieje."), []⟩
  | some room =>
    if room.phase ≠ Phase.voting then ⟨rooms, some (Ack.fail "Głosowanie nie trwa."), []⟩
    else if JsMap.has room.players sid = false then
      ⟨rooms, some (Ack.fail "Nie jesteś w tym pokoju."), []⟩
    else if JsMap.has room.players targetId = false then
      ⟨rooms, some (Ack.fail "Nieprawidłowy cel."), []⟩
    else if JsSet.has room.hasVoted sid then ⟨rooms, some (Ack.fail "Już głosowałeś."), []⟩
    else
      let room1 : Room :=
        { room with hasVoted := JsSet.add room.hasVoted sid,
                    votes := JsMap.set room.votes targetId
                      ((JsMap.get room.votes targetId).getD 0 + 1) }
      let rooms1 := JsMap.set rooms roomCode room1
      let progress := Event.voteProgress roomCode room1.hasVoted.length room1.players.length
      if (JsMap.get room1.votes targetId).getD 0 ≥ majorityCount room1 then
        ⟨(endVoting rooms1 roomCode).1, some Ack.ok, progress :: (endVoting rooms1 roomCode).2⟩
      else if room1.hasVoted.length = room1.players.length then
        ⟨(endVoting rooms1 roomCode).1, some Ack.ok, progress :: (endVoting rooms1 roomCode).2⟩
      else ⟨rooms1, some Ack.ok, [progress]⟩

/-- The scan `for (const cnt of room.votes.values()) if (cnt > maxVotes) maxVotes = cnt`. -/
def maxVotes (votes : List (SocketId × Nat)) : Nat :=
  votes.foldl (fun m e => if e.2 > m then e.2 else m) 0

/-- The body of the loop of the `disconnect` handler for the entry stored under
`roomCode`; an entry that is no longer in the registry is not visited. -/
def disconnectRoom (sid : SocketId) (acc : Rooms × List Event) (roomCode : RoomCode) :
    Rooms × List Event :=
  match JsMap.get acc.1 roomCode with
  | none => acc
  | some room =>
    if JsMap.has room.players sid = false then acc
    else
      match JsMap.delete room.players sid with
      | [] => (JsMap.delete acc.1 roomCode, acc.2)
      | first :: rest =>
        let room1 : Room :=
          { room with players := first :: rest,
                      hostId := if room.hostId = sid then first.1 else room.hostId }
        if room1.phase = Phase.voting then
          let room2 : Room :=
            { room1 with readySet := JsSet.delete room1.readySet sid,
                         hasVoted := JsSet.delete room1.hasVoted sid }
          let rooms2 := JsMap.set acc.1 roomCode room2
          if maxVotes room2.votes ≥ majorityCount room2
              ∨ room2.hasVoted.length = room2.players.length then
            ((endVoting rooms2 roomCode).1, acc.2 ++ (endVoting rooms2 roomCode).2)
          else (rooms2, acc.2 ++ broadcastLobby rooms2 roomCode)
        else
          (JsMap.set acc.1 roomCode room1,
            acc.2 ++ broadcastLobby (JsMap.set acc.1 roomCode room1) roomCode)

/-- The `disconnect` handler: the loop over `rooms.entries()`. -/
def disconnect (sid : SocketId) (rooms : Rooms) : Outcome :=
  ⟨((JsMap.keys rooms).foldl (disconnectRoom sid) (rooms, [])).1, none,
    ((JsMap.keys rooms).foldl (disconnectRoom sid) (rooms, [])).2⟩

/-! ## The registry as a transition system -/

/-- A message from a client (with the identifier of its socket) or a transport
notification. -/
inductive Action where
  | joinRoom (sid : SocketId) (roomCode : RoomCode) (name : String)
  | startGame (sid : SocketId) (roomCode : RoomCode) (customWord : Option String)
      (wordDraw : Draw) (impostorDraw : Draw)
  | resetGame (sid : SocketId) (roomCode : RoomCode)
  | leaveRoom (sid : SocketId) (roomCode : RoomCode)
  | readyToVote (sid : SocketId) (roomCode : RoomCode)
  | castVote (sid : SocketId) (roomCode : RoomCode) (targetId : SocketId)
  | disconnect (sid : SocketId)

/-- Dispatch of one action to its handler. -/
def step (rooms : Rooms) : Action → Outcome
  | Action.joinRoom sid roomCode name => joinRoom sid roomCode name rooms
  | Action.startGame sid roomCode customWord wordDraw impostorDraw =>
      startGame sid roomCode customWord wordDraw impostorDraw rooms
  | Action.resetGame sid roomCode => resetGame sid roomCode rooms
  | Action.leaveRoom sid roomCode => leaveRoom sid roomCode rooms
  | Action.readyToVote sid roomCode => readyToVote sid roomCode rooms
  | Action.castVote sid roomCode targetId => castVote sid roomCode targetId rooms
  | Action.disconnect sid => disconnect sid rooms

/-- The registry after a sequence of actions. -/
def run (rooms : Rooms) (actions : List Action) : Rooms :=
  actions.foldl (fun s a => (step s a).rooms) rooms

/-- The registry states that the server can be in: those obtained from the empty
registry by some sequence of actions. -/
def Reachable (rooms : Rooms) : Prop := ∃ actions : List Action, run [] actions = rooms

/-! ## Invariants of the registry -/

/-- The number of players of a room whose `isImpostor` flag is set. -/
def impostorCount (room : Room) : Nat := room.players.countP (fun e => e.2.isImpostor)

/-- Well-formedness of one stored room. -/
structure RoomOk (r : Room) : Prop where
  players_ne : r.players ≠ []
  host_mem : r.hostId ∈ JsMap.keys r.players
  players_nodup : (JsMap.keys r.players).Nodup
  started_iff : r.started = true ↔ r.phase ≠ Phase.lobby
  lobby_imp : r.phase = Phase.lobby → impostorCount r = 0
  imp_le : impostorCount r ≤ 1
  lobby_clean : r.phase = Phase.lobby →
    r.readySet = [] ∧ r.votes = [] ∧ r.hasVoted = [] ∧ r.word = none
  round_clean : r.phase = Phase.round → r.votes = [] ∧ r.hasVoted = []
  word_some : r.phase ≠ Phase.lobby → r.word ≠ none
  ready_nodup : r.readySet.Nodup
  voted_nodup : r.hasVoted.Nodup
  votes_nodup : (JsMap.keys r.votes).Nodup
  votes_pos : ∀ e ∈ r.votes, 0 < e.2

/-- Well-formedness of the registry: room codes are distinct and every stored
room is well-formed. -/
def RegOk (rooms : Rooms) : Prop :=
  (JsMap.keys rooms).Nodup ∧ ∀ e ∈ rooms, RoomOk e.2

/-- Whether an action is something other than a `leaveRoom` request addressed to
a room that is in phase `voting`. -/
def leaveAllowed (rooms : Rooms) : Action → Bool
  | Action.leaveRoom _ roomCode =>
    match JsMap.get rooms roomCode with
    | none => true
    | some room => decide (room.phase ≠ Phase.voting)
  | _ => true

/-- Whether, along a sequence of actions started in `rooms`, no `leaveRoom` is
addressed to a room while that room is in phase `voting`. -/
def noLeaveDuringVote : Rooms → List Action → Bool
  | _, [] => true
  | rooms, a :: actions => leaveAllowed rooms a && noLeaveDuringVote (step rooms a).rooms actions

/-- The registry states obtained from the empty registry by sequences of actions
in which nobody leaves a room through `leaveRoom` while that room is voting
(departures during a vote happen through `disconnect` only). -/
def ReachableWithoutLeave (rooms : Rooms) : Prop :=
  ∃ actions : List Action, noLeaveDuringVote [] actions = true ∧ run [] actions = rooms

/-- Every participant recorded in `hasVoted` is a current member of the room. -/
def VotersAreMembers (r : Room) : Prop := ∀ x ∈ r.hasVoted, x ∈ JsMap.keys r.players

/-- Whether a message is a private `gameStarted` payload. -/
def Event.isGameStarted : Event → Bool
  | Event.gameStarted _ _ _ _ => true
  | _ => false

/-! ## Concrete scenarios -/

/-- The draw `Math.random() = 0`, which selects the first element. -/
def drawFirst : Draw := ⟨0, 1, by decide⟩

/-- Three players join room `R` (the first one, `a`, becomes host). -/
def lobbyOfThree : List Action :=
  [Action.joinRoom "a" "R" "Ann", Action.joinRoom "b" "R" "Bob", Action.joinRoom "c" "R" "Cy"]

/-- Three players join, the host starts a round in which `a` is drawn as
impostor, and `a` then leaves the room. -/
def impostorLeaves : List Action :=
  lobbyOfThree ++
    [Action.startGame "a" "R" (some "pizza") drawFirst drawFirst, Action.leaveRoom "a" "R"]

/-- Three players join and the host starts a round. -/
def roundOfThree : List Action :=
  lobbyOfThree ++ [Action.startGame "a" "R" (some "pizza") drawFirst drawFirst]

/-- A room of four players at the moment `castVote` calls `endVoting` after the
fourth vote of a 2-2 split between `a` and `b`. -/
def tiedRoom : Room :=
  { hostId := "a", started := true, word := some "pizza",
    players := [("a", { name := "Ann", isImpostor := true }),
                ("b", { name := "Bob", isImpostor := false }),
                ("c", { name := "Cy", isImpostor := false }),
                ("d", { name := "Dan", isImpostor := false })],
    phase := Phase.voting, readySet := ["a", "b", "c"],
    votes := [("a", 2), ("b", 2)], hasVoted := ["a", "b", "c", "d"] }

/-- Four players join, a round starts and three of them signal readiness, so
that voting begins. -/
def votingOfFour : List Action :=
  [Action.joinRoom "a" "R" "Ann", Action.joinRoom "b" "R" "Bob", Action.joinRoom "c" "R" "Cy",
   Action.joinRoom "d" "R" "Dan",
   Action.startGame "a" "R" (some "pizza") drawFirst drawFirst,
   Action.readyToVote "a" "R", Action.readyToVote "b" "R", Action.readyToVote "c" "R"]

/-- During a vote of four players, `a` votes for `b` and then leaves through
`leaveRoom`; afterwards `b` votes for `c`. -/
def voterLeaves : List Action :=
  votingOfFour ++
    [Action.castVote "a" "R" "b", Action.leaveRoom "a" "R", Action.castVote "b" "R" "c"]

/-- Five players join and a round starts; `a` and `b` signal readiness and then
both disconnect. -/
def readyThenGone : List Action :=
  [Action.joinRoom "a" "R" "Ann", Action.joinRoom "b" "R" "Bob", Action.joinRoom "c" "R" "Cy",
   Action.joinRoom "d" "R" "Dan", Action.joinRoom "e" "R" "Eve",
   Action.startGame "a" "R" (some "pizza") drawFirst drawFirst,
   Action.readyToVote "a" "R", Action.readyToVote "b" "R",
   Action.disconnect "a", Action.disconnect "b"]

/-- During a vote of four players, `a` votes for `b` and `b` then disconnects. -/
def targetDisconnects : List Action :=
  votingOfFour ++ [Action.castVote "a" "R" "b", Action.disconnect "b"]

/-- During a vote of four players, `a` and `c` both vote for `b`; two votes are
fewer than `majorityCount = 3`, so the vote stays open. -/
def twoVotesForTarget : List Action :=
  votingOfFour ++ [Action.castVote "a" "R" "b", Action.castVote "c" "R" "b"]

end Impostor

namespace Impostor

/-! ## Further notions used in the statements -/

/-- The room code a client action is addressed to; `none` for the transport
notification `disconnect`. -/
def Action.roomCode : Action → Option RoomCode
  | Action.joinRoom _ roomCode _ => some roomCode
  | Action.startGame _ roomCode _ _ _ => some roomCode
  | Action.resetGame _ roomCode => some roomCode
  | Action.leaveRoom _ roomCode => some roomCode
  | Action.readyToVote _ roomCode => some roomCode
  | Action.castVote _ roomCode _ => some roomCode
  | Action.disconnect _ => none

/-- A room of three players in phase `lobby`. -/
def smallRoom : Room :=
  { hostId := "a", started := false, word := none,
    players := [("a", { name := "Ann", isImpostor := false }),
                ("b", { name := "Bob", isImpostor := false }),
                ("c", { name := "Cy", isImpostor := false })],
    phase := Phase.lobby, readySet := [], votes := [], hasVoted := [] }

/-- The room that `joinRoom` stores for a room `room` that accepts the join. -/
def joinedRoom (sid : SocketId) (name : String) (room : Room) : Room :=
  { room with
    players := JsMap.set room.players sid { name := sliceName name, isImpostor := false },
    hostId :=
      if room.hostId = "" ∨ JsMap.has
          (JsMap.set room.players sid { name := sliceName name, isImpostor := false })
          room.hostId = false
      then sid else room.hostId }

/-- The room that `startGame` stores. -/
def startedRoom (customWord : Option String) (wordDraw impostorDraw : Draw) (room : Room) :
    Room :=
  { room with
    players := room.players.map (markImpostor
      ((JsMap.keys room.players).get? (impostorDraw.index (JsMap.keys room.players).length))),
    started := true, word := some (chooseWord customWord wordDraw), phase := Phase.round,
    readySet := [], votes := [], hasVoted := [] }

/-- The room that `resetGame` stores. -/
def resetRoom (room : Room) : Room :=
  { room with
    started := false, word := none, phase := Phase.lobby, readySet := [], votes := [],
    hasVoted := [],
    players := room.players.map (fun e => (e.1, { e.2 with isImpostor := false })) }

/-- The room after `sid` has been removed from a room in which somebody remains. -/
def removedRoom (sid : SocketId) (room : Room) : Room :=
  { room with
    players := JsMap.delete room.players sid,
    hostId :=
      if room.hostId = sid then ((JsMap.keys (JsMap.delete room.players sid)).head?).getD sid
      else room.hostId }

/-- The room after `sid` has been removed by `disconnect` during a vote, before
the vote is re-evaluated. -/
def disconnectedVoter (sid : SocketId) (room : Room) : Room :=
  { removedRoom sid room with
    readySet := JsSet.delete room.readySet sid,
    hasVoted := JsSet.delete room.hasVoted sid }

/-- The room after `readyToVote` has recorded `sid`. -/
def readyRoom (sid : SocketId) (room : Room) : Room :=
  { room with readySet := JsSet.add room.readySet sid }

/-- The room after `beginVoting`. -/
def votingRoom (room : Room) : Room :=
  { room with phase := Phase.voting, votes := [], hasVoted := [] }

/-- The room after `castVote` has recorded the vote of `sid` for `targetId`. -/
def votedRoom (sid targetId : SocketId) (room : Room) : Room :=
  { room with
    hasVoted := JsSet.add room.hasVoted sid,
    votes := JsMap.set room.votes targetId ((JsMap.get room.votes targetId).getD 0 + 1) }

/-- The room after `endVoting`. -/
def concludedRoom (room : Room) : Room :=
  { room with phase := Phase.round, readySet := [], votes := [], hasVoted := [] }

/-- The ways in which one action can change the entry stored under `code`:
`Effect a code before after` relates the entry before the action to the entry
after it (`none` when there is no entry). -/
inductive Effect (a : Action) (code : RoomCode) : Option Room → Option Room → Prop where
  | same (v : Option Room) : Effect a code v v
  | created (sid : SocketId) (name : String) (ha : a = Action.joinRoom sid code name) :
      Effect a code none (some (joinedRoom sid name (newRoom sid)))
  | joined (sid : SocketId) (name : String) (room : Room)
      (ha : a = Action.joinRoom sid code name) (hst : room.started = false) :
      Effect a code (some room) (some (joinedRoom sid name room))
  | started (sid : SocketId) (cw : Option String) (d1 d2 : Draw) (room : Room)
      (ha : a = Action.startGame sid code cw d1 d2) (hh : sid = room.hostId)
      (hst : room.started = false) (hl : 3 ≤ room.players.length) :
      Effect a code (some room) (some (startedRoom cw d1 d2 room))
  | reset (sid : SocketId) (room : Room) (ha : a = Action.resetGame sid code)
      (hh : sid = room.hostId) : Effect a code (some room) (some (resetRoom room))
  | deleted (sid : SocketId) (room : Room)
      (ha : a = Action.leaveRoom sid code ∨ a = Action.disconnect sid)
      (hm : sid ∈ JsMap.keys room.players) (hd : JsMap.delete room.players sid = []) :
      Effect a code (some room) none
  | removed (sid : SocketId) (room : Room)
      (ha : a = Action.leaveRoom sid code
        ∨ (a = Action.disconnect sid ∧ room.phase ≠ Phase.voting))
      (hm : sid ∈ JsMap.keys room.players) (hd : JsMap.delete room.players sid ≠ []) :
      Effect a code (some room) (some (removedRoom sid room))
  | dropped (sid : SocketId) (room : Room) (ha : a = Action.disconnect sid)
      (hm : sid ∈ JsMap.keys room.players) (hd : JsMap.delete room.players sid ≠ [])
      (hph : room.phase = Phase.voting)
      (hc : ¬ (maxVotes room.votes ≥ majorityCount (disconnectedVoter sid room)
        ∨ (disconnectedVoter sid room).hasVoted.length
            = (disconnectedVoter sid room).players.length)) :
      Effect a code (some room) (some (disconnectedVoter sid room))
  | droppedEnd (sid : SocketId) (room : Room) (ha : a = Action.disconnect sid)
      (hm : sid ∈ JsMap.keys room.players) (hd : JsMap.delete room.players sid ≠ [])
      (hph : room.phase = Phase.voting)
      (hc : maxVotes room.votes ≥ majorityCount (disconnectedVoter sid room)
        ∨ (disconnectedVoter sid room).hasVoted.length
            = (disconnectedVoter sid room).players.length) :
      Effect a code (some room) (some (concludedRoom (disconnectedVoter sid room)))
  | ready (sid : SocketId) (room : Room) (ha : a = Action.readyToVote sid code)
      (hph : room.phase = Phase.round) (hm : sid ∈ JsMap.keys room.players)
      (hc : ¬ (readyRoom sid room).readySet.length ≥ majorityCount (readyRoom sid room)) :
      Effect a code (some room) (some (readyRoom sid room))
  | readyBegin (sid : SocketId) (room : Room) (ha : a = Action.readyToVote sid code)
      (hph : room.phase = Phase.round) (hm : sid ∈ JsMap.keys room.players)
      (hc : (readyRoom sid room).readySet.length ≥ majorityCount (readyRoom sid room)) :
      Effect a code (some room) (some (votingRoom (readyRoom sid room)))
  | voted (sid t : SocketId) (room : Room) (ha : a = Action.castVote sid code t)
      (hph : room.phase = Phase.voting) (hm : sid ∈ JsMap.keys room.players)
      (ht : t ∈ JsMap.keys room.players) (hv : sid ∉ room.hasVoted)
      (hc : ¬ ((JsMap.get (votedRoom sid t room).votes t).getD 0
          ≥ majorityCount (votedRoom sid t room)
        ∨ (votedRoom sid t room).hasVoted.length = (votedRoom sid t room).players.length)) :
      Effect a code (some room) (some (votedRoom sid t room))
  | votedEnd (sid t : SocketId) (room : Room) (ha : a = Action.castVote sid code t)
      (hph : room.phase = Phase.voting) (hm : sid ∈ JsMap.keys room.players)
      (ht : t ∈ JsMap.keys room.players) (hv : sid ∉ room.hasVoted)
      (hc : (JsMap.get (votedRoom sid t room).votes t).getD 0
          ≥ majorityCount (votedRoom sid t room)
        ∨ (votedRoom sid t room).hasVoted.length = (votedRoom sid t room).players.length) :
      Effect a code (some room) (some (concludedRoom (votedRoom sid t room)))

/-- During a vote of four players in which `a` is the impostor, `b` and `c` both
vote for `a`; two votes are fewer than `majorityCount = 3`, so the vote stays open. -/
def impostorAccused : List Action :=
  votingOfFour ++ [Action.castVote "b" "R" "a", Action.castVote "c" "R" "a"]

/-- The sum of all counts in a `votes` map. -/
def votesTotal (votes : List (SocketId × Nat)) : Nat := (votes.map Prod.snd).sum

/-- Whether an action removes a member from the room stored under `code`: a
`leaveRoom` addressed to `code` by a member, or the `disconnect` of a member. -/
def departs (rooms : Rooms) (code : RoomCode) : Action → Bool
  | Action.leaveRoom sid roomCode =>
    decide (roomCode = code) &&
      (match JsMap.get rooms code with
        | some room => JsMap.has room.players sid
        | none => false)
  | Action.disconnect sid =>
    match JsMap.get rooms code with
    | some room => JsMap.has room.players sid
    | none => false
  | _ => false

/-- Whether, along a sequence of actions started in `rooms`, no member leaves the
room stored under `code` or disconnects from it. -/
def noDeparture (code : RoomCode) : Rooms → List Action → Bool
  | _, [] => true
  | rooms, a :: actions => !departs rooms code a && noDeparture code (step rooms a).rooms actions

/-- Bookkeeping of an open vote: in phase `voting` the counts of `votes` add up
to the size of `hasVoted`, and everybody in `hasVoted` is a current member. -/
def VoteSound (room : Room) : Prop :=
  room.phase = Phase.voting →
    votesTotal room.votes = room.hasVoted.length ∧ VotersAreMembers room

/-- Four players join, a round starts, and `a` and `b` signal readiness. -/
def twoReady : List Action :=
  [Action.joinRoom "a" "R" "Ann", Action.joinRoom "b" "R" "Bob", Action.joinRoom "c" "R" "Cy",
   Action.joinRoom "d" "R" "Dan",
   Action.startGame "a" "R" (some "pizza") drawFirst drawFirst,
   Action.readyToVote "a" "R", Action.readyToVote "b" "R"]

/-- The third readiness signal begins the vote, then `a` and `c` vote for `b`. -/
def voteForTarget : List Action :=
  [Action.readyToVote "c" "R", Action.castVote "a" "R" "b", Action.castVote "c" "R" "b"]

/-- Whether `sid` is a member of the room stored under `code` whose `isImpostor`
flag is set. -/
def isImpostorOf (rooms : Rooms) (code : RoomCode) (sid : SocketId) : Bool :=
  match JsMap.get rooms code with
  | none => false
  | some room =>
    match JsMap.get room.players sid with
    | none => false
    | some p => p.isImpostor

/-- Whether an action removes the impostor from the room stored under `code`: a
`leaveRoom` addressed to `code` by the member whose flag is set, or the
`disconnect` of that member. -/
def impostorDeparts (rooms : Rooms) (code : RoomCode) : Action → Bool
  | Action.leaveRoom sid roomCode => decide (roomCode = code) && isImpostorOf rooms code sid
  | Action.disconnect sid => isImpostorOf rooms code sid
  | _ => false

/-- Whether, along a sequence of actions started in `rooms`, the impostor of the
room stored under `code` never leaves that room and never disconnects. -/
def impostorStays (code : RoomCode) : Rooms → List Action → Bool
  | _, [] => true
  | rooms, a :: actions =>
    !impostorDeparts rooms code a && impostorStays code (step rooms a).rooms actions

/-- Four players join room `R` (the first one, `a`, becomes host). -/
def lobbyOfFour : List Action :=
  [Action.joinRoom "a" "R" "Ann", Action.joinRoom "b" "R" "Bob", Action.joinRoom "c" "R" "Cy",
   Action.joinRoom "d" "R" "Dan"]

/-- The host starts a round in which `a` is drawn as impostor; the crewmate `d`
leaves; `b` and `c` signal readiness, so that voting begins among the three
remaining members; `b` and `c` vote for `a`, which concludes the vote. -/
def roundWithVote : List Action :=
  [Action.startGame "a" "R" (some "pizza") drawFirst drawFirst, Action.leaveRoom "d" "R",
   Action.readyToVote "b" "R", Action.readyToVote "c" "R",
   Action.castVote "b" "R" "a", Action.castVote "c" "R" "a"]

end Impostor

/-! ## Lemmas on association lists -/

namespace Impostor
namespace JsMap
variable {α : Type}

theorem has_iff_mem_keys (m : List (String × α)) (k : String) :
    has m k = true ↔ k ∈ keys m := by
  induction m with
  | nil => simp [has, keys]
  | cons e m ih =>
    obtain ⟨k', v⟩ := e
    by_cases h : k' = k
    · simp [has, keys, h]
    · have h' : ¬ k = k' := fun x => h x.symm
      simp only [has, h, if_false, ih, keys, List.map_cons, List.mem_cons, h', false_or]

theorem has_eq_false_iff (m : List (String × α)) (k : String) :
    has m k = false ↔ k ∉ keys m := by
  rw [← has_iff_mem_keys]; simp

theorem get_eq_none_iff (m : List (String × α)) (k : String) :
    get m k = none ↔ k ∉ keys m := by
  induction m with
  | nil => simp [get, keys]
  | cons e m ih =>
    obtain ⟨k', v⟩ := e
    by_cases h : k' = k
    · simp [get, keys, h]
    · have h' : ¬ k = k' := fun x => h x.symm
      simp only [get, h, if_false, ih, keys, List.map_cons, List.mem_cons, h', false_or]

theorem mem_of_get (m : List (String × α)) (k : String) (v : α) (h : get m k = some v) :
    (k, v) ∈ m := by
  induction m with
  | nil => simp [get] at h
  | cons e m ih =>
    obtain ⟨k', v'⟩ := e
    by_cases hk : k' = k
    · simp [get, hk] at h; simp [hk, h]
    · simp only [get, hk, if_false] at h
      exact List.mem_cons_of_mem _ (ih h)

theorem get_of_mem (m : List (String × α)) (hn : (keys m).Nodup) (k : String) (v : α)
    (h : (k, v) ∈ m) : get m k = some v := by
  induction m with
  | nil => simp at h
  | cons e m ih =>
    obtain ⟨k', v'⟩ := e
    simp only [keys, List.map_cons, List.nodup_cons] at hn
    rcases List.mem_cons.1 h with h1 | h1
    · cases h1; simp [get]
    · have hk : k' ≠ k := by
        rintro rfl
        exact hn.1 (List.mem_map.2 ⟨(k', v), h1, rfl⟩)
      simp only [get, hk, if_false]
      exact ih hn.2 h1

theorem mem_keys_of_get (m : List (String × α)) (k : String) (v : α) (h : get m k = some v) :
    k ∈ keys m := List.mem_map.2 ⟨(k, v), mem_of_get m k v h, rfl⟩

theorem get_set_eq (m : List (String × α)) (k : String) (v : α) :
    get (set m k v) k = some v := by
  induction m with
  | nil => simp [set, get]
  | cons e m ih =>
    obtain ⟨k', v'⟩ := e
    by_cases hk : k' = k
    · simp [set, get, hk]
    · simp [set, get, hk, ih]

theorem get_set_ne (m : List (String × α)) (k k' : String) (v : α) (hne : k ≠ k') :
    get (set m k v) k' = get m k' := by
  induction m with
  | nil => simp [set, get, hne]
  | cons e m ih =>
    obtain ⟨k0, v0⟩ := e
    by_cases hk : k0 = k
    · subst hk; simp [set, get, hne]
    · by_cases hk' : k0 = k'
      · subst hk'; simp [set, get, hk]
      · simp [set, get, hk, hk', ih]

theorem get_delete_eq (m : List (String × α)) (k : String) : get (delete m k) k = none := by
  induction m with
  | nil => simp [delete, get]
  | cons e m ih =>
    obtain ⟨k0, v0⟩ := e
    by_cases hk : k0 = k
    · simp [delete, hk, ih]
    · simp [delete, get, hk, ih]

theorem get_delete_ne (m : List (String × α)) (k k' : String) (hne : k ≠ k') :
    get (delete m k) k' = get m k' := by
  induction m with
  | nil => simp [delete, get]
  | cons e m ih =>
    obtain ⟨k0, v0⟩ := e
    by_cases hk : k0 = k
    · subst hk; simp [delete, get, hne, ih]
    · by_cases hk' : k0 = k'
      · subst hk'; simp [delete, get, hk]
      · simp [delete, get, hk, hk', ih]

theorem mem_set (m : List (String × α)) (k : String) (v : α) (e : String × α)
    (h : e ∈ set m k v) : e ∈ m ∨ e = (k, v) := by
  induction m with
  | nil => simp [set] at h; exact Or.inr h
  | cons e0 m ih =>
    obtain ⟨k0, v0⟩ := e0
    by_cases hk : k0 = k
    · subst hk
      simp only [set, if_true, List.mem_cons] at h
      rcases h with h | h
      · exact Or.inr h
      · exact Or.inl (List.mem_cons_of_mem _ h)
    · simp only [set, hk, if_false, List.mem_cons] at h
      rcases h with h | h
      · subst h; exact Or.inl (List.mem_cons_self _ _)
      · rcases ih h with h1 | h1
        · exact Or.inl (List.mem_cons_of_mem _ h1)
        · exact Or.inr h1

theorem mem_set_self (m : List (String × α)) (k : String) (v : α) : (k, v) ∈ set m k v :=
  mem_of_get _ _ _ (get_set_eq m k v)

theorem keys_set (m : List (String × α)) (k : String) (v : α) :
    keys (set m k v) = if k ∈ keys m then keys m else keys m ++ [k] := by
  induction m with
  | nil => simp [set, keys]
  | cons e0 m ih =>
    obtain ⟨k0, v0⟩ := e0
    by_cases hk : k0 = k
    · subst hk; simp [set, keys]
    · have hk' : ¬ k = k0 := fun x => hk x.symm
      simp only [keys] at ih
      simp only [set, hk, if_false, keys, List.map_cons, ih, List.mem_cons, hk', false_or]
      split <;> simp

theorem nodup_keys_set (m : List (String × α)) (k : String) (v : α) (h : (keys m).Nodup) :
    (keys (set m k v)).Nodup := by
  rw [keys_set]
  split
  · exact h
  · rename_i hk
    exact List.Nodup.append h (List.nodup_singleton k) (by simpa using hk)

theorem delete_sublist (m : List (String × α)) (k : String) : List.Sublist (delete m k) m := by
  induction m with
  | nil => simp [delete]
  | cons e0 m ih =>
    obtain ⟨k0, v0⟩ := e0
    by_cases hk : k0 = k
    · simp only [delete, hk, if_true]; exact List.Sublist.cons _ ih
    · simp only [delete, hk, if_false]; exact List.Sublist.cons₂ _ ih

theorem mem_delete (m : List (String × α)) (k : String) (e : String × α) :
    e ∈ delete m k ↔ e ∈ m ∧ e.1 ≠ k := by
  induction m with
  | nil => simp [delete]
  | cons e0 m ih =>
    obtain ⟨k0, v0⟩ := e0
    by_cases hk : k0 = k
    · subst hk
      simp only [delete, if_true, ih, List.mem_cons]
      constructor
      · rintro ⟨h1, h2⟩; exact ⟨Or.inr h1, h2⟩
      · rintro ⟨h1 | h1, h2⟩
        · subst h1; exact absurd rfl h2
        · exact ⟨h1, h2⟩
    · simp only [delete, hk, if_false, List.mem_cons, ih]
      constructor
      · rintro (h1 | ⟨h1, h2⟩)
        · subst h1; exact ⟨Or.inl rfl, hk⟩
        · exact ⟨Or.inr h1, h2⟩
      · rintro ⟨h1 | h1, h2⟩
        · exact Or.inl h1
        · exact Or.inr ⟨h1, h2⟩

theorem nodup_keys_delete (m : List (String × α)) (k : String) (h : (keys m).Nodup) :
    (keys (delete m k)).Nodup :=
  List.Nodup.sublist (List.Sublist.map _ (delete_sublist m k)) h

theorem mem_keys_delete (m : List (String × α)) (k x : String) :
    x ∈ keys (delete m k) ↔ x ∈ keys m ∧ x ≠ k := by
  simp only [keys, List.mem_map, mem_delete]
  constructor
  · rintro ⟨e, ⟨h1, h2⟩, rfl⟩; exact ⟨⟨e, h1, rfl⟩, h2⟩
  · rintro ⟨⟨e, h1, rfl⟩, h2⟩; exact ⟨e, ⟨h1, h2⟩, rfl⟩

theorem set_set (m : List (String × α)) (k : String) (v w : α) :
    set (set m k v) k w = set m k w := by
  induction m with
  | nil => simp [set]
  | cons e0 m ih =>
    obtain ⟨k0, v0⟩ := e0
    by_cases hk : k0 = k
    · simp [set, hk]
    · simp [set, hk, ih]

end JsMap
end Impostor

/-! ## Preservation of well-formedness -/

namespace Impostor

theorem regOk_nil : RegOk [] := ⟨by simp [JsMap.keys], by simp⟩

theorem regOk_set (s : Rooms) (c : RoomCode) (r : Room) (hs : RegOk s) (hr : RoomOk r) :
    RegOk (JsMap.set s c r) := by
  refine ⟨JsMap.nodup_keys_set s c r hs.1, ?_⟩
  intro e he
  rcases JsMap.mem_set s c r e he with h | h
  · exact hs.2 e h
  · subst h; exact hr

theorem regOk_delete (s : Rooms) (c : RoomCode) (hs : RegOk s) : RegOk (JsMap.delete s c) :=
  ⟨JsMap.nodup_keys_delete s c hs.1, fun e he => hs.2 e ((JsMap.mem_delete s c e).1 he).1⟩

theorem regOk_get (s : Rooms) (c : RoomCode) (r : Room) (hs : RegOk s)
    (h : JsMap.get s c = some r) : RoomOk r :=
  hs.2 (c, r) (JsMap.mem_of_get s c r h)

theorem roomOk_join (sid : SocketId) (p : Player) (hp : p.isImpostor = false) (room : Room)
    (h : room = newRoom sid ∨ RoomOk room) (hs : room.started = false) :
    RoomOk { room with
      players := JsMap.set room.players sid p,
      hostId := if room.hostId = "" ∨ JsMap.has (JsMap.set room.players sid p) room.hostId = false
        then sid else room.hostId } := by
  have hsid : sid ∈ JsMap.keys (JsMap.set room.players sid p) :=
    JsMap.mem_keys_of_get _ _ _ (JsMap.get_set_eq _ _ _)
  have hhost : (if room.hostId = "" ∨ JsMap.has (JsMap.set room.players sid p) room.hostId = false
        then sid else room.hostId) ∈ JsMap.keys (JsMap.set room.players sid p) := by
    split
    · exact hsid
    · rename_i hc
      rw [not_or, JsMap.has_eq_false_iff, not_not] at hc
      exact hc.2
  have hne : JsMap.set room.players sid p ≠ [] := by
    intro h0; rw [h0] at hsid; simp [JsMap.keys] at hsid
  rcases h with h | h
  · subst h
    constructor <;> simp_all [newRoom, JsMap.set, JsMap.keys, impostorCount]
  · have hl : room.phase = Phase.lobby := by
      by_contra hc
      have := h.started_iff.2 hc
      rw [hs] at this; exact absurd this (by simp)
    have h0 : ∀ e ∈ room.players, e.2.isImpostor = false := by
      have := h.lobby_imp hl
      simpa [impostorCount, List.countP_eq_zero] using this
    have h1 : impostorCount { room with
      players := JsMap.set room.players sid p,
      hostId := if room.hostId = "" ∨ JsMap.has (JsMap.set room.players sid p) room.hostId = false
        then sid else room.hostId } = 0 := by
      simp only [impostorCount, List.countP_eq_zero]
      intro e he
      rcases JsMap.mem_set _ _ _ _ he with h2 | h2
      · simp [h0 e h2]
      · subst h2; simp [hp]
    exact
      { players_ne := hne
        host_mem := hhost
        players_nodup := JsMap.nodup_keys_set _ _ _ h.players_nodup
        started_iff := h.started_iff
        lobby_imp := fun _ => h1
        imp_le := by rw [h1]; exact Nat.zero_le _
        lobby_clean := h.lobby_clean
        round_clean := h.round_clean
        word_some := h.word_some
        ready_nodup := h.ready_nodup
        voted_nodup := h.voted_nodup
        votes_nodup := h.votes_nodup
        votes_pos := h.votes_pos }

theorem joinRoom_ok (sid : SocketId) (c : RoomCode) (name : String) (s : Rooms) (hs : RegOk s) :
    RegOk (joinRoom sid c name s).rooms := by
  unfold joinRoom
  split
  · exact hs
  · by_cases hh : JsMap.has s c = true
    · simp only [hh, if_true]
      split
      · exact hs
      · rename_i room hg
        split
        · exact hs
        · rename_i hst
          exact regOk_set _ _ _ hs
            (roomOk_join sid _ rfl room (Or.inr (regOk_get s c room hs hg)) (by simpa using hst))
    · have hh' : JsMap.has s c = false := by simpa using hh
      simp only [hh', Bool.false_eq_true, if_false, JsMap.get_set_eq, JsMap.set_set]
      split
      · rename_i hst; simp [newRoom] at hst
      · exact regOk_set _ _ _ hs (roomOk_join sid _ rfl (newRoom sid) (Or.inl rfl) rfl)

theorem countP_markImpostor (players : List (SocketId × Player)) (k : SocketId) :
    (players.map (markImpostor (some k))).countP (fun e => e.2.isImpostor)
      = (JsMap.keys players).count k := by
  rw [List.countP_map]
  simp only [JsMap.keys, List.count, List.countP_map]
  congr 1
  funext e
  rw [Bool.eq_iff_iff]
  simp only [Function.comp_def, markImpostor, beq_iff_eq, decide_eq_true_eq, Option.some.injEq]

theorem countP_flag_le_one (players : List (SocketId × Player)) (imp : Option SocketId)
    (hn : (JsMap.keys players).Nodup) :
    (players.map (markImpostor imp)).countP (fun e => e.2.isImpostor) ≤ 1 := by
  cases imp with
  | none => simp [List.countP_map, Function.comp_def, markImpostor]
  | some k =>
    rw [countP_markImpostor]
    exact List.nodup_iff_count_le_one.1 hn k

theorem countP_flag_eq_one (players : List (SocketId × Player)) (k : SocketId)
    (hn : (JsMap.keys players).Nodup) (hk : k ∈ JsMap.keys players) :
    (players.map (markImpostor (some k))).countP (fun e => e.2.isImpostor) = 1 := by
  rw [countP_markImpostor]
  exact List.count_eq_one_of_mem hn hk

theorem keys_markImpostor (players : List (SocketId × Player)) (imp : Option SocketId) :
    JsMap.keys (players.map (markImpostor imp)) = JsMap.keys players := by
  simp [JsMap.keys, Function.comp_def, markImpostor]

theorem Draw.index_lt (d : Draw) (n : Nat) (hn : 0 < n) : d.index n < n := by
  unfold Draw.index
  have hd : 0 < d.den := Nat.lt_of_le_of_lt (Nat.zero_le _) d.lt
  rw [Nat.div_lt_iff_lt_mul hd]
  calc d.num * n < d.den * n := Nat.mul_lt_mul_of_pos_right d.lt hn
    _ = n * d.den := Nat.mul_comm _ _

theorem keys_map_flag (players : List (SocketId × Player)) (f : SocketId × Player → Player) :
    JsMap.keys (players.map (fun e => (e.1, f e))) = JsMap.keys players := by
  simp [JsMap.keys, Function.comp_def]

theorem startGame_ok (sid : SocketId) (c : RoomCode) (cw : Option String) (d1 d2 : Draw)
    (s : Rooms) (hs : RegOk s) : RegOk (startGame sid c cw d1 d2 s).rooms := by
  unfold startGame
  split
  · exact hs
  · rename_i room hg
    have h := regOk_get s c room hs hg
    split
    · exact hs
    · split
      · exact hs
      · dsimp only
        split
        · exact hs
        · refine regOk_set _ _ _ hs ?_
          exact
            { players_ne := by simpa using h.players_ne
              host_mem := by
                simp only [keys_markImpostor]; exact h.host_mem
              players_nodup := by
                simp only [keys_markImpostor]; exact h.players_nodup
              started_iff := by simp
              lobby_imp := by simp
              imp_le := countP_flag_le_one _ _ h.players_nodup
              lobby_clean := by simp
              round_clean := by simp
              word_some := by simp
              ready_nodup := by simp
              voted_nodup := by simp
              votes_nodup := by simp [JsMap.keys]
              votes_pos := by simp }

theorem resetGame_ok (sid : SocketId) (c : RoomCode) (s : Rooms) (hs : RegOk s) :
    RegOk (resetGame sid c s).rooms := by
  unfold resetGame
  split
  · exact hs
  · rename_i room hg
    have h := regOk_get s c room hs hg
    split
    · exact hs
    · refine regOk_set _ _ _ hs ?_
      have h0 : (room.players.map
          (fun e => (e.1, { e.2 with isImpostor := false }))).countP
          (fun e => e.2.isImpostor) = 0 := by
        simp [List.countP_eq_zero]
      exact
        { players_ne := by simpa using h.players_ne
          host_mem := by
            simp only [keys_map_flag]; exact h.host_mem
          players_nodup := by
            simp only [keys_map_flag]; exact h.players_nodup
          started_iff := by simp
          lobby_imp := fun _ => h0
          imp_le := by simp only [impostorCount]; rw [h0]; exact Nat.zero_le _
          lobby_clean := by simp
          round_clean := by simp
          word_some := by simp
          ready_nodup := by simp
          voted_nodup := by simp
          votes_nodup := by simp [JsMap.keys]
          votes_pos := by simp }

theorem nodup_add (s : List String) (x : String) (h : s.Nodup) : (JsSet.add s x).Nodup := by
  unfold JsSet.add
  split
  · exact h
  · rename_i hx
    exact List.Nodup.append h (List.nodup_singleton x) (by simpa using hx)

theorem nodup_setDelete (s : List String) (x : String) (h : s.Nodup) :
    (JsSet.delete s x).Nodup := List.Nodup.filter _ h

theorem roomOk_remove (room : Room) (sid : SocketId) (first : SocketId × Player)
    (rest : List (SocketId × Player)) (h : RoomOk room)
    (hd : JsMap.delete room.players sid = first :: rest) :
    RoomOk { room with players := first :: rest,
                       hostId := if room.hostId = sid then first.1 else room.hostId } := by
  have hsub : List.Sublist (first :: rest) room.players := hd ▸ JsMap.delete_sublist _ _
  have hc : (first :: rest).countP (fun e => e.2.isImpostor) ≤ impostorCount room :=
    List.Sublist.countP_le _ hsub
  exact
    { players_ne := by simp
      host_mem := by
        by_cases hh : room.hostId = sid
        · simp [hh, JsMap.keys]
        · simp only [hh, if_false]
          rw [← hd, JsMap.mem_keys_delete]
          exact ⟨h.host_mem, hh⟩
      players_nodup := by
        show (JsMap.keys (first :: rest)).Nodup
        rw [← hd]; exact JsMap.nodup_keys_delete _ _ h.players_nodup
      started_iff := h.started_iff
      lobby_imp := fun hl => Nat.le_zero.1 (h.lobby_imp hl ▸ hc)
      imp_le := le_trans hc h.imp_le
      lobby_clean := h.lobby_clean
      round_clean := h.round_clean
      word_some := h.word_some
      ready_nodup := h.ready_nodup
      voted_nodup := h.voted_nodup
      votes_nodup := h.votes_nodup
      votes_pos := h.votes_pos }

theorem leaveRoom_ok (sid : SocketId) (c : RoomCode) (s : Rooms) (hs : RegOk s) :
    RegOk (leaveRoom sid c s).rooms := by
  unfold leaveRoom
  split
  · exact hs
  · rename_i room hg
    have h := regOk_get s c room hs hg
    split
    · split
      · exact regOk_delete s c hs
      · rename_i first rest hd
        exact regOk_set _ _ _ hs (roomOk_remove room sid first rest h hd)
    · exact hs

theorem roomOk_endVoting (room : Room) (h : RoomOk room) (hp : room.phase ≠ Phase.lobby) :
    RoomOk { room with phase := Phase.round, readySet := [], votes := [], hasVoted := [] } :=
  { players_ne := h.players_ne
    host_mem := h.host_mem
    players_nodup := h.players_nodup
    started_iff := by simpa using h.started_iff.2 hp
    lobby_imp := by simp
    imp_le := h.imp_le
    lobby_clean := by simp
    round_clean := by simp
    word_some := fun _ => h.word_some hp
    ready_nodup := by simp
    voted_nodup := by simp
    votes_nodup := by simp [JsMap.keys]
    votes_pos := by simp }

theorem endVoting_ok (s : Rooms) (c : RoomCode) (hs : RegOk s)
    (hp : ∀ room, JsMap.get s c = some room → room.phase ≠ Phase.lobby) :
    RegOk (endVoting s c).1 := by
  unfold endVoting
  split
  · exact hs
  · rename_i room hg
    exact regOk_set _ _ _ hs (roomOk_endVoting room (regOk_get s c room hs hg) (hp room hg))

theorem roomOk_beginVoting (room : Room) (h : RoomOk room) (hp : room.phase ≠ Phase.lobby) :
    RoomOk { room with phase := Phase.voting, votes := [], hasVoted := [] } :=
  { players_ne := h.players_ne
    host_mem := h.host_mem
    players_nodup := h.players_nodup
    started_iff := by simpa using h.started_iff.2 hp
    lobby_imp := by simp
    imp_le := h.imp_le
    lobby_clean := by simp
    round_clean := by simp
    word_some := fun _ => h.word_some hp
    ready_nodup := h.ready_nodup
    voted_nodup := by simp
    votes_nodup := by simp [JsMap.keys]
    votes_pos := by simp }

theorem beginVoting_ok (s : Rooms) (c : RoomCode) (hs : RegOk s)
    (hp : ∀ room, JsMap.get s c = some room → room.phase ≠ Phase.lobby) :
    RegOk (beginVoting s c).1 := by
  unfold beginVoting
  split
  · exact hs
  · rename_i room hg
    exact regOk_set _ _ _ hs (roomOk_beginVoting room (regOk_get s c room hs hg) (hp room hg))

theorem readyToVote_ok (sid : SocketId) (c : RoomCode) (s : Rooms) (hs : RegOk s) :
    RegOk (readyToVote sid c s).rooms := by
  unfold readyToVote
  split
  · exact hs
  · rename_i room hg
    have h := regOk_get s c room hs hg
    split
    · exact hs
    · rename_i hph
      have hph' : room.phase = Phase.round := by simpa using hph
      split
      · exact hs
      · have hr : RoomOk { room with readySet := JsSet.add room.readySet sid } :=
          { players_ne := h.players_ne
            host_mem := h.host_mem
            players_nodup := h.players_nodup
            started_iff := h.started_iff
            lobby_imp := h.lobby_imp
            imp_le := h.imp_le
            lobby_clean := fun hl => by
              have : room.phase = Phase.lobby := hl
              rw [hph'] at this; cases this
            round_clean := h.round_clean
            word_some := h.word_some
            ready_nodup := nodup_add _ _ h.ready_nodup
            voted_nodup := h.voted_nodup
            votes_nodup := h.votes_nodup
            votes_pos := h.votes_pos }
        dsimp only
        split
        · refine beginVoting_ok _ _ (regOk_set _ _ _ hs hr) ?_
          intro r hr'
          rw [JsMap.get_set_eq] at hr'
          cases hr'
          simp [hph']
        · exact regOk_set _ _ _ hs hr

theorem castVote_ok (sid : SocketId) (c : RoomCode) (t : SocketId) (s : Rooms) (hs : RegOk s) :
    RegOk (castVote sid c t s).rooms := by
  unfold castVote
  split
  · exact hs
  · rename_i room hg
    have h := regOk_get s c room hs hg
    split
    · exact hs
    · rename_i hph
      have hph' : room.phase = Phase.voting := by simpa using hph
      split
      · exact hs
      · split
        · exact hs
        · split
          · exact hs
          · have hr : RoomOk { room with
                hasVoted := JsSet.add room.hasVoted sid,
                votes := JsMap.set room.votes t ((JsMap.get room.votes t).getD 0 + 1) } :=
              { players_ne := h.players_ne
                host_mem := h.host_mem
                players_nodup := h.players_nodup
                started_iff := h.started_iff
                lobby_imp := h.lobby_imp
                imp_le := h.imp_le
                lobby_clean := fun hl => by
                  have : room.phase = Phase.lobby := hl
                  rw [hph'] at this; cases this
                round_clean := fun hl => by
                  have : room.phase = Phase.round := hl
                  rw [hph'] at this; cases this
                word_some := h.word_some
                ready_nodup := h.ready_nodup
                voted_nodup := nodup_add _ _ h.voted_nodup
                votes_nodup := JsMap.nodup_keys_set _ _ _ h.votes_nodup
                votes_pos := by
                  intro e he
                  rcases JsMap.mem_set _ _ _ _ he with h1 | h1
                  · exact h.votes_pos e h1
                  · subst h1; exact Nat.succ_pos _ }
            have hend : RegOk (endVoting (JsMap.set s c { room with
                hasVoted := JsSet.add room.hasVoted sid,
                votes := JsMap.set room.votes t ((JsMap.get room.votes t).getD 0 + 1) }) c).1 := by
              refine endVoting_ok _ _ (regOk_set _ _ _ hs hr) ?_
              intro r hr'
              rw [JsMap.get_set_eq] at hr'
              cases hr'
              simp [hph']
            dsimp only
            split
            · exact hend
            · split
              · exact hend
              · exact regOk_set _ _ _ hs hr

theorem regOk_ite (c : Prop) [Decidable c] (a b : Rooms × List Event) (ha : RegOk a.1)
    (hb : RegOk b.1) : RegOk (if c then a else b).1 := by
  split <;> assumption

theorem disconnectRoom_ok (sid : SocketId) (acc : Rooms × List Event) (c : RoomCode)
    (hs : RegOk acc.1) : RegOk (disconnectRoom sid acc c).1 := by
  unfold disconnectRoom
  split
  · exact hs
  · rename_i room hg
    have h := regOk_get acc.1 c room hs hg
    split
    · exact hs
    · split
      · exact regOk_delete _ c hs
      · rename_i first rest hd
        have h1 := roomOk_remove room sid first rest h hd
        dsimp only
        split
        · rename_i hph
          have hr : RoomOk { room with
              players := first :: rest,
              hostId := if room.hostId = sid then first.1 else room.hostId,
              readySet := JsSet.delete room.readySet sid,
              hasVoted := JsSet.delete room.hasVoted sid } :=
            { players_ne := h1.players_ne
              host_mem := h1.host_mem
              players_nodup := h1.players_nodup
              started_iff := h1.started_iff
              lobby_imp := h1.lobby_imp
              imp_le := h1.imp_le
              lobby_clean := fun hl => by
                have : room.phase = Phase.lobby := hl
                rw [hph] at this; cases this
              round_clean := fun hl => by
                have : room.phase = Phase.round := hl
                rw [hph] at this; cases this
              word_some := h1.word_some
              ready_nodup := nodup_setDelete _ _ h.ready_nodup
              voted_nodup := nodup_setDelete _ _ h.voted_nodup
              votes_nodup := h.votes_nodup
              votes_pos := h.votes_pos }
          refine regOk_ite _ _ _ ?_ ?_
          · refine endVoting_ok _ _ (regOk_set _ _ _ hs hr) ?_
            intro r hr'
            rw [JsMap.get_set_eq] at hr'
            cases hr'
            simp [hph]
          · exact regOk_set _ _ _ hs hr
        · exact regOk_set _ _ _ hs h1

theorem disconnect_fold_ok (sid : SocketId) (ks : List RoomCode) (acc : Rooms × List Event)
    (hs : RegOk acc.1) : RegOk (ks.foldl (disconnectRoom sid) acc).1 := by
  induction ks generalizing acc with
  | nil => exact hs
  | cons k ks ih => exact ih _ (disconnectRoom_ok sid acc k hs)

theorem disconnect_ok (sid : SocketId) (s : Rooms) (hs : RegOk s) :
    RegOk (disconnect sid s).rooms :=
  disconnect_fold_ok sid _ (s, []) hs

theorem step_ok (s : Rooms) (a : Action) (hs : RegOk s) : RegOk (step s a).rooms := by
  cases a with
  | joinRoom sid c name => exact joinRoom_ok sid c name s hs
  | startGame sid c cw d1 d2 => exact startGame_ok sid c cw d1 d2 s hs
  | resetGame sid c => exact resetGame_ok sid c s hs
  | leaveRoom sid c => exact leaveRoom_ok sid c s hs
  | readyToVote sid c => exact readyToVote_ok sid c s hs
  | castVote sid c t => exact castVote_ok sid c t s hs
  | disconnect sid => exact disconnect_ok sid s hs

theorem run_ok (actions : List Action) (s : Rooms) (hs : RegOk s) : RegOk (run s actions) := by
  induction actions generalizing s with
  | nil => exact hs
  | cons a actions ih => exact ih _ (step_ok s a hs)

theorem regOk_of_reachable (s : Rooms) (h : Reachable s) : RegOk s := by
  obtain ⟨actions, rfl⟩ := h
  exact run_ok actions [] regOk_nil

theorem reachable_step (s : Rooms) (a : Action) (h : Reachable s) : Reachable (step s a).rooms := by
  obtain ⟨actions, rfl⟩ := h
  exact ⟨actions ++ [a], by simp [run, List.foldl_append]⟩

theorem startGame_ack_ok (sid : SocketId) (c : RoomCode) (cw : Option String) (d1 d2 : Draw)
    (s : Rooms) (h : (startGame sid c cw d1 d2 s).ack = some Ack.ok) :
    ∃ room, JsMap.get s c = some room ∧ sid = room.hostId ∧ room.started = false
      ∧ 3 ≤ room.players.length
      ∧ (startGame sid c cw d1 d2 s).rooms = JsMap.set s c
          { room with
            players := room.players.map (markImpostor
              ((JsMap.keys room.players).get? (d2.index (JsMap.keys room.players).length))),
            started := true, word := some (chooseWord cw d1), phase := Phase.round,
            readySet := [], votes := [], hasVoted := [] }
      ∧ (startGame sid c cw d1 d2 s).events =
          (room.players.map (markImpostor
              ((JsMap.keys room.players).get? (d2.index (JsMap.keys room.players).length)))).map
            (gameStartedEvent (chooseWord cw d1))
          ++ broadcastLobby (startGame sid c cw d1 d2 s).rooms c := by
  unfold startGame at h ⊢
  split at h
  · simp at h
  · rename_i room hg
    split at h
    · simp at h
    · rename_i hh
      split at h
      · simp at h
      · rename_i hst
        dsimp only at h
        split at h
        · simp at h
        · rename_i hl
          refine ⟨room, ?_, by simpa using hh, by simpa using hst, ?_, ?_, ?_⟩
          · simp [hg]
          · simpa [JsMap.keys] using hl
          · simp [hg, hh, hst, hl]
          · simp [hg, hh, hst, hl]

theorem scanVotes_snoc (l : List (SocketId × Nat)) (e : SocketId × Nat) :
    scanVotes (l ++ [e]) = scanStep (scanVotes l) e := by
  simp [scanVotes, List.foldl_append]

theorem scan_spec (l : List (SocketId × Nat)) :
    (JsMap.keys l).Nodup → (∀ e ∈ l, 0 < e.2) →
    (∀ e ∈ l, e.2 ≤ (scanVotes l).2) ∧
    (l ≠ [] → ∃ e ∈ l, e.2 = (scanVotes l).2) ∧
    (∀ t, (scanVotes l).1 = some t →
      (t, (scanVotes l).2) ∈ l ∧ ∀ e ∈ l, e.1 ≠ t → e.2 < (scanVotes l).2) ∧
    ((scanVotes l).1 = none →
      l = [] ∨ ∃ e1 ∈ l, ∃ e2 ∈ l, e1.1 ≠ e2.1 ∧ e1.2 = (scanVotes l).2
        ∧ e2.2 = (scanVotes l).2) := by
  induction l using List.reverseRecOn with
  | nil => intro _ _; simp [scanVotes]
  | append_singleton l e ih =>
    intro hn hpos
    have hkeys : JsMap.keys (l ++ [e]) = JsMap.keys l ++ [e.1] := by simp [JsMap.keys]
    rw [hkeys] at hn
    have hn' : (JsMap.keys l).Nodup := (List.nodup_append.1 hn).1
    have hnot : ∀ e' ∈ l, e'.1 ≠ e.1 := by
      intro e' he' heq
      have h1 : e'.1 ∈ JsMap.keys l := List.mem_map.2 ⟨e', he', rfl⟩
      exact (List.nodup_append.1 hn).2.2 h1 (by simp [heq])
    have hpos' : ∀ e' ∈ l, 0 < e'.2 := fun e' he' => hpos e' (List.mem_append_left _ he')
    have hepos : 0 < e.2 := hpos e (by simp)
    obtain ⟨h1, h2, h3, h4⟩ := ih hn' hpos'
    have hnil : l = [] → (scanVotes l).2 = 0 := by intro hl; subst hl; rfl
    rw [scanVotes_snoc]
    generalize scanVotes l = r at h1 h2 h3 h4 hnil
    obtain ⟨w, m⟩ := r
    simp only at h1 h2 h3 h4 hnil
    have hlne : e.2 ≤ m → l ≠ [] := by
      intro hle hl
      have := hnil hl
      omega
    unfold scanStep
    by_cases hgt : e.2 > m
    · simp only [hgt, if_true]
      refine ⟨?_, fun _ => ⟨e, by simp, rfl⟩, ?_, by simp⟩
      · intro e' he'
        rcases List.mem_append.1 he' with h | h
        · exact le_trans (h1 e' h) (le_of_lt hgt)
        · simp at h; subst h; exact le_refl _
      · intro t ht
        simp at ht
        subst ht
        refine ⟨by simp, ?_⟩
        intro e' he' hne
        rcases List.mem_append.1 he' with h | h
        · exact lt_of_le_of_lt (h1 e' h) hgt
        · simp at h; subst h; exact absurd rfl hne
    · by_cases heq : e.2 = m
      · rw [if_neg hgt, if_pos heq]
        refine ⟨?_, fun _ => ⟨e, by simp, heq⟩, by simp, ?_⟩
        · intro e' he'
          rcases List.mem_append.1 he' with h | h
          · exact h1 e' h
          · simp at h; subst h; exact le_of_eq heq
        · intro _
          right
          obtain ⟨e1, he1, he1m⟩ := h2 (hlne (le_of_eq heq))
          exact ⟨e1, List.mem_append_left _ he1, e, by simp, hnot e1 he1, he1m, heq⟩
      · rw [if_neg hgt, if_neg heq]
        have hlt : e.2 < m := by omega
        have hl := hlne (le_of_lt hlt)
        refine ⟨?_, ?_, ?_, ?_⟩
        · intro e' he'
          rcases List.mem_append.1 he' with h | h
          · exact h1 e' h
          · simp at h; subst h; exact le_of_lt hlt
        · intro _
          obtain ⟨e1, he1, he1m⟩ := h2 hl
          exact ⟨e1, List.mem_append_left _ he1, he1m⟩
        · intro t ht
          obtain ⟨ha, hb⟩ := h3 t ht
          refine ⟨List.mem_append_left _ ha, ?_⟩
          intro e' he' hne
          rcases List.mem_append.1 he' with h | h
          · exact hb e' h hne
          · simp at h; subst h; exact hlt
        · intro hw
          rcases h4 hw with h | ⟨e1, he1, e2, he2, h⟩
          · exact absurd h hl
          · exact Or.inr ⟨e1, List.mem_append_left _ he1, e2, List.mem_append_left _ he2, h⟩

theorem scan_some_iff (l : List (SocketId × Nat)) (hn : (JsMap.keys l).Nodup)
    (hpos : ∀ e ∈ l, 0 < e.2) (t : SocketId) :
    (scanVotes l).1 = some t ↔ ∃ n, (t, n) ∈ l ∧ ∀ e ∈ l, e.1 ≠ t → e.2 < n := by
  obtain ⟨h1, h2, h3, h4⟩ := scan_spec l hn hpos
  constructor
  · intro h; exact ⟨_, h3 t h⟩
  · rintro ⟨n, hm, hmax⟩
    have hnm : n ≤ (scanVotes l).2 := h1 (t, n) hm
    cases hw : (scanVotes l).1 with
    | none =>
      rcases h4 hw with h | ⟨e1, he1, e2, he2, hne, hc1, hc2⟩
      · subst h; simp at hm
      · by_cases ht : e1.1 = t
        · have := hmax e2 he2 (fun h => hne (ht.trans h.symm))
          omega
        · have := hmax e1 he1 ht
          omega
    | some t' =>
      obtain ⟨ha, hb⟩ := h3 t' hw
      by_cases ht : t' = t
      · rw [ht]
      · have := hmax (t', (scanVotes l).2) ha ht
        simp at this
        omega

theorem scan_none_iff (l : List (SocketId × Nat)) (hn : (JsMap.keys l).Nodup)
    (hpos : ∀ e ∈ l, 0 < e.2) :
    (scanVotes l).1 = none ↔
      l = [] ∨ ∃ e1 ∈ l, ∃ e2 ∈ l, e1.1 ≠ e2.1 ∧ e1.2 = e2.2 ∧ ∀ e ∈ l, e.2 ≤ e1.2 := by
  obtain ⟨h1, h2, h3, h4⟩ := scan_spec l hn hpos
  constructor
  · intro hw
    rcases h4 hw with h | ⟨e1, he1, e2, he2, hne, hc1, hc2⟩
    · exact Or.inl h
    · exact Or.inr ⟨e1, he1, e2, he2, hne, hc1.trans hc2.symm, fun e he => hc1 ▸ h1 e he⟩
  · rintro (h | ⟨e1, he1, e2, he2, hne, hc, hmax⟩)
    · subst h; rfl
    · cases hw : (scanVotes l).1 with
      | none => rfl
      | some t =>
        exfalso
        obtain ⟨ha, hb⟩ := h3 t hw
        have hm : (scanVotes l).2 ≤ e1.2 := hmax (t, (scanVotes l).2) ha
        have ht1 : e1.1 = t := by
          by_contra hc1
          have := hb e1 he1 hc1
          omega
        have ht2 : e2.1 = t := by
          by_contra hc2
          have := hb e2 he2 hc2
          omega
        exact hne (ht1.trans ht2.symm)

theorem JsMap.mem_keys_set {α : Type} (m : List (String × α)) (k : String) (v : α) (x : String)
    (h : x ∈ JsMap.keys m) : x ∈ JsMap.keys (JsMap.set m k v) := by
  rw [JsMap.keys_set]
  split
  · exact h
  · exact List.mem_append_left _ h

theorem voters_set (s : Rooms) (c : RoomCode) (r : Room)
    (hs : ∀ e ∈ s, VotersAreMembers e.2) (hr : VotersAreMembers r) :
    ∀ e ∈ JsMap.set s c r, VotersAreMembers e.2 := by
  intro e he
  rcases JsMap.mem_set s c r e he with h | h
  · exact hs e h
  · subst h; exact hr

theorem voters_delete (s : Rooms) (c : RoomCode) (hs : ∀ e ∈ s, VotersAreMembers e.2) :
    ∀ e ∈ JsMap.delete s c, VotersAreMembers e.2 :=
  fun e he => hs e ((JsMap.mem_delete s c e).1 he).1

theorem voters_endVoting (s : Rooms) (c : RoomCode) (hs : ∀ e ∈ s, VotersAreMembers e.2) :
    ∀ e ∈ (endVoting s c).1, VotersAreMembers e.2 := by
  unfold endVoting
  split
  · exact hs
  · exact voters_set _ _ _ hs (by intro x hx; simp at hx)

theorem voters_beginVoting (s : Rooms) (c : RoomCode) (hs : ∀ e ∈ s, VotersAreMembers e.2) :
    ∀ e ∈ (beginVoting s c).1, VotersAreMembers e.2 := by
  unfold beginVoting
  split
  · exact hs
  · exact voters_set _ _ _ hs (by intro x hx; simp at hx)

theorem voters_joinRoom (sid : SocketId) (c : RoomCode) (name : String) (s : Rooms)
    (hs : ∀ e ∈ s, VotersAreMembers e.2) :
    ∀ e ∈ (joinRoom sid c name s).rooms, VotersAreMembers e.2 := by
  unfold joinRoom
  split
  · exact hs
  · by_cases hh : JsMap.has s c = true
    · simp only [hh, if_true]
      split
      · exact hs
      · rename_i room hg
        split
        · exact hs
        · refine voters_set _ _ _ hs ?_
          intro x hx
          exact JsMap.mem_keys_set _ _ _ _ (hs (c, room) (JsMap.mem_of_get s c room hg) x hx)
    · have hh' : JsMap.has s c = false := by simpa using hh
      simp only [hh', Bool.false_eq_true, if_false, JsMap.get_set_eq, JsMap.set_set]
      split
      · rename_i hst; simp [newRoom] at hst
      · exact voters_set _ _ _ hs (by intro x hx; simp [newRoom] at hx)

theorem voters_startGame (sid : SocketId) (c : RoomCode) (cw : Option String) (d1 d2 : Draw)
    (s : Rooms) (hs : ∀ e ∈ s, VotersAreMembers e.2) :
    ∀ e ∈ (startGame sid c cw d1 d2 s).rooms, VotersAreMembers e.2 := by
  unfold startGame
  split
  · exact hs
  · split
    · exact hs
    · split
      · exact hs
      · dsimp only
        split
        · exact hs
        · exact voters_set _ _ _ hs (by intro x hx; simp at hx)

theorem voters_resetGame (sid : SocketId) (c : RoomCode) (s : Rooms)
    (hs : ∀ e ∈ s, VotersAreMembers e.2) :
    ∀ e ∈ (resetGame sid c s).rooms, VotersAreMembers e.2 := by
  unfold resetGame
  split
  · exact hs
  · split
    · exact hs
    · exact voters_set _ _ _ hs (by intro x hx; simp at hx)

theorem voters_readyToVote (sid : SocketId) (c : RoomCode) (s : Rooms)
    (hs : ∀ e ∈ s, VotersAreMembers e.2) :
    ∀ e ∈ (readyToVote sid c s).rooms, VotersAreMembers e.2 := by
  unfold readyToVote
  split
  · exact hs
  · rename_i room hg
    have hr : VotersAreMembers { room with readySet := JsSet.add room.readySet sid } :=
      hs (c, room) (JsMap.mem_of_get s c room hg)
    split
    · exact hs
    · split
      · exact hs
      · dsimp only
        split
        · exact voters_beginVoting _ _ (voters_set _ _ _ hs hr)
        · exact voters_set _ _ _ hs hr

theorem mem_add (l : List String) (a x : String) (h : x ∈ JsSet.add l a) : x ∈ l ∨ x = a := by
  unfold JsSet.add at h
  split at h
  · exact Or.inl h
  · simpa using h

theorem voters_castVote (sid : SocketId) (c : RoomCode) (t : SocketId) (s : Rooms)
    (hs : ∀ e ∈ s, VotersAreMembers e.2) :
    ∀ e ∈ (castVote sid c t s).rooms, VotersAreMembers e.2 := by
  unfold castVote
  split
  · exact hs
  · rename_i room hg
    split
    · exact hs
    · split
      · exact hs
      · rename_i hmem
        split
        · exact hs
        · split
          · exact hs
          · have hr : VotersAreMembers { room with
                hasVoted := JsSet.add room.hasVoted sid,
                votes := JsMap.set room.votes t ((JsMap.get room.votes t).getD 0 + 1) } := by
              intro x hx
              rcases mem_add _ _ _ hx with h | h
              · exact hs (c, room) (JsMap.mem_of_get s c room hg) x h
              · subst h
                exact (JsMap.has_iff_mem_keys _ _).1 (by simpa using hmem)
            dsimp only
            split
            · exact voters_endVoting _ _ (voters_set _ _ _ hs hr)
            · split
              · exact voters_endVoting _ _ (voters_set _ _ _ hs hr)
              · exact voters_set _ _ _ hs hr

theorem voters_ite (c : Prop) [Decidable c] (a b : Rooms × List Event)
    (ha : ∀ e ∈ a.1, VotersAreMembers e.2) (hb : ∀ e ∈ b.1, VotersAreMembers e.2) :
    ∀ e ∈ (if c then a else b).1, VotersAreMembers e.2 := by
  split <;> assumption

theorem voters_disconnectRoom (sid : SocketId) (acc : Rooms × List Event) (c : RoomCode)
    (hok : RegOk acc.1) (hs : ∀ e ∈ acc.1, VotersAreMembers e.2) :
    ∀ e ∈ (disconnectRoom sid acc c).1, VotersAreMembers e.2 := by
  unfold disconnectRoom
  split
  · exact hs
  · rename_i room hg
    have h := regOk_get acc.1 c room hok hg
    have hv := hs (c, room) (JsMap.mem_of_get _ c room hg)
    split
    · exact hs
    · split
      · exact voters_delete _ c hs
      · rename_i first rest hd
        dsimp only
        split
        · have hr : VotersAreMembers { room with
              players := first :: rest,
              hostId := if room.hostId = sid then first.1 else room.hostId,
              readySet := JsSet.delete room.readySet sid,
              hasVoted := JsSet.delete room.hasVoted sid } := by
            intro x hx
            have hx' : x ∈ room.hasVoted ∧ x ≠ sid := by
              simpa [JsSet.delete, List.mem_filter] using hx
            show x ∈ JsMap.keys (first :: rest)
            rw [← hd, JsMap.mem_keys_delete]
            exact ⟨hv x hx'.1, hx'.2⟩
          refine voters_ite _ _ _ ?_ ?_
          · exact voters_endVoting _ _ (voters_set _ _ _ hs hr)
          · exact voters_set _ _ _ hs hr
        · rename_i hph
          refine voters_set _ _ _ hs ?_
          intro x hx
          have hx' : x ∈ room.hasVoted := hx
          have hempty : room.hasVoted = [] := by
            cases hp : room.phase with
            | lobby => exact (h.lobby_clean hp).2.2.1
            | round => exact (h.round_clean hp).2
            | voting => exact absurd hp hph
          rw [hempty] at hx'
          simp at hx'

theorem voters_disconnect_fold (sid : SocketId) (ks : List RoomCode) (acc : Rooms × List Event)
    (hok : RegOk acc.1) (hs : ∀ e ∈ acc.1, VotersAreMembers e.2) :
    ∀ e ∈ (ks.foldl (disconnectRoom sid) acc).1, VotersAreMembers e.2 := by
  induction ks generalizing acc with
  | nil => exact hs
  | cons k ks ih =>
    exact ih _ (disconnectRoom_ok sid acc k hok) (voters_disconnectRoom sid acc k hok hs)

theorem voters_leaveRoom (sid : SocketId) (c : RoomCode) (s : Rooms) (hok : RegOk s)
    (ha : leaveAllowed s (Action.leaveRoom sid c) = true)
    (hs : ∀ e ∈ s, VotersAreMembers e.2) :
    ∀ e ∈ (leaveRoom sid c s).rooms, VotersAreMembers e.2 := by
  unfold leaveRoom
  split
  · exact hs
  · rename_i room hg
    have h := regOk_get s c room hok hg
    have hph : room.phase ≠ Phase.voting := by simpa [leaveAllowed, hg] using ha
    split
    · split
      · exact voters_delete s c hs
      · refine voters_set _ _ _ hs ?_
        intro x hx
        have hx' : x ∈ room.hasVoted := hx
        have hempty : room.hasVoted = [] := by
          cases hp : room.phase with
          | lobby => exact (h.lobby_clean hp).2.2.1
          | round => exact (h.round_clean hp).2
          | voting => exact absurd hp hph
        rw [hempty] at hx'
        simp at hx'
    · exact hs

theorem voters_step (s : Rooms) (a : Action) (ha : leaveAllowed s a = true) (hok : RegOk s)
    (hs : ∀ e ∈ s, VotersAreMembers e.2) : ∀ e ∈ (step s a).rooms, VotersAreMembers e.2 := by
  cases a with
  | joinRoom sid c name => exact voters_joinRoom sid c name s hs
  | startGame sid c cw d1 d2 => exact voters_startGame sid c cw d1 d2 s hs
  | resetGame sid c => exact voters_resetGame sid c s hs
  | leaveRoom sid c => exact voters_leaveRoom sid c s hok ha hs
  | readyToVote sid c => exact voters_readyToVote sid c s hs
  | castVote sid c t => exact voters_castVote sid c t s hs
  | disconnect sid => exact voters_disconnect_fold sid _ (s, []) hok hs

theorem voters_run (actions : List Action) (s : Rooms)
    (ha : noLeaveDuringVote s actions = true) (hok : RegOk s)
    (hs : ∀ e ∈ s, VotersAreMembers e.2) : ∀ e ∈ run s actions, VotersAreMembers e.2 := by
  induction actions generalizing s with
  | nil => exact hs
  | cons a actions ih =>
    simp only [noLeaveDuringVote, Bool.and_eq_true] at ha
    exact ih _ ha.2 (step_ok s a hok) (voters_step s a ha.1 hok hs)

theorem reachable_of_withoutLeave (s : Rooms) (h : ReachableWithoutLeave s) : Reachable s := by
  obtain ⟨actions, _, hr⟩ := h
  exact ⟨actions, hr⟩

theorem castVote_ack_ok (sid : SocketId) (c : RoomCode) (t : SocketId) (s : Rooms)
    (h : (castVote sid c t s).ack = some Ack.ok) :
    ∃ room, JsMap.get s c = some room ∧ room.phase = Phase.voting
      ∧ sid ∈ JsMap.keys room.players ∧ t ∈ JsMap.keys room.players
      ∧ sid ∉ room.hasVoted := by
  unfold castVote at h
  split at h
  · simp at h
  · rename_i room hg
    split at h
    · simp at h
    · rename_i hph
      split at h
      · simp at h
      · rename_i hmem
        split at h
        · simp at h
        · rename_i htgt
          split at h
          · simp at h
          · rename_i hv
            refine ⟨room, hg, by simpa using hph, ?_, ?_, ?_⟩
            · exact (JsMap.has_iff_mem_keys _ _).1 (by simpa using hmem)
            · exact (JsMap.has_iff_mem_keys _ _).1 (by simpa using htgt)
            · simpa [JsSet.has] using hv

theorem words_getD_ne : ∀ i, i < 15 → words.getD i "" ≠ "" := by decide

theorem chooseWord_ne (cw : Option String) (d : Draw) : chooseWord cw d ≠ "" := by
  have hw : words.getD (d.index words.length) "" ≠ "" :=
    words_getD_ne _ (Draw.index_lt d 15 (by decide))
  unfold chooseWord
  split
  · exact hw
  · split
    · assumption
    · exact hw

theorem filter_broadcastLobby (s : Rooms) (c : RoomCode) :
    (broadcastLobby s c).filter Event.isGameStarted = [] := by
  unfold broadcastLobby
  split <;> simp [Event.isGameStarted]

theorem filter_gameStarted (w : String) (l : List (SocketId × Player)) :
    (l.map (gameStartedEvent w)).filter Event.isGameStarted = l.map (gameStartedEvent w) := by
  rw [List.filter_eq_self]
  intro e he
  obtain ⟨p, _, rfl⟩ := List.mem_map.1 he
  rfl

theorem lengthLe_of_subset (l1 l2 : List String) (hn : l1.Nodup) (hs : ∀ x ∈ l1, x ∈ l2) :
    l1.length ≤ l2.length :=
  (List.subperm_of_subset hn hs).length_le

theorem startGame_of_guard (sid : SocketId) (c : RoomCode) (cw : Option String) (d1 d2 : Draw)
    (s : Rooms) (room : Room) (hg : JsMap.get s c = some room) (hh : sid = room.hostId)
    (hst : room.started = false) (hl : 3 ≤ room.players.length) :
    (startGame sid c cw d1 d2 s).ack = some Ack.ok := by
  have hl' : ¬ (JsMap.keys room.players).length < 3 := by simp [JsMap.keys]; omega
  unfold startGame
  simp only [hg, hh, hst, ne_eq, not_true_eq_false, if_false, Bool.false_eq_true, hl']

theorem startGame_small_room (sid : SocketId) (c : RoomCode) (cw : Option String) (d1 d2 : Draw)
    (s : Rooms) (room : Room) (hg : JsMap.get s c = some room)
    (hl : room.players.length < 3) :
    (∃ msg, (startGame sid c cw d1 d2 s).ack = some (Ack.fail msg))
      ∧ (startGame sid c cw d1 d2 s).rooms = s := by
  have hl' : (JsMap.keys room.players).length < 3 := by simpa [JsMap.keys] using hl
  unfold startGame
  simp only [hg]
  split
  · exact ⟨⟨_, rfl⟩, rfl⟩
  · split
    · exact ⟨⟨_, rfl⟩, rfl⟩
    · exact ⟨⟨_, rfl⟩, rfl⟩

theorem maxVotes_fold_ge (l : List (SocketId × Nat)) (init : Nat) :
    init ≤ l.foldl (fun m e => if e.2 > m then e.2 else m) init
      ∧ ∀ e ∈ l, e.2 ≤ l.foldl (fun m e => if e.2 > m then e.2 else m) init := by
  induction l generalizing init with
  | nil => simp
  | cons a l ih =>
    simp only [List.foldl_cons, List.mem_cons]
    obtain ⟨h1, h2⟩ := ih (if a.2 > init then a.2 else init)
    have h3 : init ≤ (if a.2 > init then a.2 else init) ∧
        a.2 ≤ (if a.2 > init then a.2 else init) := by
      split <;> omega
    refine ⟨le_trans h3.1 h1, ?_⟩
    rintro e (rfl | he)
    · exact le_trans h3.2 h1
    · exact h2 e he

theorem maxVotes_ge (votes : List (SocketId × Nat)) (e : SocketId × Nat) (he : e ∈ votes) :
    e.2 ≤ maxVotes votes := (maxVotes_fold_ge votes 0).2 e he

theorem get_endVoting_ne (s : Rooms) (k c : RoomCode) (hne : k ≠ c) :
    JsMap.get (endVoting s k).1 c = JsMap.get s c := by
  unfold endVoting
  split
  · rfl
  · exact JsMap.get_set_ne _ _ _ _ hne

theorem get_ite_pair (p : Prop) [Decidable p] (a b : Rooms × List Event) (c : RoomCode)
    (v : Option Room) (ha : JsMap.get a.1 c = v) (hb : JsMap.get b.1 c = v) :
    JsMap.get (if p then a else b).1 c = v := by
  split <;> assumption

theorem get_disconnectRoom_ne (sid : SocketId) (acc : Rooms × List Event) (k c : RoomCode)
    (hne : k ≠ c) : JsMap.get (disconnectRoom sid acc k).1 c = JsMap.get acc.1 c := by
  unfold disconnectRoom
  split
  · rfl
  · split
    · rfl
    · split
      · exact JsMap.get_delete_ne _ _ _ hne
      · dsimp only
        split
        · refine get_ite_pair _ _ _ _ _ ?_ ?_
          · rw [get_endVoting_ne _ _ _ hne]; exact JsMap.get_set_ne _ _ _ _ hne
          · exact JsMap.get_set_ne _ _ _ _ hne
        · exact JsMap.get_set_ne _ _ _ _ hne

theorem mem_ite_pair (p : Prop) [Decidable p] (a b : Rooms × List Event) (ev : Event)
    (ha : ev ∈ a.2) (hb : ev ∈ b.2) : ev ∈ (if p then a else b).2 := by
  split <;> assumption

theorem events_disconnectRoom (sid : SocketId) (acc : Rooms × List Event) (k : RoomCode)
    (ev : Event) (h : ev ∈ acc.2) : ev ∈ (disconnectRoom sid acc k).2 := by
  unfold disconnectRoom
  split
  · exact h
  · split
    · exact h
    · split
      · exact h
      · dsimp only
        split
        · exact mem_ite_pair _ _ _ _ (List.mem_append_left _ h) (List.mem_append_left _ h)
        · exact List.mem_append_left _ h

theorem get_disconnect_fold_not_mem (sid : SocketId) (ks : List RoomCode)
    (acc : Rooms × List Event) (c : RoomCode) (hc : c ∉ ks) :
    JsMap.get (ks.foldl (disconnectRoom sid) acc).1 c = JsMap.get acc.1 c := by
  induction ks generalizing acc with
  | nil => rfl
  | cons k ks ih =>
    simp only [List.mem_cons, not_or] at hc
    simp only [List.foldl_cons]
    rw [ih _ hc.2]
    exact get_disconnectRoom_ne sid acc k c (fun h => hc.1 h.symm)

theorem events_disconnect_fold (sid : SocketId) (ks : List RoomCode)
    (acc : Rooms × List Event) (ev : Event) (h : ev ∈ acc.2) :
    ev ∈ (ks.foldl (disconnectRoom sid) acc).2 := by
  induction ks generalizing acc with
  | nil => exact h
  | cons k ks ih => exact ih _ (events_disconnectRoom sid acc k ev h)

/-- A property of the entry stored under `c` and of an emitted message that the
loop body of `disconnect` establishes at `c` also holds after the whole loop. -/
theorem disconnect_fold_at (sid : SocketId) (ks : List RoomCode) (acc : Rooms × List Event)
    (c : RoomCode) (hks : ks.Nodup) (hc : c ∈ ks) (P : Option Room → Prop) (Q : Event → Prop)
    (hstep : ∀ acc' : Rooms × List Event, JsMap.get acc'.1 c = JsMap.get acc.1 c →
      P (JsMap.get (disconnectRoom sid acc' c).1 c)
        ∧ ∃ ev ∈ (disconnectRoom sid acc' c).2, Q ev) :
    P (JsMap.get (ks.foldl (disconnectRoom sid) acc).1 c)
      ∧ ∃ ev ∈ (ks.foldl (disconnectRoom sid) acc).2, Q ev := by
  induction ks generalizing acc with
  | nil => simp at hc
  | cons k ks ih =>
    simp only [List.nodup_cons] at hks
    simp only [List.foldl_cons]
    by_cases hk : k = c
    · subst hk
      obtain ⟨h1, ev, h2, h3⟩ := hstep acc rfl
      exact ⟨by rw [get_disconnect_fold_not_mem _ _ _ _ hks.1]; exact h1,
        ev, events_disconnect_fold _ _ _ _ h2, h3⟩
    · have hc' : c ∈ ks := by
        rcases List.mem_cons.1 hc with h | h
        · exact absurd h.symm hk
        · exact h
      refine ih _ hks.2 hc' ?_
      intro acc' hacc'
      exact hstep acc' (hacc'.trans (get_disconnectRoom_ne sid acc k c hk))

theorem disconnectRoom_concludes (sid : SocketId) (acc : Rooms × List Event) (c : RoomCode)
    (room : Room) (hg : JsMap.get acc.1 c = some room) (hph : room.phase = Phase.voting)
    (hmem : sid ∈ JsMap.keys room.players) (hne : JsMap.delete room.players sid ≠ [])
    (e : SocketId × Nat) (he : e ∈ room.votes)
    (hmaj : (JsMap.delete room.players sid).length / 2 + 1 ≤ e.2) :
    (∃ after, JsMap.get (disconnectRoom sid acc c).1 c = some after
        ∧ after.phase = Phase.round ∧ after.players = JsMap.delete room.players sid
        ∧ after.readySet = [] ∧ after.votes = [] ∧ after.hasVoted = [])
      ∧ ∃ name imp,
          Event.votingEnded c (scanVotes room.votes).1 name imp room.votes
            ∈ (disconnectRoom sid acc c).2 := by
  have hhas : JsMap.has room.players sid = true := (JsMap.has_iff_mem_keys _ _).2 hmem
  unfold disconnectRoom
  simp only [hg, hhas, Bool.true_eq_false, if_false]
  cases hd : JsMap.delete room.players sid with
  | nil => exact absurd hd hne
  | cons first rest =>
    rw [hd] at hmaj
    have hmax : maxVotes room.votes ≥ (first :: rest).length / 2 + 1 :=
      le_trans hmaj (maxVotes_ge _ _ he)
    simp only [hph, if_true, majorityCount, hmax, true_or]
    simp only [endVoting, JsMap.get_set_eq, JsMap.set_set]
    refine ⟨⟨_, rfl, rfl, rfl, rfl, rfl, rfl⟩, ?_⟩
    simp only [votingEndedEvent]
    exact ⟨_, _, List.mem_append_right _ (List.mem_singleton.2 rfl)⟩

end Impostor

namespace Impostor

theorem get_beginVoting_ne (s : Rooms) (k c : RoomCode) (hne : k ≠ c) :
    JsMap.get (beginVoting s k).1 c = JsMap.get s c := by
  unfold beginVoting
  split
  · rfl
  · exact JsMap.get_set_ne _ _ _ _ hne

theorem get_joinRoom_ne (sid : SocketId) (k : RoomCode) (name : String) (s : Rooms)
    (c : RoomCode) (hne : k ≠ c) : JsMap.get (joinRoom sid k name s).rooms c = JsMap.get s c := by
  unfold joinRoom
  split
  · rfl
  · by_cases hh : JsMap.has s k = true
    · simp only [hh, if_true]
      split
      · rfl
      · split
        · rfl
        · exact JsMap.get_set_ne _ _ _ _ hne
    · have hh' : JsMap.has s k = false := by simpa using hh
      simp only [hh', Bool.false_eq_true, if_false, JsMap.get_set_eq, JsMap.set_set]
      split
      · exact JsMap.get_set_ne _ _ _ _ hne
      · exact JsMap.get_set_ne _ _ _ _ hne

theorem get_startGame_ne (sid : SocketId) (k : RoomCode) (cw : Option String) (d1 d2 : Draw)
    (s : Rooms) (c : RoomCode) (hne : k ≠ c) :
    JsMap.get (startGame sid k cw d1 d2 s).rooms c = JsMap.get s c := by
  unfold startGame
  split
  · rfl
  · split
    · rfl
    · split
      · rfl
      · dsimp only
        split
        · rfl
        · exact JsMap.get_set_ne _ _ _ _ hne

theorem get_resetGame_ne (sid : SocketId) (k : RoomCode) (s : Rooms) (c : RoomCode)
    (hne : k ≠ c) : JsMap.get (resetGame sid k s).rooms c = JsMap.get s c := by
  unfold resetGame
  split
  · rfl
  · split
    · rfl
    · exact JsMap.get_set_ne _ _ _ _ hne

theorem get_leaveRoom_ne (sid : SocketId) (k : RoomCode) (s : Rooms) (c : RoomCode)
    (hne : k ≠ c) : JsMap.get (leaveRoom sid k s).rooms c = JsMap.get s c := by
  unfold leaveRoom
  split
  · rfl
  · split
    · split
      · exact JsMap.get_delete_ne _ _ _ hne
      · exact JsMap.get_set_ne _ _ _ _ hne
    · rfl

theorem get_readyToVote_ne (sid : SocketId) (k : RoomCode) (s : Rooms) (c : RoomCode)
    (hne : k ≠ c) : JsMap.get (readyToVote sid k s).rooms c = JsMap.get s c := by
  unfold readyToVote
  split
  · rfl
  · split
    · rfl
    · split
      · rfl
      · dsimp only
        split
        · rw [get_beginVoting_ne _ _ _ hne]; exact JsMap.get_set_ne _ _ _ _ hne
        · exact JsMap.get_set_ne _ _ _ _ hne

theorem get_castVote_ne (sid : SocketId) (k : RoomCode) (t : SocketId) (s : Rooms)
    (c : RoomCode) (hne : k ≠ c) : JsMap.get (castVote sid k t s).rooms c = JsMap.get s c := by
  unfold castVote
  split
  · rfl
  · split
    · rfl
    · split
      · rfl
      · split
        · rfl
        · split
          · rfl
          · dsimp only
            split
            · rw [get_endVoting_ne _ _ _ hne]; exact JsMap.get_set_ne _ _ _ _ hne
            · split
              · rw [get_endVoting_ne _ _ _ hne]; exact JsMap.get_set_ne _ _ _ _ hne
              · exact JsMap.get_set_ne _ _ _ _ hne

theorem scanVotes_perm (l1 l2 : List (SocketId × Nat)) (hp : l1.Perm l2)
    (hn : (JsMap.keys l1).Nodup) (hpos : ∀ e ∈ l1, 0 < e.2) :
    (scanVotes l1).1 = (scanVotes l2).1 := by
  have hn2 : (JsMap.keys l2).Nodup := (List.Perm.nodup_iff (hp.map Prod.fst)).1 hn
  have hpos2 : ∀ e ∈ l2, 0 < e.2 := fun e he => hpos e (hp.mem_iff.2 he)
  have key : ∀ t, (scanVotes l1).1 = some t ↔ (scanVotes l2).1 = some t := by
    intro t
    rw [scan_some_iff l1 hn hpos, scan_some_iff l2 hn2 hpos2]
    constructor
    · rintro ⟨n, h1, h2⟩
      exact ⟨n, hp.mem_iff.1 h1, fun e he => h2 e (hp.mem_iff.2 he)⟩
    · rintro ⟨n, h1, h2⟩
      exact ⟨n, hp.mem_iff.2 h1, fun e he => h2 e (hp.mem_iff.1 he)⟩
  cases h1 : (scanVotes l1).1 with
  | some t => exact ((key t).1 h1).symm
  | none =>
    cases h2 : (scanVotes l2).1 with
    | none => rfl
    | some t =>
      have := (key t).2 h2
      rw [h1] at this
      cases this

theorem JsMap.get_of_has {α : Type} (m : List (String × α)) (k : String)
    (h : JsMap.has m k = true) : ∃ v, JsMap.get m k = some v := by
  cases hg : JsMap.get m k with
  | some v => exact ⟨v, rfl⟩
  | none =>
    have := (JsMap.get_eq_none_iff m k).1 hg
    exact absurd ((JsMap.has_iff_mem_keys m k).1 h) this

theorem JsMap.get_of_not_has {α : Type} (m : List (String × α)) (k : String)
    (h : JsMap.has m k = false) : JsMap.get m k = none :=
  (JsMap.get_eq_none_iff m k).2 ((JsMap.has_eq_false_iff m k).1 h)

theorem joinRoom_effect (sid : SocketId) (k : RoomCode) (name : String) (s : Rooms)
    (code : RoomCode) :
    Effect (Action.joinRoom sid k name) code (JsMap.get s code)
      (JsMap.get (joinRoom sid k name s).rooms code) := by
  by_cases hk : k = code
  · subst hk
    unfold joinRoom
    split
    · exact Effect.same _
    · by_cases hh : JsMap.has s k = true
      · obtain ⟨room, hg⟩ := JsMap.get_of_has s k hh
        simp only [hh, if_true, hg]
        split
        · rw [hg]; exact Effect.same _
        · rename_i hst
          rw [JsMap.get_set_eq]
          exact Effect.joined sid name room rfl (by simpa using hst)
      · have hh' : JsMap.has s k = false := by simpa using hh
        have hg := JsMap.get_of_not_has s k hh'
        simp only [hh', Bool.false_eq_true, if_false, JsMap.get_set_eq, JsMap.set_set, hg]
        split
        · rename_i hst; simp [newRoom] at hst
        · rw [JsMap.get_set_eq]
          exact Effect.created sid name rfl
  · rw [get_joinRoom_ne sid k name s code hk]
    exact Effect.same _

theorem startGame_effect (sid : SocketId) (k : RoomCode) (cw : Option String) (d1 d2 : Draw)
    (s : Rooms) (code : RoomCode) :
    Effect (Action.startGame sid k cw d1 d2) code (JsMap.get s code)
      (JsMap.get (startGame sid k cw d1 d2 s).rooms code) := by
  by_cases hk : k = code
  · subst hk
    unfold startGame
    split
    · exact Effect.same _
    · rename_i room hg
      split
      · exact Effect.same _
      · rename_i hh
        split
        · exact Effect.same _
        · rename_i hst
          dsimp only
          split
          · exact Effect.same _
          · rename_i hl
            rw [JsMap.get_set_eq, hg]
            exact Effect.started sid cw d1 d2 room rfl (by simpa using hh) (by simpa using hst)
              (by simpa [JsMap.keys] using hl)
  · rw [get_startGame_ne sid k cw d1 d2 s code hk]
    exact Effect.same _

theorem resetGame_effect (sid : SocketId) (k : RoomCode) (s : Rooms) (code : RoomCode) :
    Effect (Action.resetGame sid k) code (JsMap.get s code)
      (JsMap.get (resetGame sid k s).rooms code) := by
  by_cases hk : k = code
  · subst hk
    unfold resetGame
    split
    · exact Effect.same _
    · rename_i room hg
      split
      · exact Effect.same _
      · rename_i hh
        rw [JsMap.get_set_eq, hg]
        exact Effect.reset sid room rfl (by simpa using hh)
  · rw [get_resetGame_ne sid k s code hk]
    exact Effect.same _

theorem removedRoom_eq (sid : SocketId) (room : Room) (first : SocketId × Player)
    (rest : List (SocketId × Player)) (hd : JsMap.delete room.players sid = first :: rest) :
    { room with players := first :: rest,
                hostId := if room.hostId = sid then first.1 else room.hostId }
      = removedRoom sid room := by
  simp [removedRoom, hd, JsMap.keys]

theorem leaveRoom_effect (sid : SocketId) (k : RoomCode) (s : Rooms) (code : RoomCode) :
    Effect (Action.leaveRoom sid k) code (JsMap.get s code)
      (JsMap.get (leaveRoom sid k s).rooms code) := by
  by_cases hk : k = code
  · subst hk
    unfold leaveRoom
    split
    · exact Effect.same _
    · rename_i room hg
      split
      · rename_i hm
        have hm' := (JsMap.has_iff_mem_keys _ _).1 hm
        split
        · rename_i hd
          rw [JsMap.get_delete_eq, hg]
          exact Effect.deleted sid room (Or.inl rfl) hm' hd
        · rename_i first rest hd
          rw [JsMap.get_set_eq, hg, removedRoom_eq sid room first rest hd]
          exact Effect.removed sid room (Or.inl rfl) hm' (by rw [hd]; simp)
      · exact Effect.same _
  · rw [get_leaveRoom_ne sid k s code hk]
    exact Effect.same _

theorem readyToVote_effect (sid : SocketId) (k : RoomCode) (s : Rooms) (code : RoomCode) :
    Effect (Action.readyToVote sid k) code (JsMap.get s code)
      (JsMap.get (readyToVote sid k s).rooms code) := by
  by_cases hk : k = code
  · subst hk
    unfold readyToVote
    split
    · exact Effect.same _
    · rename_i room hg
      split
      · exact Effect.same _
      · rename_i hph
        split
        · exact Effect.same _
        · rename_i hm
          have hm' : sid ∈ JsMap.keys room.players :=
            (JsMap.has_iff_mem_keys _ _).1 (by simpa using hm)
          have hph' : room.phase = Phase.round := by simpa using hph
          dsimp only
          split
          · rename_i hc
            simp only [beginVoting, JsMap.get_set_eq, JsMap.set_set]
            rw [hg]
            exact Effect.readyBegin sid room rfl hph' hm' hc
          · rename_i hc
            rw [JsMap.get_set_eq, hg]
            exact Effect.ready sid room rfl hph' hm' hc
  · rw [get_readyToVote_ne sid k s code hk]
    exact Effect.same _

theorem castVote_effect (sid : SocketId) (k : RoomCode) (t : SocketId) (s : Rooms)
    (code : RoomCode) :
    Effect (Action.castVote sid k t) code (JsMap.get s code)
      (JsMap.get (castVote sid k t s).rooms code) := by
  by_cases hk : k = code
  · subst hk
    unfold castVote
    split
    · exact Effect.same _
    · rename_i room hg
      split
      · exact Effect.same _
      · rename_i hph
        split
        · exact Effect.same _
        · rename_i hm
          split
          · exact Effect.same _
          · rename_i ht
            split
            · exact Effect.same _
            · rename_i hv
              have hm' : sid ∈ JsMap.keys room.players :=
                (JsMap.has_iff_mem_keys _ _).1 (by simpa using hm)
              have ht' : t ∈ JsMap.keys room.players :=
                (JsMap.has_iff_mem_keys _ _).1 (by simpa using ht)
              have hph' : room.phase = Phase.voting := by simpa using hph
              have hv' : sid ∉ room.hasVoted := by simpa [JsSet.has] using hv
              dsimp only
              split
              · rename_i hc
                simp only [endVoting, JsMap.get_set_eq, JsMap.set_set]
                rw [hg]
                exact Effect.votedEnd sid t room rfl hph' hm' ht' hv' (Or.inl hc)
              · rename_i hc
                split
                · rename_i hc2
                  simp only [endVoting, JsMap.get_set_eq, JsMap.set_set]
                  rw [hg]
                  exact Effect.votedEnd sid t room rfl hph' hm' ht' hv' (Or.inr hc2)
                · rename_i hc2
                  rw [JsMap.get_set_eq, hg]
                  exact Effect.voted sid t room rfl hph' hm' ht' hv'
                    (by rintro (h | h); exact hc h; exact hc2 h)
  · rw [get_castVote_ne sid k t s code hk]
    exact Effect.same _

theorem effect_ite (p : Prop) [Decidable p] (x y : Rooms × List Event) (a : Action)
    (code : RoomCode) (v : Option Room) (hx : p → Effect a code v (JsMap.get x.1 code))
    (hy : ¬ p → Effect a code v (JsMap.get y.1 code)) :
    Effect a code v (JsMap.get (if p then x else y).1 code) := by
  split
  · rename_i h; exact hx h
  · rename_i h; exact hy h

theorem disconnectedVoter_eq (sid : SocketId) (room : Room) (first : SocketId × Player)
    (rest : List (SocketId × Player)) (hd : JsMap.delete room.players sid = first :: rest) :
    ({ hostId := if room.hostId = sid then first.1 else room.hostId,
       started := room.started, word := room.word, players := first :: rest,
       phase := room.phase, readySet := JsSet.delete room.readySet sid, votes := room.votes,
       hasVoted := JsSet.delete room.hasVoted sid } : Room)
      = disconnectedVoter sid room := by
  simp [disconnectedVoter, removedRoom, hd, JsMap.keys]

theorem disconnectRoom_effect (sid : SocketId) (acc : Rooms × List Event) (code : RoomCode) :
    Effect (Action.disconnect sid) code (JsMap.get acc.1 code)
      (JsMap.get (disconnectRoom sid acc code).1 code) := by
  unfold disconnectRoom
  split
  · exact Effect.same _
  · rename_i room hg
    split
    · exact Effect.same _
    · rename_i hm
      have hm' : sid ∈ JsMap.keys room.players :=
        (JsMap.has_iff_mem_keys _ _).1 (by simpa using hm)
      split
      · rename_i hd
        rw [JsMap.get_delete_eq, hg]
        exact Effect.deleted sid room (Or.inr rfl) hm' hd
      · rename_i first rest hd
        have hne : JsMap.delete room.players sid ≠ [] := by rw [hd]; simp
        dsimp only
        split
        · rename_i hph
          rw [disconnectedVoter_eq sid room first rest hd]
          have h1 : (disconnectedVoter sid room).hasVoted = JsSet.delete room.hasVoted sid :=
            rfl
          have h2 : (disconnectedVoter sid room).players = first :: rest := hd
          refine effect_ite _ _ _ _ _ _ (fun hc => ?_) (fun hc => ?_)
          all_goals rw [← h1, ← h2] at hc
          · simp only [endVoting, JsMap.get_set_eq, JsMap.set_set]
            rw [hg]
            exact Effect.droppedEnd sid room rfl hm' hne hph hc
          · rw [JsMap.get_set_eq, hg]
            exact Effect.dropped sid room rfl hm' hne hph hc
        · rename_i hph
          rw [JsMap.get_set_eq, hg, removedRoom_eq sid room first rest hd]
          exact Effect.removed sid room (Or.inr ⟨rfl, hph⟩) hm' hne

theorem get_disconnect_fold_mem (sid : SocketId) (ks : List RoomCode)
    (acc : Rooms × List Event) (c : RoomCode) (hks : ks.Nodup) (hc : c ∈ ks)
    (P : Option Room → Prop)
    (hstep : ∀ acc' : Rooms × List Event, JsMap.get acc'.1 c = JsMap.get acc.1 c →
      P (JsMap.get (disconnectRoom sid acc' c).1 c)) :
    P (JsMap.get (ks.foldl (disconnectRoom sid) acc).1 c) := by
  induction ks generalizing acc with
  | nil => simp at hc
  | cons k ks ih =>
    simp only [List.nodup_cons] at hks
    simp only [List.foldl_cons]
    by_cases hk : k = c
    · subst hk
      rw [get_disconnect_fold_not_mem _ _ _ _ hks.1]
      exact hstep acc rfl
    · have hc' : c ∈ ks := by
        rcases List.mem_cons.1 hc with h | h
        · exact absurd h.symm hk
        · exact h
      refine ih _ hks.2 hc' ?_
      intro acc' hacc'
      exact hstep acc' (hacc'.trans (get_disconnectRoom_ne sid acc k c hk))

theorem disconnect_effect (sid : SocketId) (s : Rooms) (hn : (JsMap.keys s).Nodup)
    (code : RoomCode) :
    Effect (Action.disconnect sid) code (JsMap.get s code)
      (JsMap.get (disconnect sid s).rooms code) := by
  unfold disconnect
  by_cases hc : code ∈ JsMap.keys s
  · refine get_disconnect_fold_mem sid (JsMap.keys s) (s, []) code hn hc
      (fun v => Effect (Action.disconnect sid) code (JsMap.get s code) v) ?_
    intro acc' hacc'
    have := disconnectRoom_effect sid acc' code
    rw [hacc'] at this
    exact this
  · rw [get_disconnect_fold_not_mem _ _ _ _ hc]
    exact Effect.same _

theorem step_effect (s : Rooms) (hn : (JsMap.keys s).Nodup) (a : Action) (code : RoomCode) :
    Effect a code (JsMap.get s code) (JsMap.get (step s a).rooms code) := by
  cases a with
  | joinRoom sid c name => exact joinRoom_effect sid c name s code
  | startGame sid c cw d1 d2 => exact startGame_effect sid c cw d1 d2 s code
  | resetGame sid c => exact resetGame_effect sid c s code
  | leaveRoom sid c => exact leaveRoom_effect sid c s code
  | readyToVote sid c => exact readyToVote_effect sid c s code
  | castVote sid c t => exact castVote_effect sid c t s code
  | disconnect sid => exact disconnect_effect sid s hn code

theorem lobby_of_not_started (room : Room) (h : RoomOk room) (hst : room.started = false) :
    room.phase = Phase.lobby := by
  by_contra hc
  have := h.started_iff.2 hc
  rw [hst] at this
  exact absurd this (by simp)

theorem delete_ne_nil_of_two (players : List (SocketId × Player)) (sid : SocketId)
    (hn : (JsMap.keys players).Nodup) (h2 : 2 ≤ players.length) :
    JsMap.delete players sid ≠ [] := by
  match players, hn, h2 with
  | e1 :: e2 :: rest, hn, _ =>
    have hne : e1.1 ≠ e2.1 := by
      simp only [JsMap.keys, List.map_cons, List.nodup_cons, List.mem_cons, not_or] at hn
      exact hn.1.1
    intro hd
    by_cases h1 : e1.1 = sid
    · have : e2 ∈ JsMap.delete (e1 :: e2 :: rest) sid :=
        (JsMap.mem_delete _ _ _).2 ⟨by simp, fun h => hne (h1.trans h.symm)⟩
      rw [hd] at this; simp at this
    · have : e1 ∈ JsMap.delete (e1 :: e2 :: rest) sid :=
        (JsMap.mem_delete _ _ _).2 ⟨by simp, h1⟩
      rw [hd] at this; simp at this

theorem removedRoom_host (sid : SocketId) (room : Room)
    (hd : JsMap.delete room.players sid ≠ []) :
    (room.hostId = sid →
      (JsMap.keys (JsMap.delete room.players sid)).head? = some (removedRoom sid room).hostId)
    ∧ (room.hostId ≠ sid → (removedRoom sid room).hostId = room.hostId) := by
  constructor
  · intro hh
    cases hdel : JsMap.delete room.players sid with
    | nil => exact absurd hdel hd
    | cons first rest => simp [removedRoom, hh, hdel, JsMap.keys]
  · intro hh
    simp [removedRoom, hh]

theorem leaveRoom_removed (sid : SocketId) (code : RoomCode) (s : Rooms) (room : Room)
    (hg : JsMap.get s code = some room) (hm : sid ∈ JsMap.keys room.players)
    (hd : JsMap.delete room.players sid ≠ []) :
    JsMap.get (leaveRoom sid code s).rooms code = some (removedRoom sid room) := by
  have hhas : JsMap.has room.players sid = true := (JsMap.has_iff_mem_keys _ _).2 hm
  unfold leaveRoom
  simp only [hg, hhas, if_true]
  cases hdel : JsMap.delete room.players sid with
  | nil => exact absurd hdel hd
  | cons first rest =>
    simp only [JsMap.get_set_eq]
    rw [removedRoom_eq sid room first rest hdel]

theorem disconnectRoom_removed (sid : SocketId) (acc : Rooms × List Event) (code : RoomCode)
    (room : Room) (hg : JsMap.get acc.1 code = some room)
    (hm : sid ∈ JsMap.keys room.players) (hd : JsMap.delete room.players sid ≠ []) :
    ∃ after, JsMap.get (disconnectRoom sid acc code).1 code = some after
      ∧ after.players = JsMap.delete room.players sid
      ∧ after.hostId = (removedRoom sid room).hostId := by
  have hhas : JsMap.has room.players sid = true := (JsMap.has_iff_mem_keys _ _).2 hm
  unfold disconnectRoom
  simp only [hg, hhas, Bool.true_eq_false, if_false]
  cases hdel : JsMap.delete room.players sid with
  | nil => exact absurd hdel hd
  | cons first rest =>
    dsimp only
    split
    · rw [disconnectedVoter_eq sid room first rest hdel]
      split
      · simp only [endVoting, JsMap.get_set_eq, JsMap.set_set]
        exact ⟨_, rfl, hdel, rfl⟩
      · rw [JsMap.get_set_eq]
        exact ⟨_, rfl, hdel, rfl⟩
    · rw [JsMap.get_set_eq, removedRoom_eq sid room first rest hdel]
      exact ⟨_, rfl, hdel, rfl⟩

theorem players_stable (s : Rooms) (hs : RegOk s) (a : Action) (code : RoomCode)
    (before after : Room) (hb : JsMap.get s code = some before)
    (ha : JsMap.get (step s a).rooms code = some after)
    (h1 : before.phase ≠ Phase.lobby) (h2 : after.phase ≠ Phase.lobby) :
    ∀ e ∈ after.players, e ∈ before.players := by
  have hr := regOk_get s code before hs hb
  have he := step_effect s hs.1 a code
  rw [hb, ha] at he
  have hdel : ∀ sid, ∀ e ∈ JsMap.delete before.players sid, e ∈ before.players :=
    fun sid e he' => ((JsMap.mem_delete _ _ _).1 he').1
  cases he with
  | same => exact fun e he' => he'
  | joined sid name _ _ hst => exact absurd (lobby_of_not_started before hr hst) h1
  | started sid cw d1 d2 _ _ _ hst _ => exact absurd (lobby_of_not_started before hr hst) h1
  | reset => exact absurd rfl h2
  | removed sid => exact hdel sid
  | dropped sid => exact hdel sid
  | droppedEnd sid => exact hdel sid
  | ready => exact fun e he' => he'
  | readyBegin => exact fun e he' => he'
  | voted => exact fun e he' => he'
  | votedEnd => exact fun e he' => he'

theorem votesTotal_cons (e : SocketId × Nat) (m : List (SocketId × Nat)) :
    votesTotal (e :: m) = e.2 + votesTotal m := by
  simp [votesTotal]

theorem votesTotal_set_incr (votes : List (SocketId × Nat)) (t : SocketId) :
    votesTotal (JsMap.set votes t ((JsMap.get votes t).getD 0 + 1)) = votesTotal votes + 1 := by
  induction votes with
  | nil => simp [JsMap.set, JsMap.get, votesTotal]
  | cons e m ih =>
    obtain ⟨k, v⟩ := e
    by_cases hk : k = t
    · simp only [JsMap.set, JsMap.get, hk, if_true, votesTotal_cons, Option.getD_some]
      omega
    · simp only [JsMap.set, JsMap.get, hk, if_false, votesTotal_cons, ih]
      omega

theorem getD_le_total (votes : List (SocketId × Nat)) (t : SocketId) :
    (JsMap.get votes t).getD 0 ≤ votesTotal votes := by
  induction votes with
  | nil => simp [JsMap.get, votesTotal]
  | cons e m ih =>
    obtain ⟨k, v⟩ := e
    by_cases hk : k = t
    · simp only [JsMap.get, hk, if_true, votesTotal_cons, Option.getD_some]
      omega
    · simp only [JsMap.get, hk, if_false, votesTotal_cons]
      omega

theorem single_le_total (votes : List (SocketId × Nat)) (e : SocketId × Nat)
    (he : e ∈ votes) : e.2 ≤ votesTotal votes := by
  induction votes with
  | nil => simp at he
  | cons e0 m ih =>
    rw [votesTotal_cons]
    rcases List.mem_cons.1 he with h | h
    · subst h; omega
    · have := ih h; omega

theorem pair_le_total (votes : List (SocketId × Nat)) (t : SocketId) (e : SocketId × Nat)
    (he : e ∈ votes) (hne : e.1 ≠ t) :
    e.2 + (JsMap.get votes t).getD 0 ≤ votesTotal votes := by
  induction votes with
  | nil => simp at he
  | cons e0 m ih =>
    obtain ⟨k, v⟩ := e0
    rw [votesTotal_cons]
    by_cases hk : k = t
    · simp only [JsMap.get, hk, if_true, Option.getD_some]
      rcases List.mem_cons.1 he with h | h
      · subst h; exact absurd hk hne
      · have := single_le_total m e h; omega
    · simp only [JsMap.get, hk, if_false]
      rcases List.mem_cons.1 he with h | h
      · subst h
        have := getD_le_total m t
        simp only
        omega
      · have := ih h; omega

theorem length_add_of_not_mem (l : List String) (x : String) (h : x ∉ l) :
    (JsSet.add l x).length = l.length + 1 := by
  simp [JsSet.add, h]

theorem departs_of_member (s : Rooms) (code : RoomCode) (room : Room) (sid : SocketId)
    (a : Action) (hg : JsMap.get s code = some room) (hm : sid ∈ JsMap.keys room.players)
    (ha : a = Action.leaveRoom sid code ∨ a = Action.disconnect sid) :
    departs s code a = true := by
  have hhas : JsMap.has room.players sid = true := (JsMap.has_iff_mem_keys _ _).2 hm
  rcases ha with ha | ha <;> subst ha <;> simp [departs, hg, hhas]

theorem voteSound_step (s : Rooms) (hs : RegOk s) (code : RoomCode) (a : Action)
    (hv : ∀ room, JsMap.get s code = some room → VoteSound room)
    (hd : departs s code a = false) :
    ∀ room, JsMap.get (step s a).rooms code = some room → VoteSound room := by
  intro after ha
  have he := step_effect s hs.1 a code
  rw [ha] at he
  generalize hb : JsMap.get s code = before at he
  have hdep : ∀ room sid, before = some room → sid ∈ JsMap.keys room.players →
      (a = Action.leaveRoom sid code ∨ a = Action.disconnect sid) → False := by
    intro room sid hbe hm haa
    have := departs_of_member s code room sid a (hb.trans hbe) hm haa
    rw [hd] at this
    cases this
  cases he with
  | same => exact hv after hb
  | created sid name _ => intro hp; simp [joinedRoom, newRoom] at hp
  | joined sid name room _ hst =>
    intro hp
    obtain ⟨h1, h2⟩ := hv room hb hp
    exact ⟨h1, fun x hx => JsMap.mem_keys_set _ _ _ _ (h2 x hx)⟩
  | started => intro hp; simp [startedRoom] at hp
  | reset => intro hp; simp [resetRoom] at hp
  | removed sid room ha' hm _ =>
    exact (hdep room sid rfl hm (ha'.imp id (fun h => h.1))).elim
  | dropped sid room ha' hm => exact (hdep room sid rfl hm (Or.inr ha')).elim
  | droppedEnd sid room ha' hm => exact (hdep room sid rfl hm (Or.inr ha')).elim
  | ready sid room _ hph =>
    intro hp
    have : room.phase = Phase.voting := hp
    rw [hph] at this; cases this
  | readyBegin => intro _; exact ⟨rfl, fun x hx => by simp [votingRoom] at hx⟩
  | voted sid t room _ hph hm ht hnv _ =>
    intro _
    obtain ⟨h1, h2⟩ := hv room hb hph
    refine ⟨?_, ?_⟩
    · show votesTotal (JsMap.set room.votes t ((JsMap.get room.votes t).getD 0 + 1))
        = (JsSet.add room.hasVoted sid).length
      rw [votesTotal_set_incr, length_add_of_not_mem _ _ hnv, h1]
    · intro x hx
      rcases mem_add _ _ _ hx with h | h
      · exact h2 x h
      · subst h; exact hm
  | votedEnd => intro hp; simp [concludedRoom] at hp

theorem voteSound_run (code : RoomCode) (actions : List Action) (s : Rooms) (hs : RegOk s)
    (hv : ∀ room, JsMap.get s code = some room → VoteSound room)
    (hq : noDeparture code s actions = true) :
    ∀ room, JsMap.get (run s actions) code = some room → VoteSound room := by
  induction actions generalizing s with
  | nil => exact hv
  | cons a actions ih =>
    simp only [noDeparture, Bool.and_eq_true, Bool.not_eq_true'] at hq
    exact ih _ (step_ok s a hs) (voteSound_step s hs code a hv hq.1) hq.2

theorem castVote_majority_events (sid : SocketId) (code : RoomCode) (t : SocketId) (s : Rooms)
    (room : Room) (hg : JsMap.get s code = some room) (hph : room.phase = Phase.voting)
    (hm : sid ∈ JsMap.keys room.players) (ht : t ∈ JsMap.keys room.players)
    (hv : sid ∉ room.hasVoted)
    (hmaj : room.players.length / 2 + 1 ≤ (JsMap.get room.votes t).getD 0 + 1) :
    (castVote sid code t s).events
      = [Event.voteProgress code (room.hasVoted.length + 1) room.players.length,
         votingEndedEvent code (votedRoom sid t room)] := by
  have h1 : JsMap.has room.players sid = true := (JsMap.has_iff_mem_keys _ _).2 hm
  have h2 : JsMap.has room.players t = true := (JsMap.has_iff_mem_keys _ _).2 ht
  have h3 : JsSet.has room.hasVoted sid = false := by simp [JsSet.has, hv]
  unfold castVote
  simp only [hg, hph, ne_eq, not_true_eq_false, if_false, h1, h2, h3, Bool.true_eq_false,
    Bool.false_eq_true, JsMap.get_set_eq, Option.getD_some, majorityCount, ge_iff_le, hmaj,
    if_true, endVoting, length_add_of_not_mem _ _ hv]
  rfl

theorem JsMap.delete_of_not_mem {α : Type} (m : List (String × α)) (k : String)
    (h : k ∉ JsMap.keys m) : JsMap.delete m k = m := by
  induction m with
  | nil => rfl
  | cons e m ih =>
    obtain ⟨k0, v0⟩ := e
    simp only [JsMap.keys, List.map_cons, List.mem_cons, not_or] at h
    have hk : ¬ k0 = k := fun x => h.1 x.symm
    simp only [JsMap.delete, hk, if_false]
    rw [ih h.2]

theorem countP_delete_unflagged (players : List (SocketId × Player)) (sid : SocketId)
    (p : Player) (hn : (JsMap.keys players).Nodup) (hg : JsMap.get players sid = some p)
    (hp : p.isImpostor = false) :
    (JsMap.delete players sid).countP (fun e => e.2.isImpostor)
      = players.countP (fun e => e.2.isImpostor) := by
  induction players with
  | nil => rfl
  | cons e m ih =>
    obtain ⟨k, v⟩ := e
    simp only [JsMap.keys, List.map_cons, List.nodup_cons] at hn
    by_cases hk : k = sid
    · subst hk
      simp only [JsMap.get, if_true, Option.some.injEq] at hg
      subst hg
      simp only [JsMap.delete, if_true]
      rw [JsMap.delete_of_not_mem m k hn.1]
      simp [List.countP_cons, hp]
    · simp only [JsMap.get, hk, if_false] at hg
      simp only [JsMap.delete, hk, if_false, List.countP_cons]
      rw [ih hn.2 hg]

theorem unflagged_of_stays (s : Rooms) (code : RoomCode) (room : Room) (sid : SocketId)
    (a : Action) (hg : JsMap.get s code = some room) (hm : sid ∈ JsMap.keys room.players)
    (ha : a = Action.leaveRoom sid code ∨ a = Action.disconnect sid)
    (hd : impostorDeparts s code a = false) :
    ∃ p, JsMap.get room.players sid = some p ∧ p.isImpostor = false := by
  obtain ⟨p, hp⟩ := JsMap.get_of_has room.players sid ((JsMap.has_iff_mem_keys _ _).2 hm)
  refine ⟨p, hp, ?_⟩
  rcases ha with ha | ha <;> subst ha <;>
    simpa [impostorDeparts, isImpostorOf, hg, hp] using hd

theorem impostor_step (s : Rooms) (hs : RegOk s) (code : RoomCode) (a : Action)
    (hv : ∀ room, JsMap.get s code = some room → room.phase ≠ Phase.lobby →
      impostorCount room = 1)
    (hd : impostorDeparts s code a = false) :
    ∀ room, JsMap.get (step s a).rooms code = some room → room.phase ≠ Phase.lobby →
      impostorCount room = 1 := by
  intro after ha
  have he := step_effect s hs.1 a code
  rw [ha] at he
  generalize hb : JsMap.get s code = before at he
  have hkeep : ∀ room sid, before = some room → sid ∈ JsMap.keys room.players →
      (a = Action.leaveRoom sid code ∨ a = Action.disconnect sid) →
      room.phase ≠ Phase.lobby →
      (JsMap.delete room.players sid).countP (fun e => e.2.isImpostor) = 1 := by
    intro room sid hbe hm haa hph
    have hg := hb.trans hbe
    obtain ⟨p, hp, hf⟩ := unflagged_of_stays s code room sid a hg hm haa hd
    rw [countP_delete_unflagged _ _ p (regOk_get s code room hs hg).players_nodup hp hf]
    exact hv room hg hph
  cases he with
  | same => exact hv after hb
  | created sid name _ => intro hp; simp [joinedRoom, newRoom] at hp
  | joined sid name room _ hst =>
    intro hp
    exact absurd (lobby_of_not_started room (regOk_get s code room hs hb) hst) hp
  | started sid cw d1 d2 room _ _ _ hl =>
    intro _
    have hr := regOk_get s code room hs hb
    have hi : d2.index (JsMap.keys room.players).length < (JsMap.keys room.players).length :=
      Draw.index_lt d2 _ (by simp [JsMap.keys]; omega)
    have hget : (JsMap.keys room.players).get? (d2.index (JsMap.keys room.players).length)
        = some ((JsMap.keys room.players).get ⟨_, hi⟩) := List.get?_eq_get hi
    simp only [impostorCount, startedRoom]
    rw [hget]
    exact countP_flag_eq_one _ _ hr.players_nodup (List.get_mem _ _ _)
  | reset => intro hp; simp [resetRoom] at hp
  | removed sid room ha' hm _ =>
    intro hp
    exact hkeep room sid rfl hm (ha'.imp id (fun h => h.1)) hp
  | dropped sid room ha' hm _ hph =>
    intro _
    exact hkeep room sid rfl hm (Or.inr ha') (by simp [hph])
  | droppedEnd sid room ha' hm _ hph =>
    intro _
    exact hkeep room sid rfl hm (Or.inr ha') (by simp [hph])
  | ready sid room _ hph => intro _; exact hv room hb (by simp [hph])
  | readyBegin sid room _ hph => intro _; exact hv room hb (by simp [hph])
  | voted sid t room _ hph => intro _; exact hv room hb (by simp [hph])
  | votedEnd sid t room _ hph => intro _; exact hv room hb (by simp [hph])

theorem impostor_run (code : RoomCode) (actions : List Action) (s : Rooms) (hs : RegOk s)
    (hv : ∀ room, JsMap.get s code = some room → room.phase ≠ Phase.lobby →
      impostorCount room = 1)
    (hq : impostorStays code s actions = true) :
    ∀ room, JsMap.get (run s actions) code = some room → room.phase ≠ Phase.lobby →
      impostorCount room = 1 := by
  induction actions generalizing s with
  | nil => exact hv
  | cons a actions ih =>
    simp only [impostorStays, Bool.and_eq_true, Bool.not_eq_true'] at hq
    exact ih _ (step_ok s a hs) (impostor_step s hs code a hv hq.1) hq.2

theorem reachable_run (s : Rooms) (actions : List Action) (h : Reachable s) :
    Reachable (run s actions) := by
  obtain ⟨pre, rfl⟩ := h
  exact ⟨pre ++ actions, by simp [run, List.foldl_append]⟩

theorem countP_delete_flagged (players : List (SocketId × Player)) (sid : SocketId)
    (p : Player) (hg : JsMap.get players sid = some p) (hp : p.isImpostor = true) :
    (JsMap.delete players sid).countP (fun e => e.2.isImpostor) + 1
      ≤ players.countP (fun e => e.2.isImpostor) := by
  induction players with
  | nil => simp [JsMap.get] at hg
  | cons e m ih =>
    obtain ⟨k, v⟩ := e
    by_cases hk : k = sid
    · subst hk
      simp only [JsMap.get, if_true, Option.some.injEq] at hg
      subst hg
      simp only [JsMap.delete, if_true, List.countP_cons, hp, if_true]
      exact Nat.succ_le_succ (List.Sublist.countP_le _ (JsMap.delete_sublist m k))
    · simp only [JsMap.get, hk, if_false] at hg
      simp only [JsMap.delete, hk, if_false, List.countP_cons]
      have := ih hg
      omega

theorem leaveRoom_member (sid : SocketId) (code : RoomCode) (s : Rooms) (room : Room)
    (hg : JsMap.get s code = some room) (hm : sid ∈ JsMap.keys room.players) :
    ∀ after, JsMap.get (leaveRoom sid code s).rooms code = some after →
      after.players = JsMap.delete room.players sid := by
  intro after ha
  by_cases hd : JsMap.delete room.players sid = []
  · have hhas : JsMap.has room.players sid = true := (JsMap.has_iff_mem_keys _ _).2 hm
    unfold leaveRoom at ha
    simp only [hg, hhas, if_true, hd, JsMap.get_delete_eq] at ha
    cases ha
  · rw [leaveRoom_removed sid code s room hg hm hd] at ha
    cases ha
    rfl

theorem disconnectRoom_member (sid : SocketId) (acc : Rooms × List Event) (code : RoomCode)
    (room : Room) (hg : JsMap.get acc.1 code = some room)
    (hm : sid ∈ JsMap.keys room.players) :
    ∀ after, JsMap.get (disconnectRoom sid acc code).1 code = some after →
      after.players = JsMap.delete room.players sid := by
  intro after ha
  by_cases hd : JsMap.delete room.players sid = []
  · have hhas : JsMap.has room.players sid = true := (JsMap.has_iff_mem_keys _ _).2 hm
    unfold disconnectRoom at ha
    simp only [hg, hhas, Bool.true_eq_false, if_false, hd, JsMap.get_delete_eq] at ha
    cases ha
  · obtain ⟨after', h1, h2, _⟩ := disconnectRoom_removed sid acc code room hg hm hd
    rw [h1] at ha
    cases ha
    exact h2

theorem disconnect_member (sid : SocketId) (s : Rooms) (hn : (JsMap.keys s).Nodup)
    (code : RoomCode) (room : Room) (hg : JsMap.get s code = some room)
    (hm : sid ∈ JsMap.keys room.players) :
    ∀ after, JsMap.get (disconnect sid s).rooms code = some after →
      after.players = JsMap.delete room.players sid := by
  unfold disconnect
  refine get_disconnect_fold_mem sid (JsMap.keys s) (s, []) code hn
    (JsMap.mem_keys_of_get s code room hg)
    (fun v => ∀ after, v = some after → after.players = JsMap.delete room.players sid) ?_
  intro acc' hacc'
  exact disconnectRoom_member sid acc' code room (hacc'.trans hg) hm

theorem impostor_gone (s : Rooms) (hs : RegOk s) (code : RoomCode) (a : Action)
    (before after : Room) (hb : JsMap.get s code = some before)
    (ha : JsMap.get (step s a).rooms code = some after)
    (hd : impostorDeparts s code a = true) : impostorCount after = 0 := by
  have hr := regOk_get s code before hs hb
  have key : ∀ sid, isImpostorOf s code sid = true →
      after.players = JsMap.delete before.players sid → impostorCount after = 0 := by
    intro sid hi hp
    simp only [isImpostorOf, hb] at hi
    cases hg : JsMap.get before.players sid with
    | none => simp [hg] at hi
    | some p =>
      simp only [hg] at hi
      have h1 := countP_delete_flagged before.players sid p hg hi
      have h2 : before.players.countP (fun e => e.2.isImpostor) ≤ 1 := hr.imp_le
      show after.players.countP (fun e => e.2.isImpostor) = 0
      rw [hp]
      exact Nat.le_zero.1 (Nat.le_of_succ_le_succ (le_trans h1 h2))
  have hmem : ∀ sid, isImpostorOf s code sid = true → sid ∈ JsMap.keys before.players := by
    intro sid hi
    simp only [isImpostorOf, hb] at hi
    cases hg : JsMap.get before.players sid with
    | none => simp [hg] at hi
    | some p => exact JsMap.mem_keys_of_get _ _ _ hg
  cases a with
  | leaveRoom sid c =>
    simp only [impostorDeparts, Bool.and_eq_true, decide_eq_true_eq] at hd
    obtain ⟨hc, hi⟩ := hd
    subst hc
    exact key sid hi (leaveRoom_member sid c s before hb (hmem sid hi) after ha)
  | disconnect sid =>
    simp only [impostorDeparts] at hd
    exact key sid hd (disconnect_member sid s hs.1 code before hb (hmem sid hd) after ha)
  | joinRoom _ _ _ => simp [impostorDeparts] at hd
  | startGame _ _ _ _ _ => simp [impostorDeparts] at hd
  | resetGame _ _ => simp [impostorDeparts] at hd
  | readyToVote _ _ => simp [impostorDeparts] at hd
  | castVote _ _ _ => simp [impostorDeparts] at hd

end Impostor


/-! ## Membership and host authority -/

namespace Impostor

/-- C1: in every registry state reachable from the empty registry, every stored
room has at least one member and its `hostId` is one of its current members. -/
theorem host_is_current_member (s : Rooms) (h : Reachable s) :
    ∀ code room, (code, room) ∈ s →
      1 ≤ room.players.length ∧ room.hostId ∈ JsMap.keys room.players := by
  intro code room hm
  have hr := (regOk_of_reachable s h).2 (code, room) hm
  refine ⟨?_, hr.host_mem⟩
  have := hr.players_ne
  cases hp : room.players with
  | nil => exact absurd hp this
  | cons a l => simp

theorem host_is_current_member_witness :
    Reachable (run [] impostorLeaves) ∧
      ∀ code room, (code, room) ∈ run [] impostorLeaves →
        1 ≤ room.players.length ∧ room.hostId ∈ JsMap.keys room.players :=
  ⟨⟨impostorLeaves, rfl⟩, host_is_current_member (run [] impostorLeaves) ⟨impostorLeaves, rfl⟩⟩

/-! ## The impostor flag -/

/-- C2 as stated fails: after the drawn impostor leaves a room in phase `round`,
the room is still in phase `round` and no remaining member has `isImpostor = true`. -/
theorem exactly_one_impostor_fails :
    ¬ (∀ s : Rooms, Reachable s → ∀ code room, (code, room) ∈ s →
        ((room.phase = Phase.round ∨ room.phase = Phase.voting) → impostorCount room = 1) ∧
        (room.phase = Phase.lobby → impostorCount room = 0)) := by
  intro h
  have h1 := (h (run [] impostorLeaves) ⟨impostorLeaves, rfl⟩ "R"
    { hostId := "b", started := true, word := some "pizza",
      players := [("b", { name := "Bob", isImpostor := false }),
                  ("c", { name := "Cy", isImpostor := false })],
      phase := Phase.round, readySet := [], votes := [], hasVoted := [] }
    (by decide)).1 (Or.inl rfl)
  exact absurd h1 (by decide)

/-- C2, amended: in every reachable registry state a room in phase `lobby` has no
member with `isImpostor = true` and a room in phase `round` or `voting` has at most
one.  It has exactly one for as long as the member drawn as impostor stays: from a
reachable state in which the room is absent or in phase `lobby`, after any run in
which the impostor of the room neither leaves nor disconnects, a room in phase
`round` or `voting` has exactly one such member.  When the impostor leaves or
disconnects and the room remains, no member has the flag afterwards. -/
theorem exactly_one_impostor_while_present (s : Rooms) (h : Reachable s) :
    (∀ code room, (code, room) ∈ s →
        ((room.phase = Phase.round ∨ room.phase = Phase.voting) → impostorCount room ≤ 1) ∧
        (room.phase = Phase.lobby → impostorCount room = 0)) ∧
    (∀ code actions,
        (JsMap.get s code).map (fun r => r.phase) ≠ some Phase.round →
        (JsMap.get s code).map (fun r => r.phase) ≠ some Phase.voting →
        impostorStays code s actions = true →
        ∀ room, JsMap.get (run s actions) code = some room →
          ((room.phase = Phase.round ∨ room.phase = Phase.voting) → impostorCount room = 1) ∧
          (room.phase = Phase.lobby → impostorCount room = 0)) ∧
    (∀ a code before after, JsMap.get s code = some before →
        JsMap.get (step s a).rooms code = some after →
        impostorDeparts s code a = true → impostorCount after = 0) := by
  have hs := regOk_of_reachable s h
  refine ⟨fun code room hm => ⟨fun _ => (hs.2 (code, room) hm).imp_le,
    (hs.2 (code, room) hm).lobby_imp⟩, ?_, ?_⟩
  · intro code actions h1 h2 hq room hg
    have hv : ∀ r, JsMap.get s code = some r → r.phase ≠ Phase.lobby →
        impostorCount r = 1 := by
      intro r hr hp
      rw [hr] at h1 h2
      cases hph : r.phase with
      | lobby => exact absurd hph hp
      | round => simp [hph] at h1
      | voting => simp [hph] at h2
    have hrun := impostor_run code actions s hs hv hq room hg
    have hok := regOk_get _ code room (run_ok actions s hs) hg
    refine ⟨?_, hok.lobby_imp⟩
    intro hp
    apply hrun
    rcases hp with hp | hp <;> simp [hp]
  · intro a code before after hb ha hd
    exact impostor_gone s hs code a before after hb ha hd

theorem exactly_one_impostor_while_present_witness :
    Reachable (run [] lobbyOfFour)
    ∧ impostorStays "R" (run [] lobbyOfFour) roundWithVote = true
    ∧ (JsMap.get (run (run [] lobbyOfFour) roundWithVote) "R").map
        (fun r => (r.phase, JsMap.keys r.players, impostorCount r))
        = some (Phase.round, ["a", "b", "c"], 1)
    ∧ ((∀ code room, (code, room) ∈ run [] lobbyOfFour →
        ((room.phase = Phase.round ∨ room.phase = Phase.voting) → impostorCount room ≤ 1) ∧
        (room.phase = Phase.lobby → impostorCount room = 0)) ∧
      (∀ code actions,
        (JsMap.get (run [] lobbyOfFour) code).map (fun r => r.phase) ≠ some Phase.round →
        (JsMap.get (run [] lobbyOfFour) code).map (fun r => r.phase) ≠ some Phase.voting →
        impostorStays code (run [] lobbyOfFour) actions = true →
        ∀ room, JsMap.get (run (run [] lobbyOfFour) actions) code = some room →
          ((room.phase = Phase.round ∨ room.phase = Phase.voting) → impostorCount room = 1) ∧
          (room.phase = Phase.lobby → impostorCount room = 0)) ∧
      (∀ a code before after, JsMap.get (run [] lobbyOfFour) code = some before →
        JsMap.get (step (run [] lobbyOfFour) a).rooms code = some after →
        impostorDeparts (run [] lobbyOfFour) code a = true → impostorCount after = 0)) :=
  ⟨⟨lobbyOfFour, rfl⟩, rfl, rfl,
    exactly_one_impostor_while_present (run [] lobbyOfFour) ⟨lobbyOfFour, rfl⟩⟩

/-! ## Rejected actions -/

/-- C3: whenever an action is acknowledged with `ok: false`, the registry after
the action is the registry before it (this holds in every registry state and for
every action; `leaveRoom` and `disconnect` are never acknowledged with `ok: false`). -/
theorem rejected_action_keeps_registry (s : Rooms) (a : Action) (ack : Ack)
    (hack : (step s a).ack = some ack) (hfail : ack.isOk = false) : (step s a).rooms = s := by
  revert hack hfail
  cases a with
  | joinRoom sid c name =>
    simp only [step]
    unfold joinRoom
    split
    · intro h1 h2; rfl
    · by_cases hh : JsMap.has s c = true
      · simp only [hh, if_true]
        split
        · intro h1 h2; rfl
        · split
          · intro h1 h2; rfl
          · intro h1 h2; simp at h1; subst h1; simp [Ack.isOk] at h2
      · have hh' : JsMap.has s c = false := by simpa using hh
        simp only [hh', Bool.false_eq_true, if_false, JsMap.get_set_eq, JsMap.set_set]
        split
        · rename_i hst; simp [newRoom] at hst
        · intro h1 h2; simp at h1; subst h1; simp [Ack.isOk] at h2
  | startGame sid c cw d1 d2 =>
    simp only [step]
    unfold startGame
    split
    · intro h1 h2; rfl
    · split
      · intro h1 h2; rfl
      · split
        · intro h1 h2; rfl
        · dsimp only
          split
          · intro h1 h2; rfl
          · intro h1 h2; simp at h1; subst h1; simp [Ack.isOk] at h2
  | resetGame sid c =>
    simp only [step]
    unfold resetGame
    split
    · intro h1 h2; rfl
    · split
      · intro h1 h2; rfl
      · intro h1 h2; simp at h1; subst h1; simp [Ack.isOk] at h2
  | leaveRoom sid c =>
    simp only [step]
    unfold leaveRoom
    split
    · intro h1 h2; rfl
    · split
      · split
        · intro h1 h2; simp at h1; subst h1; simp [Ack.isOk] at h2
        · intro h1 h2; simp at h1; subst h1; simp [Ack.isOk] at h2
      · intro h1 h2; rfl
  | readyToVote sid c =>
    simp only [step]
    unfold readyToVote
    split
    · intro h1 h2; rfl
    · split
      · intro h1 h2; rfl
      · split
        · intro h1 h2; rfl
        · dsimp only
          split
          · intro h1 h2; simp at h1; subst h1; simp [Ack.isOk] at h2
          · intro h1 h2; simp at h1; subst h1; simp [Ack.isOk] at h2
  | castVote sid c t =>
    simp only [step]
    unfold castVote
    split
    · intro h1 h2; rfl
    · split
      · intro h1 h2; rfl
      · split
        · intro h1 h2; rfl
        · split
          · intro h1 h2; rfl
          · split
            · intro h1 h2; rfl
            · dsimp only
              split
              · intro h1 h2; simp at h1; subst h1; simp [Ack.isOk] at h2
              · split
                · intro h1 h2; simp at h1; subst h1; simp [Ack.isOk] at h2
                · intro h1 h2; simp at h1; subst h1; simp [Ack.isOk] at h2
  | disconnect sid =>
    simp [step, disconnect]

theorem rejected_action_keeps_registry_witness :
    (step (run [] roundOfThree) (Action.joinRoom "d" "R" "Dan")).ack
        = some (Ack.fail "Runda już trwa. Poczekaj na następną.")
      ∧ (Ack.fail "Runda już trwa. Poczekaj na następną.").isOk = false
      ∧ (step (run [] roundOfThree) (Action.joinRoom "d" "R" "Dan")).rooms
        = run [] roundOfThree :=
  ⟨rfl, rfl,
    rejected_action_keeps_registry (run [] roundOfThree) (Action.joinRoom "d" "R" "Dan")
      (Ack.fail "Runda już trwa. Poczekaj na następną.") rfl rfl⟩

/-! ## The outcome of a vote -/

/-- C4: for a tally with distinct targets and positive counts, the `votingEnded`
message of `endVoting` carries `winnerId = t` exactly when `t` is in the tally
with a count strictly greater than the count of every other target, and
`winnerId = null` exactly when the tally is empty or two different targets share
the highest count; a 2-2 split gives `winnerId = null`. -/
theorem endVoting_winner_is_strict_maximum (s : Rooms) (code : RoomCode) (room : Room)
    (hg : JsMap.get s code = some room) (hn : (JsMap.keys room.votes).Nodup)
    (hpos : ∀ e ∈ room.votes, 0 < e.2) :
    ∃ winnerId winnerName isImpostor,
      (endVoting s code).2 = [Event.votingEnded code winnerId winnerName isImpostor room.votes]
      ∧ (∀ t, winnerId = some t ↔
          ∃ n, (t, n) ∈ room.votes ∧ ∀ e ∈ room.votes, e.1 ≠ t → e.2 < n)
      ∧ (winnerId = none ↔
          room.votes = [] ∨ ∃ e1 ∈ room.votes, ∃ e2 ∈ room.votes,
            e1.1 ≠ e2.1 ∧ e1.2 = e2.2 ∧ ∀ e ∈ room.votes, e.2 ≤ e1.2)
      ∧ (∀ a b, room.votes = [(a, 2), (b, 2)] → winnerId = none) := by
  have h22 : ∀ a b, room.votes = [(a, 2), (b, 2)] → (scanVotes room.votes).1 = none := by
    intro a b hv
    rw [scan_none_iff room.votes hn hpos]
    right
    have hab : a ≠ b := by
      rw [hv] at hn
      simpa [JsMap.keys] using hn
    rw [hv]
    exact ⟨(a, 2), by simp, (b, 2), by simp, hab, rfl, by simp⟩
  simp only [endVoting, hg, votingEndedEvent]
  exact ⟨_, _, _, rfl, scan_some_iff room.votes hn hpos, scan_none_iff room.votes hn hpos, h22⟩

theorem endVoting_winner_is_strict_maximum_witness :
    JsMap.get [("R", tiedRoom)] "R" = some tiedRoom
      ∧ (JsMap.keys tiedRoom.votes).Nodup
      ∧ (∀ e ∈ tiedRoom.votes, 0 < e.2)
      ∧ ∃ winnerId winnerName isImpostor,
          (endVoting [("R", tiedRoom)] "R").2
            = [Event.votingEnded "R" winnerId winnerName isImpostor tiedRoom.votes]
          ∧ (∀ t, winnerId = some t ↔
              ∃ n, (t, n) ∈ tiedRoom.votes ∧ ∀ e ∈ tiedRoom.votes, e.1 ≠ t → e.2 < n)
          ∧ (winnerId = none ↔
              tiedRoom.votes = [] ∨ ∃ e1 ∈ tiedRoom.votes, ∃ e2 ∈ tiedRoom.votes,
                e1.1 ≠ e2.1 ∧ e1.2 = e2.2 ∧ ∀ e ∈ tiedRoom.votes, e.2 ≤ e1.2)
          ∧ (∀ a b, tiedRoom.votes = [(a, 2), (b, 2)] → winnerId = none) :=
  ⟨rfl, by decide, by decide,
    endVoting_winner_is_strict_maximum [("R", tiedRoom)] "R" tiedRoom rfl (by decide)
      (by decide)⟩

/-- C5 (the code departs from the claim): after `a` has voted and left through
`leaveRoom`, the room has members `b`, `c`, `d` and `hasVoted = {a, b}`.  The vote
of `c` for `d` is accepted and concludes the vote (the phase becomes `round`),
although the target `d` then has 1 vote, fewer than `majorityCount = 2`, and the
current member `d` has not voted. -/
theorem castVote_concludes_with_departed_voter :
    (JsMap.get (run [] voterLeaves) "R").map
          (fun r => (r.phase, JsMap.keys r.players, r.hasVoted, r.votes))
        = some (Phase.voting, ["b", "c", "d"], ["a", "b"], [("b", 1), ("c", 1)])
      ∧ (castVote "c" "R" "d" (run [] voterLeaves)).ack = some Ack.ok
      ∧ (JsMap.get (castVote "c" "R" "d" (run [] voterLeaves)).rooms "R").map (fun r => r.phase)
        = some Phase.round
      ∧ (castVote "c" "R" "d" (run [] voterLeaves)).events
        = [Event.voteProgress "R" 3 3,
           Event.votingEnded "R" none JsName.null none [("b", 1), ("c", 1), ("d", 1)]]
      ∧ ¬ (3 / 2 + 1 ≤ 1)
      ∧ "d" ∉ JsSet.add ["a", "b"] "c" := by
  refine ⟨by rfl, by rfl, by rfl, by rfl, by decide, by decide⟩

/-- C6 (the code departs from the claim): `a` and `b` signal readiness in a room
of five and then disconnect, which leaves members `c`, `d`, `e` and
`readySet = {a, b}`.  The first `readyToVote` of a remaining member, `c`, moves
the room to phase `voting`, although only one current member is ready and
`majorityCount = 2`. -/
theorem readyToVote_counts_departed_members :
    (JsMap.get (run [] readyThenGone) "R").map
          (fun r => (r.phase, JsMap.keys r.players, r.readySet))
        = some (Phase.round, ["c", "d", "e"], ["a", "b"])
      ∧ (readyToVote "c" "R" (run [] readyThenGone)).ack = some Ack.ok
      ∧ (JsMap.get (readyToVote "c" "R" (run [] readyThenGone)).rooms "R").map
          (fun r => (r.phase, JsMap.keys r.players, r.readySet))
        = some (Phase.voting, ["c", "d", "e"], ["a", "b", "c"])
      ∧ (["a", "b", "c"].filter (fun x => decide (x ∈ ["c", "d", "e"]))).length = 1
      ∧ 3 / 2 + 1 = 2 := by
  refine ⟨by rfl, by rfl, by rfl, by decide, by decide⟩

/-! ## Votes of departed participants -/

/-- C7 as stated fails: when `b` disconnects during a vote in which `a` has
voted for `b`, the vote stays open and `b` is a key of `votes` without being a
current member. -/
theorem votes_keys_are_members_fails :
    ¬ (∀ s : Rooms, Reachable s → ∀ code room, (code, room) ∈ s →
        room.hasVoted.length ≤ room.players.length ∧
        ∀ k ∈ JsMap.keys room.votes, k ∈ JsMap.keys room.players) := by
  intro h
  have h1 := (h (run [] targetDisconnects) ⟨targetDisconnects, rfl⟩ "R"
    { hostId := "a", started := true, word := some "pizza",
      players := [("a", { name := "Ann", isImpostor := true }),
                  ("c", { name := "Cy", isImpostor := false }),
                  ("d", { name := "Dan", isImpostor := false })],
      phase := Phase.voting, readySet := ["a", "c"], votes := [("b", 1)], hasVoted := ["a"] }
    (by decide)).2 "b" (by decide)
  exact absurd h1 (by decide)

/-- C7, amended: in every registry state reached without a `leaveRoom` addressed
to a room in phase `voting`, `hasVoted` holds current members only, so its size is
at most the number of current members; and a vote is only accepted for a target
that is a current member at that moment, so every key of `votes` was a current
member when it was added (it is kept when that participant departs later). -/
theorem voters_are_members_without_leave (s : Rooms) (h : ReachableWithoutLeave s) :
    (∀ code room, (code, room) ∈ s →
        (∀ x ∈ room.hasVoted, x ∈ JsMap.keys room.players) ∧
        room.hasVoted.length ≤ room.players.length) ∧
    (∀ sid code target, (castVote sid code target s).ack = some Ack.ok →
        ∃ room, JsMap.get s code = some room ∧ target ∈ JsMap.keys room.players) := by
  constructor
  · intro code room hm
    obtain ⟨actions, hnl, hr⟩ := h
    have hv : VotersAreMembers room := by
      have := voters_run actions [] hnl regOk_nil (by simp) (code, room) (hr ▸ hm)
      exact this
    have hok := (regOk_of_reachable s ⟨actions, hr⟩).2 (code, room) hm
    refine ⟨hv, ?_⟩
    have := lengthLe_of_subset _ _ hok.voted_nodup hv
    simpa [JsMap.keys] using this
  · intro sid code target hack
    obtain ⟨room, hg, _, _, ht, _⟩ := castVote_ack_ok sid code target s hack
    exact ⟨room, hg, ht⟩

theorem voters_are_members_without_leave_witness :
    ReachableWithoutLeave (run [] targetDisconnects) ∧
    ((∀ code room, (code, room) ∈ run [] targetDisconnects →
        (∀ x ∈ room.hasVoted, x ∈ JsMap.keys room.players) ∧
        room.hasVoted.length ≤ room.players.length) ∧
    (∀ sid code target,
        (castVote sid code target (run [] targetDisconnects)).ack = some Ack.ok →
        ∃ room, JsMap.get (run [] targetDisconnects) code = some room
          ∧ target ∈ JsMap.keys room.players)) :=
  ⟨⟨targetDisconnects, rfl, rfl⟩,
    voters_are_members_without_leave (run [] targetDisconnects)
      ⟨targetDisconnects, rfl, rfl⟩⟩

/-! ## Round setup -/

/-- C8: a successful `startGame` on a reachable registry sends, to the members of
the room in order, one `gameStarted` payload each: with `w` the word chosen by the
handler (the trimmed custom word, or else the drawn entry of the word list), which
is not empty, there is exactly one member `impostorId` such that `impostorId` receives role
`impostor` with `word = null`, every other member receives role `crewmate` with
word `w`, and every payload carries as `wordLength` the length of `w` in UTF-16
code units (`w.length` in JavaScript); this holds for both random draws. -/
theorem gameStarted_payloads (s : Rooms) (h : Reachable s) (sid : SocketId) (code : RoomCode)
    (customWord : Option String) (wordDraw impostorDraw : Draw)
    (hack : (startGame sid code customWord wordDraw impostorDraw s).ack = some Ack.ok) :
    ∃ room word impostorId,
      JsMap.get s code = some room ∧ word = chooseWord customWord wordDraw ∧ word ≠ "" ∧
      (JsMap.keys room.players).count impostorId = 1 ∧
      (startGame sid code customWord wordDraw impostorDraw s).events.filter Event.isGameStarted
        = (JsMap.keys room.players).map (fun id =>
            if id = impostorId then Event.gameStarted id "impostor" none (jsLength word)
            else Event.gameStarted id "crewmate" (some word) (jsLength word)) := by
  obtain ⟨room, hg, _, _, hlen, _, hev⟩ :=
    startGame_ack_ok sid code customWord wordDraw impostorDraw s hack
  have hr := regOk_get s code room (regOk_of_reachable s h) hg
  have hkl : (JsMap.keys room.players).length = room.players.length := by simp [JsMap.keys]
  have hi : impostorDraw.index (JsMap.keys room.players).length
      < (JsMap.keys room.players).length := Draw.index_lt impostorDraw _ (by omega)
  obtain ⟨k, hget, hkmem⟩ : ∃ k, (JsMap.keys room.players).get?
      (impostorDraw.index (JsMap.keys room.players).length) = some k
      ∧ k ∈ JsMap.keys room.players :=
    ⟨_, List.get?_eq_get hi, List.get_mem _ _ _⟩
  refine ⟨room, chooseWord customWord wordDraw, k, hg, rfl, chooseWord_ne _ _,
    List.count_eq_one_of_mem hr.players_nodup hkmem, ?_⟩
  rw [hev, List.filter_append, filter_broadcastLobby, List.append_nil, filter_gameStarted, hget]
  simp only [JsMap.keys, List.map_map]
  apply List.map_congr_left
  intro e _
  simp only [Function.comp_def, gameStartedEvent, markImpostor, Option.some.injEq]
  by_cases hc : e.1 = k
  · simp [hc]
  · simp [hc]

theorem gameStarted_payloads_witness :
    Reachable (run [] lobbyOfThree) ∧
    (startGame "a" "R" (some "pizza") drawFirst drawFirst (run [] lobbyOfThree)).ack
      = some Ack.ok ∧
    (startGame "a" "R" (some "pizza") drawFirst drawFirst
        (run [] lobbyOfThree)).events.filter Event.isGameStarted
      = [Event.gameStarted "a" "impostor" none 5,
         Event.gameStarted "b" "crewmate" (some "pizza") 5,
         Event.gameStarted "c" "crewmate" (some "pizza") 5] ∧
    (startGame "a" "R" (some " 😀 ") drawFirst drawFirst
        (run [] lobbyOfThree)).events.filter Event.isGameStarted
      = [Event.gameStarted "a" "impostor" none 2,
         Event.gameStarted "b" "crewmate" (some "😀") 2,
         Event.gameStarted "c" "crewmate" (some "😀") 2] ∧
    ∃ room word impostorId,
      JsMap.get (run [] lobbyOfThree) "R" = some room
      ∧ word = chooseWord (some "pizza") drawFirst ∧ word ≠ "" ∧
      (JsMap.keys room.players).count impostorId = 1 ∧
      (startGame "a" "R" (some "pizza") drawFirst drawFirst
          (run [] lobbyOfThree)).events.filter Event.isGameStarted
        = (JsMap.keys room.players).map (fun id =>
            if id = impostorId then Event.gameStarted id "impostor" none (jsLength word)
            else Event.gameStarted id "crewmate" (some word) (jsLength word)) :=
  ⟨⟨lobbyOfThree, rfl⟩, rfl, rfl, rfl,
    gameStarted_payloads (run [] lobbyOfThree) ⟨lobbyOfThree, rfl⟩ "a" "R" (some "pizza")
      drawFirst drawFirst rfl⟩

/-- C9: on a reachable registry `startGame` is acknowledged with `ok: true` and
leaves the room in phase `round` exactly when the room exists, the caller is its
host, its phase is `lobby` and it has at least 3 members; in a lobby room with 2
members `startGame` is acknowledged with `ok: false`, the registry is unchanged
and the phase is still `lobby`. -/
theorem startGame_accepted_iff (s : Rooms) (h : Reachable s) (sid : SocketId) (code : RoomCode)
    (customWord : Option String) (wordDraw impostorDraw : Draw) :
    (((startGame sid code customWord wordDraw impostorDraw s).ack = some Ack.ok ∧
        ∃ after, JsMap.get (startGame sid code customWord wordDraw impostorDraw s).rooms code
          = some after ∧ after.phase = Phase.round) ↔
      ∃ room, JsMap.get s code = some room ∧ sid = room.hostId ∧ room.phase = Phase.lobby
        ∧ 3 ≤ room.players.length) ∧
    (∀ room, JsMap.get s code = some room → room.phase = Phase.lobby →
        room.players.length = 2 →
        (∃ msg, (startGame sid code customWord wordDraw impostorDraw s).ack
            = some (Ack.fail msg)) ∧
        (startGame sid code customWord wordDraw impostorDraw s).rooms = s ∧
        (JsMap.get (startGame sid code customWord wordDraw impostorDraw s).rooms code).map
            (fun r => r.phase) = some Phase.lobby) := by
  have hs := regOk_of_reachable s h
  constructor
  · constructor
    · rintro ⟨hack, _⟩
      obtain ⟨room, hg, hh, hst, hlen, _, _⟩ :=
        startGame_ack_ok sid code customWord wordDraw impostorDraw s hack
      refine ⟨room, hg, hh, ?_, hlen⟩
      have hr := regOk_get s code room hs hg
      by_contra hc
      have := hr.started_iff.2 hc
      rw [hst] at this
      exact absurd this (by simp)
    · rintro ⟨room, hg, hh, hph, hlen⟩
      have hr := regOk_get s code room hs hg
      have hst : room.started = false := by
        cases hb : room.started with
        | false => rfl
        | true => exact absurd hph (hr.started_iff.1 hb)
      have hack := startGame_of_guard sid code customWord wordDraw impostorDraw s room hg hh
        hst hlen
      refine ⟨hack, ?_⟩
      obtain ⟨room', hg', _, _, _, hrooms, _⟩ :=
        startGame_ack_ok sid code customWord wordDraw impostorDraw s hack
      rw [hrooms, JsMap.get_set_eq]
      exact ⟨_, rfl, rfl⟩
  · intro room hg hph hlen
    obtain ⟨h1, h2⟩ := startGame_small_room sid code customWord wordDraw impostorDraw s room hg
      (by omega)
    refine ⟨h1, h2, ?_⟩
    rw [h2, hg]
    simp [hph]

theorem startGame_accepted_iff_witness :
    Reachable (run [] lobbyOfThree) ∧
    ((((startGame "a" "R" none drawFirst drawFirst (run [] lobbyOfThree)).ack = some Ack.ok ∧
        ∃ after, JsMap.get (startGame "a" "R" none drawFirst drawFirst
            (run [] lobbyOfThree)).rooms "R" = some after ∧ after.phase = Phase.round) ↔
      ∃ room, JsMap.get (run [] lobbyOfThree) "R" = some room ∧ "a" = room.hostId
        ∧ room.phase = Phase.lobby ∧ 3 ≤ room.players.length) ∧
    (∀ room, JsMap.get (run [] lobbyOfThree) "R" = some room → room.phase = Phase.lobby →
        room.players.length = 2 →
        (∃ msg, (startGame "a" "R" none drawFirst drawFirst (run [] lobbyOfThree)).ack
            = some (Ack.fail msg)) ∧
        (startGame "a" "R" none drawFirst drawFirst (run [] lobbyOfThree)).rooms
          = run [] lobbyOfThree ∧
        (JsMap.get (startGame "a" "R" none drawFirst drawFirst
            (run [] lobbyOfThree)).rooms "R").map (fun r => r.phase) = some Phase.lobby)) :=
  ⟨⟨lobbyOfThree, rfl⟩,
    startGame_accepted_iff (run [] lobbyOfThree) ⟨lobbyOfThree, rfl⟩ "a" "R" none drawFirst
      drawFirst⟩

/-! ## Disconnect during a vote -/

/-- C10: when a member of a reachable room in phase `voting` disconnects and at
least one member remains, and some target (possibly the departed participant)
has a count of at least `floor(N'/2) + 1` in the accumulated `votes`, where `N'`
is the number of remaining members, then the `disconnect` handling concludes the
vote: the room is afterwards in phase `round` with `readySet`, `votes` and
`hasVoted` cleared, and a `votingEnded` message is emitted whose winner is the
result of the winner scan on the accumulated `votes` and whose tally is that map. -/
theorem disconnect_concludes_vote (s : Rooms) (h : Reachable s) (sid : SocketId)
    (code : RoomCode) (room : Room) (hg : JsMap.get s code = some room)
    (hph : room.phase = Phase.voting) (hmem : sid ∈ JsMap.keys room.players)
    (hne : JsMap.delete room.players sid ≠ []) (e : SocketId × Nat) (he : e ∈ room.votes)
    (hmaj : (JsMap.delete room.players sid).length / 2 + 1 ≤ e.2) :
    (∃ after, JsMap.get (disconnect sid s).rooms code = some after
        ∧ after.phase = Phase.round ∧ after.players = JsMap.delete room.players sid
        ∧ after.readySet = [] ∧ after.votes = [] ∧ after.hasVoted = [])
      ∧ ∃ name imp,
          Event.votingEnded code (scanVotes room.votes).1 name imp room.votes
            ∈ (disconnect sid s).events := by
  have hs := regOk_of_reachable s h
  have hc : code ∈ JsMap.keys s := JsMap.mem_keys_of_get s code room hg
  have key := disconnect_fold_at sid (JsMap.keys s) (s, []) code hs.1 hc
    (fun v => ∃ after, v = some after
        ∧ after.phase = Phase.round ∧ after.players = JsMap.delete room.players sid
        ∧ after.readySet = [] ∧ after.votes = [] ∧ after.hasVoted = [])
    (fun ev => ∃ name imp,
      ev = Event.votingEnded code (scanVotes room.votes).1 name imp room.votes)
    (by
      intro acc' hacc'
      obtain ⟨h1, name, imp, h2⟩ := disconnectRoom_concludes sid acc' code room
        (hacc'.trans hg) hph hmem hne e he hmaj
      exact ⟨h1, _, h2, name, imp, rfl⟩)
  obtain ⟨h1, ev, hev, name, imp, hq⟩ := key
  refine ⟨h1, name, imp, ?_⟩
  rw [← hq]
  exact hev

theorem disconnect_concludes_vote_witness :
    Reachable (run [] twoVotesForTarget)
    ∧ JsMap.get (run [] twoVotesForTarget) "R" = some
        { hostId := "a", started := true, word := some "pizza",
          players := [("a", { name := "Ann", isImpostor := true }),
                      ("b", { name := "Bob", isImpostor := false }),
                      ("c", { name := "Cy", isImpostor := false }),
                      ("d", { name := "Dan", isImpostor := false })],
          phase := Phase.voting, readySet := ["a", "b", "c"], votes := [("b", 2)],
          hasVoted := ["a", "c"] }
    ∧ (∃ after, JsMap.get (disconnect "b" (run [] twoVotesForTarget)).rooms "R" = some after
        ∧ after.phase = Phase.round
        ∧ after.players = [("a", { name := "Ann", isImpostor := true }),
                           ("c", { name := "Cy", isImpostor := false }),
                           ("d", { name := "Dan", isImpostor := false })]
        ∧ after.readySet = [] ∧ after.votes = [] ∧ after.hasVoted = [])
    ∧ ∃ name imp,
        Event.votingEnded "R" (some "b") name imp [("b", 2)]
          ∈ (disconnect "b" (run [] twoVotesForTarget)).events :=
  ⟨⟨twoVotesForTarget, rfl⟩, rfl,
    disconnect_concludes_vote (run [] twoVotesForTarget) ⟨twoVotesForTarget, rfl⟩ "b" "R"
      { hostId := "a", started := true, word := some "pizza",
        players := [("a", { name := "Ann", isImpostor := true }),
                    ("b", { name := "Bob", isImpostor := false }),
                    ("c", { name := "Cy", isImpostor := false }),
                    ("d", { name := "Dan", isImpostor := false })],
        phase := Phase.voting, readySet := ["a", "b", "c"], votes := [("b", 2)],
        hasVoted := ["a", "c"] }
      rfl rfl (by decide) (by decide) ("b", 2) (by decide) (by decide)⟩

end Impostor

namespace Impostor

/-! ## Majority quorum -/

/-- C12: `majorityCount` of a room with `N` members is `floor(N/2) + 1`; it is the
least natural number `k` with `N < 2 * k` (that is, strictly greater than `N/2`);
and it is monotone in the number of members. -/
theorem majorityCount_is_least_majority (room other : Room) :
    majorityCount room = room.players.length / 2 + 1
      ∧ room.players.length < 2 * majorityCount room
      ∧ (∀ k : Nat, room.players.length < 2 * k → majorityCount room ≤ k)
      ∧ (room.players.length ≤ other.players.length →
          majorityCount room ≤ majorityCount other) := by
  unfold majorityCount
  refine ⟨rfl, by omega, fun k hk => by omega, fun h => by omega⟩

theorem majorityCount_is_least_majority_witness :
    majorityCount smallRoom = 2 ∧ majorityCount tiedRoom = 3
      ∧ (majorityCount smallRoom = smallRoom.players.length / 2 + 1
        ∧ smallRoom.players.length < 2 * majorityCount smallRoom
        ∧ (∀ k : Nat, smallRoom.players.length < 2 * k → majorityCount smallRoom ≤ k)
        ∧ (smallRoom.players.length ≤ tiedRoom.players.length →
            majorityCount smallRoom ≤ majorityCount tiedRoom)) :=
  ⟨rfl, rfl, majorityCount_is_least_majority smallRoom tiedRoom⟩

/-! ## Idempotence of readiness and votes -/

/-- C11: in a room in phase `round`, `readyToVote` from a participant who is
already in `readySet` leaves `readySet` and its size unchanged; in a room in phase
`voting`, `castVote` from a participant who is already in `hasVoted` is
acknowledged with `ok: false` and leaves the registry, hence `votes` and
`hasVoted`, unchanged. -/
theorem no_participant_counted_twice (s : Rooms) (sid : SocketId) (code : RoomCode)
    (room : Room) (hg : JsMap.get s code = some room) :
    (room.phase = Phase.round → sid ∈ room.readySet →
        ∃ after, JsMap.get (readyToVote sid code s).rooms code = some after
          ∧ after.readySet = room.readySet
          ∧ after.readySet.length = room.readySet.length) ∧
    (room.phase = Phase.voting → sid ∈ room.hasVoted → ∀ targetId,
        (∃ msg, (castVote sid code targetId s).ack = some (Ack.fail msg))
          ∧ (castVote sid code targetId s).rooms = s
          ∧ ∃ after, JsMap.get (castVote sid code targetId s).rooms code = some after
              ∧ after.votes = room.votes ∧ after.hasVoted = room.hasVoted) := by
  constructor
  · intro hph hmem
    have hadd : JsSet.add room.readySet sid = room.readySet := by simp [JsSet.add, hmem]
    unfold readyToVote
    simp only [hg, hph, ne_eq, not_true_eq_false, if_false]
    split
    · exact ⟨room, hg, rfl, rfl⟩
    · simp only [hadd]
      split
      · simp only [beginVoting, JsMap.get_set_eq, JsMap.set_set]
        exact ⟨_, rfl, rfl, rfl⟩
      · simp only [JsMap.get_set_eq]
        exact ⟨_, rfl, rfl, rfl⟩
  · intro hph hmem targetId
    have hhas : JsSet.has room.hasVoted sid = true := by simp [JsSet.has, hmem]
    have key : (∃ msg, (castVote sid code targetId s).ack = some (Ack.fail msg))
        ∧ (castVote sid code targetId s).rooms = s := by
      unfold castVote
      simp only [hg, hph, ne_eq, not_true_eq_false, if_false, hhas, if_true]
      split
      · exact ⟨⟨_, rfl⟩, rfl⟩
      · split
        · exact ⟨⟨_, rfl⟩, rfl⟩
        · exact ⟨⟨_, rfl⟩, rfl⟩
    refine ⟨key.1, key.2, room, ?_, rfl, rfl⟩
    rw [key.2]; exact hg

theorem no_participant_counted_twice_witness :
    JsMap.get (run [] twoVotesForTarget) "R" = some
        { hostId := "a", started := true, word := some "pizza",
          players := [("a", { name := "Ann", isImpostor := true }),
                      ("b", { name := "Bob", isImpostor := false }),
                      ("c", { name := "Cy", isImpostor := false }),
                      ("d", { name := "Dan", isImpostor := false })],
          phase := Phase.voting, readySet := ["a", "b", "c"], votes := [("b", 2)],
          hasVoted := ["a", "c"] }
    ∧ (castVote "a" "R" "b" (run [] twoVotesForTarget)).ack = some (Ack.fail "Już głosowałeś.")
    ∧ (castVote "a" "R" "b" (run [] twoVotesForTarget)).rooms = run [] twoVotesForTarget :=
  ⟨rfl, rfl,
    ((no_participant_counted_twice (run [] twoVotesForTarget) "a" "R" _ rfl).2 rfl
      (by decide) "b").2.1⟩

/-! ## Frame of the conclusion of a vote -/

/-- C16: after `endVoting` the room is in phase `round` with empty `readySet`,
`votes` and `hasVoted`, and its word, its players (names and `isImpostor` flags),
its `hostId` and its `started` flag are what they were before. -/
theorem endVoting_keeps_round (s : Rooms) (code : RoomCode) (room : Room)
    (hg : JsMap.get s code = some room) :
    ∃ after, JsMap.get (endVoting s code).1 code = some after
      ∧ after.phase = Phase.round ∧ after.readySet = [] ∧ after.votes = []
      ∧ after.hasVoted = []
      ∧ after.word = room.word ∧ after.players = room.players
      ∧ after.hostId = room.hostId ∧ after.started = room.started := by
  simp only [endVoting, hg, JsMap.get_set_eq]
  exact ⟨_, rfl, rfl, rfl, rfl, rfl, rfl, rfl, rfl, rfl⟩

theorem endVoting_keeps_round_witness :
    JsMap.get [("R", tiedRoom)] "R" = some tiedRoom
    ∧ ∃ after, JsMap.get (endVoting [("R", tiedRoom)] "R").1 "R" = some after
      ∧ after.phase = Phase.round ∧ after.readySet = [] ∧ after.votes = []
      ∧ after.hasVoted = []
      ∧ after.word = tiedRoom.word ∧ after.players = tiedRoom.players
      ∧ after.hostId = tiedRoom.hostId ∧ after.started = tiedRoom.started :=
  ⟨rfl, endVoting_keeps_round [("R", tiedRoom)] "R" tiedRoom rfl⟩

/-! ## Independence of rooms -/

/-- C18: a client action addressed to room code `c` leaves the entry stored under
every other code as it was: present exactly when it was present before, with the
same room. -/
theorem other_rooms_untouched (s : Rooms) (a : Action) (c other : RoomCode)
    (ha : a.roomCode = some c) (hne : other ≠ c) :
    JsMap.get (step s a).rooms other = JsMap.get s other := by
  have hne' : c ≠ other := fun h => hne h.symm
  cases a with
  | joinRoom sid k name =>
    simp only [Action.roomCode, Option.some.injEq] at ha; subst ha
    exact get_joinRoom_ne sid k name s other hne'
  | startGame sid k cw d1 d2 =>
    simp only [Action.roomCode, Option.some.injEq] at ha; subst ha
    exact get_startGame_ne sid k cw d1 d2 s other hne'
  | resetGame sid k =>
    simp only [Action.roomCode, Option.some.injEq] at ha; subst ha
    exact get_resetGame_ne sid k s other hne'
  | leaveRoom sid k =>
    simp only [Action.roomCode, Option.some.injEq] at ha; subst ha
    exact get_leaveRoom_ne sid k s other hne'
  | readyToVote sid k =>
    simp only [Action.roomCode, Option.some.injEq] at ha; subst ha
    exact get_readyToVote_ne sid k s other hne'
  | castVote sid k t =>
    simp only [Action.roomCode, Option.some.injEq] at ha; subst ha
    exact get_castVote_ne sid k t s other hne'
  | disconnect sid => simp [Action.roomCode] at ha

theorem other_rooms_untouched_witness :
    (Action.leaveRoom "a" "R").roomCode = some "R" ∧ "Q" ≠ "R"
    ∧ JsMap.get (step [("Q", smallRoom), ("R", tiedRoom)] (Action.leaveRoom "a" "R")).rooms "Q"
        = JsMap.get [("Q", smallRoom), ("R", tiedRoom)] "Q" :=
  ⟨rfl, by decide,
    other_rooms_untouched [("Q", smallRoom), ("R", tiedRoom)] (Action.leaveRoom "a" "R") "R" "Q"
      rfl (by decide)⟩

/-! ## Order of the winner scan -/

/-- C19 as stated fails: no two iteration orders of one tally with distinct
targets and positive counts give different results of the winner scan. -/
theorem winner_scan_order_dependence_fails :
    ¬ ∃ l1 l2 : List (SocketId × Nat), l1.Perm l2 ∧ (JsMap.keys l1).Nodup
        ∧ (∀ e ∈ l1, 0 < e.2) ∧ (scanVotes l1).1 ≠ (scanVotes l2).1 := by
  rintro ⟨l1, l2, hp, hn, hpos, hne⟩
  exact hne (scanVotes_perm l1 l2 hp hn hpos)

/-- C19, amended: the winner scan of `endVoting` does not depend on the iteration
order; for every reordering of a tally with distinct targets and positive counts
it announces the same `winnerId`, namely the target whose count is strictly
greater than every other count when there is one, and `null` otherwise. -/
theorem winner_scan_order_independent (l1 l2 : List (SocketId × Nat)) (hp : l1.Perm l2)
    (hn : (JsMap.keys l1).Nodup) (hpos : ∀ e ∈ l1, 0 < e.2) :
    (scanVotes l1).1 = (scanVotes l2).1
      ∧ (∀ t, (scanVotes l2).1 = some t ↔
          ∃ n, (t, n) ∈ l1 ∧ ∀ e ∈ l1, e.1 ≠ t → e.2 < n) := by
  have h := scanVotes_perm l1 l2 hp hn hpos
  refine ⟨h, fun t => ?_⟩
  rw [← h]
  exact scan_some_iff l1 hn hpos t

theorem winner_scan_order_independent_witness :
    [("a", 1), ("b", 1), ("c", 2)].Perm [("c", 2), ("a", 1), ("b", 1)]
      ∧ (JsMap.keys [("a", 1), ("b", 1), ("c", 2)]).Nodup
      ∧ (∀ e ∈ [(("a" : SocketId), 1), ("b", 1), ("c", 2)], 0 < e.2)
      ∧ (scanVotes [("a", 1), ("b", 1), ("c", 2)]).1 = some "c"
      ∧ ((scanVotes [("a", 1), ("b", 1), ("c", 2)]).1
            = (scanVotes [("c", 2), ("a", 1), ("b", 1)]).1
          ∧ (∀ t, (scanVotes [("c", 2), ("a", 1), ("b", 1)]).1 = some t ↔
              ∃ n, (t, n) ∈ [(("a" : SocketId), 1), ("b", 1), ("c", 2)]
                ∧ ∀ e ∈ [(("a" : SocketId), 1), ("b", 1), ("c", 2)], e.1 ≠ t → e.2 < n)) :=
  ⟨by decide, by decide, by decide, rfl,
    winner_scan_order_independent _ _ (by decide) (by decide) (by decide)⟩

/-! ## Phases -/

/-- C13: in every reachable registry state a room in phase `lobby` has empty
`readySet`, `votes` and `hasVoted` and `word = null`, and a room in phase `round`
or `voting` has a word; and whenever one action takes a room from another phase
into phase `round`, its `readySet`, `votes` and `hasVoted` are empty afterwards. -/
theorem sets_and_word_follow_phase (s : Rooms) (h : Reachable s) :
    (∀ code room, (code, room) ∈ s →
        (room.phase = Phase.lobby →
          room.readySet = [] ∧ room.votes = [] ∧ room.hasVoted = [] ∧ room.word = none) ∧
        ((room.phase = Phase.round ∨ room.phase = Phase.voting) → room.word ≠ none)) ∧
    (∀ a code before after, JsMap.get s code = some before →
        JsMap.get (step s a).rooms code = some after →
        before.phase ≠ Phase.round → after.phase = Phase.round →
        after.readySet = [] ∧ after.votes = [] ∧ after.hasVoted = []) := by
  have hs := regOk_of_reachable s h
  constructor
  · intro code room hm
    have hr := hs.2 (code, room) hm
    refine ⟨hr.lobby_clean, ?_⟩
    intro hp
    apply hr.word_some
    rcases hp with hp | hp <;> simp [hp]
  · intro a code before after hb ha hne hround
    have he := step_effect s hs.1 a code
    rw [hb, ha] at he
    cases he with
    | same => exact absurd hround hne
    | joined sid name _ _ hst => exact absurd hround hne
    | started => exact ⟨rfl, rfl, rfl⟩
    | reset => simp [resetRoom] at hround
    | removed => exact absurd hround hne
    | dropped => exact absurd hround hne
    | droppedEnd => exact ⟨rfl, rfl, rfl⟩
    | ready => exact absurd hround hne
    | readyBegin => simp [votingRoom] at hround
    | voted => exact absurd hround hne
    | votedEnd => exact ⟨rfl, rfl, rfl⟩

theorem sets_and_word_follow_phase_witness :
    Reachable (run [] lobbyOfThree) ∧
    ((∀ code room, (code, room) ∈ run [] lobbyOfThree →
        (room.phase = Phase.lobby →
          room.readySet = [] ∧ room.votes = [] ∧ room.hasVoted = [] ∧ room.word = none) ∧
        ((room.phase = Phase.round ∨ room.phase = Phase.voting) → room.word ≠ none)) ∧
    (∀ a code before after, JsMap.get (run [] lobbyOfThree) code = some before →
        JsMap.get (step (run [] lobbyOfThree) a).rooms code = some after →
        before.phase ≠ Phase.round → after.phase = Phase.round →
        after.readySet = [] ∧ after.votes = [] ∧ after.hasVoted = [])) :=
  ⟨⟨lobbyOfThree, rfl⟩, sets_and_word_follow_phase (run [] lobbyOfThree) ⟨lobbyOfThree, rfl⟩⟩

/-- C14: for one action on a reachable registry, the phase of a room that exists
before and after the action either stays the same or changes along one of the
edges lobby to round (the action is `startGame` by the host), round to voting (the
action is a `readyToVote`), voting to round (the action is a `castVote` or a
`disconnect`), round or voting to lobby (the action is `resetGame` by the host);
in particular never from lobby to voting, and to lobby only through the host's
`resetGame`. -/
theorem phase_changes_along_edges (s : Rooms) (h : Reachable s) (a : Action)
    (code : RoomCode) (before after : Room) (hb : JsMap.get s code = some before)
    (ha : JsMap.get (step s a).rooms code = some after) :
    (after.phase = before.phase ∨
      (before.phase = Phase.lobby ∧ after.phase = Phase.round ∧
        ∃ cw d1 d2, a = Action.startGame before.hostId code cw d1 d2) ∨
      (before.phase = Phase.round ∧ after.phase = Phase.voting ∧
        ∃ sid, a = Action.readyToVote sid code) ∨
      (before.phase = Phase.voting ∧ after.phase = Phase.round ∧
        ((∃ sid target, a = Action.castVote sid code target) ∨
          ∃ sid, a = Action.disconnect sid)) ∨
      ((before.phase = Phase.round ∨ before.phase = Phase.voting) ∧ after.phase = Phase.lobby ∧
        a = Action.resetGame before.hostId code)) ∧
    ¬ (before.phase = Phase.lobby ∧ after.phase = Phase.voting) ∧
    (before.phase ≠ Phase.lobby → after.phase = Phase.lobby →
      a = Action.resetGame before.hostId code) := by
  have hs := regOk_of_reachable s h
  have hr := regOk_get s code before hs hb
  have he := step_effect s hs.1 a code
  rw [hb, ha] at he
  have key : after.phase = before.phase ∨
      (before.phase = Phase.lobby ∧ after.phase = Phase.round ∧
        ∃ cw d1 d2, a = Action.startGame before.hostId code cw d1 d2) ∨
      (before.phase = Phase.round ∧ after.phase = Phase.voting ∧
        ∃ sid, a = Action.readyToVote sid code) ∨
      (before.phase = Phase.voting ∧ after.phase = Phase.round ∧
        ((∃ sid target, a = Action.castVote sid code target) ∨
          ∃ sid, a = Action.disconnect sid)) ∨
      ((before.phase = Phase.round ∨ before.phase = Phase.voting) ∧ after.phase = Phase.lobby ∧
        a = Action.resetGame before.hostId code) := by
    cases he with
    | same => exact Or.inl rfl
    | joined sid name _ _ hst => exact Or.inl rfl
    | started sid cw d1 d2 _ ha' hh hst hl =>
      exact Or.inr (Or.inl ⟨lobby_of_not_started before hr hst, rfl, cw, d1, d2, hh ▸ ha'⟩)
    | reset sid _ ha' hh =>
      cases hp : before.phase with
      | lobby => exact Or.inl (by simp [resetRoom])
      | round => exact Or.inr (Or.inr (Or.inr (Or.inr ⟨Or.inl rfl, rfl, hh ▸ ha'⟩)))
      | voting => exact Or.inr (Or.inr (Or.inr (Or.inr ⟨Or.inr rfl, rfl, hh ▸ ha'⟩)))
    | removed => exact Or.inl rfl
    | dropped => exact Or.inl rfl
    | droppedEnd sid _ ha' hm hd hph hc =>
      exact Or.inr (Or.inr (Or.inr (Or.inl ⟨hph, rfl, Or.inr ⟨sid, ha'⟩⟩)))
    | ready => exact Or.inl rfl
    | readyBegin sid _ ha' hph hm hc =>
      exact Or.inr (Or.inr (Or.inl ⟨hph, rfl, sid, ha'⟩))
    | voted => exact Or.inl rfl
    | votedEnd sid t _ ha' hph hm ht hv hc =>
      exact Or.inr (Or.inr (Or.inr (Or.inl ⟨hph, rfl, Or.inl ⟨sid, t, ha'⟩⟩)))
  refine ⟨key, ?_, ?_⟩
  · rintro ⟨h1, h2⟩
    rcases key with k | ⟨k1, k2, _⟩ | ⟨k1, k2, _⟩ | ⟨k1, k2, _⟩ | ⟨k1, k2, _⟩
    · rw [k, h1] at h2; cases h2
    · rw [k2] at h2; cases h2
    · rw [k1] at h1; cases h1
    · rw [k1] at h1; cases h1
    · rw [k2] at h2; cases h2
  · intro h1 h2
    rcases key with k | ⟨k1, k2, _⟩ | ⟨k1, k2, _⟩ | ⟨k1, k2, _⟩ | ⟨k1, k2, k3⟩
    · rw [k] at h2; exact absurd h2 h1
    · exact absurd k1 h1
    · rw [k2] at h2; cases h2
    · rw [k2] at h2; cases h2
    · exact k3

theorem phase_changes_along_edges_witness :
    Reachable (run [] lobbyOfThree)
    ∧ JsMap.get (run [] lobbyOfThree) "R" = some smallRoom
    ∧ JsMap.get (step (run [] lobbyOfThree)
        (Action.startGame "a" "R" (some "pizza") drawFirst drawFirst)).rooms "R"
        = some (startedRoom (some "pizza") drawFirst drawFirst smallRoom)
    ∧ smallRoom.phase = Phase.lobby
    ∧ (startedRoom (some "pizza") drawFirst drawFirst smallRoom).phase = Phase.round
    ∧ ¬ (smallRoom.phase = Phase.lobby
        ∧ (startedRoom (some "pizza") drawFirst drawFirst smallRoom).phase = Phase.voting) :=
  ⟨⟨lobbyOfThree, rfl⟩, rfl, rfl, rfl, rfl,
    (phase_changes_along_edges (run [] lobbyOfThree) ⟨lobbyOfThree, rfl⟩
      (Action.startGame "a" "R" (some "pizza") drawFirst drawFirst) "R" smallRoom
      (startedRoom (some "pizza") drawFirst drawFirst smallRoom) rfl rfl).2.1⟩

/-! ## Host succession -/

/-- C15: when a member of a reachable room with at least two members leaves
through `leaveRoom` or disconnects, the room is kept with the remaining members in
their order; if the departing member was the host, the new `hostId` is the first
key of the remaining members, and otherwise `hostId` is unchanged. -/
theorem host_succession (s : Rooms) (h : Reachable s) (sid : SocketId) (code : RoomCode)
    (room : Room) (hg : JsMap.get s code = some room) (hm : sid ∈ JsMap.keys room.players)
    (h2 : 2 ≤ room.players.length) (a : Action)
    (ha : a = Action.leaveRoom sid code ∨ a = Action.disconnect sid) :
    ∃ after, JsMap.get (step s a).rooms code = some after
      ∧ after.players = JsMap.delete room.players sid
      ∧ (room.hostId = sid → (JsMap.keys after.players).head? = some after.hostId)
      ∧ (room.hostId ≠ sid → after.hostId = room.hostId) := by
  have hs := regOk_of_reachable s h
  have hr := regOk_get s code room hs hg
  have hd := delete_ne_nil_of_two room.players sid hr.players_nodup h2
  have hhost := removedRoom_host sid room hd
  rcases ha with ha | ha
  · subst ha
    simp only [step]
    rw [leaveRoom_removed sid code s room hg hm hd]
    exact ⟨_, rfl, rfl, hhost.1, hhost.2⟩
  · subst ha
    simp only [step, disconnect]
    refine get_disconnect_fold_mem sid (JsMap.keys s) (s, []) code hs.1
      (JsMap.mem_keys_of_get s code room hg)
      (fun v => ∃ after, v = some after
        ∧ after.players = JsMap.delete room.players sid
        ∧ (room.hostId = sid → (JsMap.keys after.players).head? = some after.hostId)
        ∧ (room.hostId ≠ sid → after.hostId = room.hostId)) ?_
    intro acc' hacc'
    obtain ⟨after, h1, h2, h3⟩ :=
      disconnectRoom_removed sid acc' code room (hacc'.trans hg) hm hd
    refine ⟨after, h1, h2, ?_, ?_⟩
    · intro hh; rw [h2, h3]; exact hhost.1 hh
    · intro hh; rw [h3]; exact hhost.2 hh

theorem host_succession_witness :
    Reachable (run [] lobbyOfThree)
    ∧ JsMap.get (run [] lobbyOfThree) "R" = some smallRoom
    ∧ "a" ∈ JsMap.keys smallRoom.players ∧ 2 ≤ smallRoom.players.length
    ∧ smallRoom.hostId = "a"
    ∧ ∃ after, JsMap.get (step (run [] lobbyOfThree) (Action.disconnect "a")).rooms "R"
          = some after
        ∧ after.players = JsMap.delete smallRoom.players "a"
        ∧ (smallRoom.hostId = "a" → (JsMap.keys after.players).head? = some after.hostId)
        ∧ (smallRoom.hostId ≠ "a" → after.hostId = smallRoom.hostId) :=
  ⟨⟨lobbyOfThree, rfl⟩, rfl, by decide, by decide, rfl,
    host_succession (run [] lobbyOfThree) ⟨lobbyOfThree, rfl⟩ "a" "R" smallRoom rfl
      (by decide) (by decide) (Action.disconnect "a") (Or.inr rfl)⟩

/-! ## What the outcome reveals -/

/-- C17 as stated fails: `a` is the impostor of the round and has two votes when
`a` disconnects; the vote concludes with `winnerId = a`, but the message carries
`winnerName = undefined` and `isImpostor = false`. -/
theorem departed_impostor_not_revealed :
    (JsMap.get (run [] impostorAccused) "R").bind (fun r => JsMap.get r.players "a")
        = some { name := "Ann", isImpostor := true }
      ∧ (disconnect "a" (run [] impostorAccused)).events
        = [Event.votingEnded "R" (some "a") JsName.undefined (some false) [("a", 2)]] :=
  ⟨rfl, rfl⟩

/-- C17, amended: when `endVoting` announces a winner (a non-empty `winnerId`) who
is a member of the room at that moment, `winnerName` is that member's name and
`isImpostor` is that member's `isImpostor` flag; when the winner is no longer a
member, `winnerName` is `undefined` and `isImpostor` is `false`.  The flag of a
member is the one set by `startGame` at the start of the round: on a reachable
registry, one action that keeps a room out of phase `lobby` does not add a member
and does not change the name or flag of a member. -/
theorem votingEnded_reveals_member_winner (s : Rooms) (h : Reachable s) :
    (∀ (rooms : Rooms) (code : RoomCode) (room : Room) (w : SocketId),
        JsMap.get rooms code = some room → (scanVotes room.votes).1 = some w → w ≠ "" →
        (∀ p, JsMap.get room.players w = some p →
          (endVoting rooms code).2
            = [Event.votingEnded code (some w) (JsName.str p.name) (some p.isImpostor)
                room.votes]) ∧
        (JsMap.get room.players w = none →
          (endVoting rooms code).2
            = [Event.votingEnded code (some w) JsName.undefined (some false) room.votes])) ∧
    (∀ a code before after, JsMap.get s code = some before →
        JsMap.get (step s a).rooms code = some after →
        before.phase ≠ Phase.lobby → after.phase ≠ Phase.lobby →
        ∀ e ∈ after.players, e ∈ before.players) := by
  constructor
  · intro rooms code room w hg hw hne
    have ht : truthy (some w) = true := by simp [truthy, hne]
    constructor
    · intro p hp
      simp [endVoting, hg, votingEndedEvent, hw, ht, hp]
    · intro hp
      simp [endVoting, hg, votingEndedEvent, hw, ht, hp]
  · intro a code before after hb ha h1 h2
    exact players_stable s (regOk_of_reachable s h) a code before after hb ha h1 h2

theorem votingEnded_reveals_member_winner_witness :
    Reachable (run [] twoVotesForTarget) ∧
    ((∀ (rooms : Rooms) (code : RoomCode) (room : Room) (w : SocketId),
        JsMap.get rooms code = some room → (scanVotes room.votes).1 = some w → w ≠ "" →
        (∀ p, JsMap.get room.players w = some p →
          (endVoting rooms code).2
            = [Event.votingEnded code (some w) (JsName.str p.name) (some p.isImpostor)
                room.votes]) ∧
        (JsMap.get room.players w = none →
          (endVoting rooms code).2
            = [Event.votingEnded code (some w) JsName.undefined (some false) room.votes])) ∧
    (∀ a code before after, JsMap.get (run [] twoVotesForTarget) code = some before →
        JsMap.get (step (run [] twoVotesForTarget) a).rooms code = some after →
        before.phase ≠ Phase.lobby → after.phase ≠ Phase.lobby →
        ∀ e ∈ after.players, e ∈ before.players)) :=
  ⟨⟨twoVotesForTarget, rfl⟩,
    votingEnded_reveals_member_winner (run [] twoVotesForTarget) ⟨twoVotesForTarget, rfl⟩⟩

/-! ## A majority names its target -/

/-- C20: take a reachable registry in which the room is not voting, and let any
sequence of actions follow in which no member leaves the room or disconnects from
it.  If the room is then in phase `voting`, the counts in `votes` add up to the
size of `hasVoted`, which is at most the number of members; and every accepted
`castVote` that brings the count of its target to at least `floor(N/2) + 1`
concludes the vote with a `votingEnded` message whose `winnerId` is that target. -/
theorem majority_vote_names_target (s0 : Rooms) (h0 : Reachable s0) (code : RoomCode)
    (hstart : (JsMap.get s0 code).map (fun r => r.phase) ≠ some Phase.voting)
    (actions : List Action) (hq : noDeparture code s0 actions = true) (room : Room)
    (hg : JsMap.get (run s0 actions) code = some room) (hph : room.phase = Phase.voting) :
    votesTotal room.votes = room.hasVoted.length
      ∧ room.hasVoted.length ≤ room.players.length
      ∧ ∀ sid target, (castVote sid code target (run s0 actions)).ack = some Ack.ok →
          room.players.length / 2 + 1 ≤ (JsMap.get room.votes target).getD 0 + 1 →
          ∃ name imp tally,
            (castVote sid code target (run s0 actions)).events
              = [Event.voteProgress code (room.hasVoted.length + 1) room.players.length,
                 Event.votingEnded code (some target) name imp tally] := by
  have hs0 := regOk_of_reachable s0 h0
  have hs := run_ok actions s0 hs0
  have hr := regOk_get _ code room hs hg
  have hv0 : ∀ r, JsMap.get s0 code = some r → VoteSound r := by
    intro r hr0 hp
    rw [hr0] at hstart
    simp [hp] at hstart
  obtain ⟨htot, hmem⟩ := voteSound_run code actions s0 hs0 hv0 hq room hg hph
  have hle : room.hasVoted.length ≤ room.players.length := by
    have := lengthLe_of_subset _ _ hr.voted_nodup hmem
    simpa [JsMap.keys] using this
  refine ⟨htot, hle, ?_⟩
  intro sid target hack hmaj
  obtain ⟨room', hg', _, hm, ht, hnv⟩ := castVote_ack_ok sid code target _ hack
  rw [hg] at hg'
  cases hg'
  rw [castVote_majority_events sid code target _ room hg hph hm ht hnv hmaj]
  have hlen : room.hasVoted.length + 1 ≤ room.players.length := by
    have hnd : (sid :: room.hasVoted).Nodup := List.nodup_cons.2 ⟨hnv, hr.voted_nodup⟩
    have hsub : ∀ x ∈ sid :: room.hasVoted, x ∈ JsMap.keys room.players := by
      intro x hx
      rcases List.mem_cons.1 hx with h | h
      · rw [h]; exact hm
      · exact hmem x h
    have := lengthLe_of_subset _ _ hnd hsub
    simpa [JsMap.keys] using this
  have hn1 : (JsMap.keys (votedRoom sid target room).votes).Nodup :=
    JsMap.nodup_keys_set _ _ _ hr.votes_nodup
  have hp1 : ∀ e ∈ (votedRoom sid target room).votes, 0 < e.2 := by
    intro e he
    rcases JsMap.mem_set _ _ _ _ he with h | h
    · exact hr.votes_pos e h
    · subst h; exact Nat.succ_pos _
  have hwin : (scanVotes (votedRoom sid target room).votes).1 = some target := by
    rw [scan_some_iff _ hn1 hp1]
    refine ⟨(JsMap.get room.votes target).getD 0 + 1, JsMap.mem_set_self _ _ _, ?_⟩
    intro e he hne
    rcases JsMap.mem_set _ _ _ _ he with h | h
    · have := pair_le_total room.votes target e h hne
      omega
    · subst h; exact absurd rfl hne
  simp only [votingEndedEvent, hwin]
  exact ⟨_, _, _, rfl⟩

theorem majority_vote_names_target_witness :
    Reachable (run [] twoReady)
    ∧ (JsMap.get (run [] twoReady) "R").map (fun r => r.phase) ≠ some Phase.voting
    ∧ noDeparture "R" (run [] twoReady) voteForTarget = true
    ∧ JsMap.get (run (run [] twoReady) voteForTarget) "R" = some
        { hostId := "a", started := true, word := some "pizza",
          players := [("a", { name := "Ann", isImpostor := true }),
                      ("b", { name := "Bob", isImpostor := false }),
                      ("c", { name := "Cy", isImpostor := false }),
                      ("d", { name := "Dan", isImpostor := false })],
          phase := Phase.voting, readySet := ["a", "b", "c"], votes := [("b", 2)],
          hasVoted := ["a", "c"] }
    ∧ (castVote "d" "R" "b" (run (run [] twoReady) voteForTarget)).ack = some Ack.ok
    ∧ ∃ name imp tally,
        (castVote "d" "R" "b" (run (run [] twoReady) voteForTarget)).events
          = [Event.voteProgress "R" 3 4, Event.votingEnded "R" (some "b") name imp tally] :=
  ⟨⟨twoReady, rfl⟩, by decide, rfl, rfl, rfl,
    (majority_vote_names_target (run [] twoReady) ⟨twoReady, rfl⟩ "R" (by decide)
      voteForTarget rfl
      { hostId := "a", started := true, word := some "pizza",
        players := [("a", { name := "Ann", isImpostor := true }),
                    ("b", { name := "Bob", isImpostor := false }),
                    ("c", { name := "Cy", isImpostor := false }),
                    ("d", { name := "Dan", isImpostor := false })],
        phase := Phase.voting, readySet := ["a", "b", "c"], votes := [("b", 2)],
        hasVoted := ["a", "c"] }
      rfl rfl).2.2 "d" "b" rfl (by decide)⟩

end Impostor
